import Mathlib

/-!
Identity store (lyraproj/identity): shallow embedding of `identity/identity.go`.

The store is a bbolt file with five buckets.  The embedding keeps the decoded
records in the buckets (gob `marshal*`/`unmarshal*` are inverse to each other on
the three record shapes, so a bucket of encoded tuples is a bucket of tuples),
represents a Go string by its bytes, `time.Time` by an integer instant and the
`int64` era by an integer that wraps at 64 bits.  `time.Now()` is an argument of
the operations that read the clock.

A transaction function takes the state `tx` and returns the state after its
writes, or the `identityError` it panics with; `Update` commits the writes of a
function that returns and rolls back those of a function that fails.

`NewIdentity` works on the file before it is known to be a store: there each of the five
buckets may be absent (`DbFile`).  The version check uses package `semver`, which is not
part of the sources and is modelled on versions of the form `major.minor.patch`.
-/

namespace Identity

/-- A Go `string` / `[]byte`: a sequence of bytes. -/
abbrev GoString := List Nat

/-- Source `type tuple struct` (identity.go:29-34); `Timestamp` is an instant. -/
structure tuple where
  InternalID : GoString
  ExternalID : GoString
  Timestamp : Int
  Era : Int
deriving DecidableEq, Repr

/-- Source `type reference = tuple` (identity.go:38): the other id is carried in `ExternalID`. -/
abbrev reference := tuple

/-- Source `type storeMeta struct` (identity.go:40-44). -/
structure storeMeta where
  Version : GoString
  Timestamp : Int
  Era : Int
deriving DecidableEq, Repr

/-- The five bucket names (identity.go:57-61). -/
inductive BucketName where
  | metadata
  | internalToExternal
  | externalToInternal
  | references
  | garbage
deriving DecidableEq, Repr

/-- Source `identityError` (identity.go:47): the faults raised inside a transaction.
`invalidFormat` is the panic of `readMetadata`, `writeFailed bid` the panic of
`putInBucket` on bucket `bid`. -/
inductive identityError where
  | invalidFormat
  | writeFailed (bid : BucketName)
deriving DecidableEq, Repr

/-- A bbolt bucket holding decoded values: key/value entries in iteration order. -/
abbrev Bucket (V : Type) := List (GoString × V)

/-- Go `bytes.Compare(a, b) < 0`: the key order of a bbolt bucket. -/
def bytesLess : GoString → GoString → Bool
  | [], [] => false
  | [], _ :: _ => true
  | _ :: _, [] => false
  | a :: as, b :: bs => if a < b then true else if b < a then false else bytesLess as bs

/-- bbolt `Bucket.Get`: the value stored at `key`, `none` for Go `nil`. -/
def Bucket.Get {V : Type} : Bucket V → GoString → Option V
  | [], _ => none
  | (k, v) :: rest, key => if k = key then some v else Bucket.Get rest key

/-- Writing `key` into the sorted entries: replace the entry at `key`, or insert it in key order. -/
def Bucket.insert {V : Type} : Bucket V → GoString → V → Bucket V
  | [], key, v => [(key, v)]
  | (k, w) :: rest, key, v =>
    if k = key then (key, v) :: rest
    else if bytesLess key k then (key, v) :: (k, w) :: rest
    else (k, w) :: Bucket.insert rest key v

/-- bbolt `MaxKeySize`: the largest length of a key, in bytes. -/
def MaxKeySize : Nat := 32768

/-- bbolt `Bucket.Put`: fails on the empty key (`ErrKeyRequired`) and on a key longer than
`MaxKeySize` (`ErrKeyTooLarge`), else writes.  `ErrValueTooLarge` needs a record of 2 GiB:
such a record holds an id that no key can hold, and each transaction that writes a new
record also writes its ids as keys, so it fails here as well (for an external id of that
size at the write of the reverse entry, not of the forward entry). -/
def Bucket.Put {V : Type} (b : Bucket V) (key : GoString) (v : V) : Option (Bucket V) :=
  if key = [] then none
  else if MaxKeySize < key.length then none
  else some (b.insert key v)

/-- bbolt `Bucket.Delete`: removes the entry at `key`; a missing (or empty) key is no error. -/
def Bucket.Delete {V : Type} (b : Bucket V) (key : GoString) : Bucket V :=
  b.filter (fun kv => decide (kv.1 ≠ key))

/-- The state of an opened store: the record of the `metadata` bucket and the four data
buckets (identity.go:57-61).  `metadata = none` is a metadata bucket without its record. -/
structure Store where
  metadata : Option storeMeta
  internalToExternal : Bucket tuple
  externalToInternal : Bucket GoString
  references : Bucket reference
  garbage : Bucket tuple
deriving DecidableEq, Repr

/-- Go `int64` wrap-around of an integer. -/
def wrapInt64 (x : Int) : Int := (x + 2 ^ 63) % 2 ^ 64 - 2 ^ 63

/-- Go `strings.HasPrefix(s, pfx)`. -/
def HasPrefix (s pfx : GoString) : Bool := pfx.isPrefixOf s

/-- Go `bytes.Equal(a, b)` where `a` is the result of a `Get` (`nil` equals the empty slice). -/
def bytesEqual (a : Option GoString) (b : GoString) : Bool := decide (a.getD [] = b)

/-- Source `putInBucket` (identity.go:638-643): the bucket after the write, or the panic. -/
def putInBucket {V : Type} (bid : BucketName) (b : Bucket V) (key : GoString) (data : V) :
    Except identityError (Bucket V) :=
  match b.Put key data with
  | some b1 => .ok b1
  | none => .error (.writeFailed bid)

/-- Source `deleteFromBucket` (identity.go:631-636); `Delete` has no failure in a write transaction. -/
def deleteFromBucket {V : Type} (b : Bucket V) (key : GoString) : Bucket V := b.Delete key

/-- Source `readMetadata` (identity.go:542-548). -/
def readMetadata (tx : Store) : Except identityError storeMeta :=
  match tx.metadata with
  | some md => .ok md
  | none => .error .invalidFormat

/-- Source `readTuple` (identity.go:558-564). -/
def readTuple (tx : Store) (internalID : GoString) : Option tuple :=
  tx.internalToExternal.Get internalID

/-- Source `readReference` (identity.go:566-572). -/
def readReference (tx : Store) (refID : GoString) : Option reference :=
  tx.references.Get refID

/-- Source `updateEra` (identity.go:550-556): the write goes to `internalToExternal`
at key `t.InternalID`, whatever bucket `t` was read from. -/
def updateEra (t : tuple) (tx : Store) : Except identityError Store :=
  match readMetadata tx with
  | .error e => .error e
  | .ok md =>
    if t.Era < md.Era then
      match putInBucket .internalToExternal tx.internalToExternal t.InternalID
          { t with Era := md.Era } with
      | .ok b => .ok { tx with internalToExternal := b }
      | .error e => .error e
    else .ok tx

/-- Source `addToGarbage` (identity.go:512-515). -/
def addToGarbage (tx : Store) (t : tuple) : Except identityError Store :=
  match putInBucket .garbage tx.garbage t.ExternalID t with
  | .ok g => .ok { tx with garbage := g }
  | .error e => .error e

/-- Source `removeExternal` (identity.go:476-492). -/
def removeExternal (tx : Store) (eid : GoString) (moveToGarbage : Bool) :
    Except identityError Store :=
  match tx.externalToInternal.Get eid with
  | none => .ok tx
  | some iid =>
    let tx1 : Store := { tx with externalToInternal := deleteFromBucket tx.externalToInternal eid }
    match readTuple tx1 iid with
    | none => .ok tx1
    | some t =>
      if t.ExternalID = eid then
        let tx2 : Store :=
          { tx1 with internalToExternal := deleteFromBucket tx1.internalToExternal iid }
        if moveToGarbage then addToGarbage tx2 t else .ok tx2
      else .ok tx1

/-- Source `removeInternal` (identity.go:494-510). -/
def removeInternal (tx : Store) (iid : GoString) (moveToGarbage : Bool) :
    Except identityError Store :=
  match readTuple tx iid with
  | none => .ok tx
  | some t =>
    let tx1 : Store := { tx with internalToExternal := deleteFromBucket tx.internalToExternal iid }
    let eid := t.ExternalID
    let tx2 : Store :=
      if bytesEqual (tx1.externalToInternal.Get eid) iid then
        { tx1 with externalToInternal := deleteFromBucket tx1.externalToInternal eid }
      else tx1
    if moveToGarbage then addToGarbage tx2 t else .ok tx2

/-- Source `refKey` (identity.go:213-215). -/
def refKey (internalId otherId : GoString) : GoString := internalId ++ [1] ++ otherId

/-- Go `sort.Slice(xs, func(i, j) { xs[i].Timestamp.Before(xs[j].Timestamp) })`: the
elements in ascending timestamp order.  Go leaves the order of elements with equal
timestamps open; this sort keeps them in their order of arrival. -/
def sortSlice (xs : List tuple) : List tuple :=
  xs.insertionSort (fun a b => a.Timestamp ≤ b.Timestamp)

/-- The loop body of `buildReferences` (identity.go:424-440) for one reference. -/
def buildReferencesStep (purge : Bool) (acc : Store × List GoString) (ref : reference) :
    Store × List GoString :=
  if acc.2.any (fun pfx => HasPrefix ref.InternalID pfx) then
    ((if purge then
        { acc.1 with references := acc.1.references.Delete (refKey ref.InternalID ref.ExternalID) }
      else acc.1),
     acc.2 ++ [ref.ExternalID])
  else acc

/-- Source `buildReferences` (identity.go:402-443): the state after the purge and the
prefixes.  Its error results cannot occur (`ForEach` with a callback that returns nil,
`Delete` in a write transaction). -/
def buildReferences (tx : Store) (era : Int) (internalIDPrefix : GoString) (purge : Bool) :
    Store × List GoString :=
  let refsInEra : List reference :=
    (tx.references.map Prod.snd).filter (fun r => decide (r.Era < era))
  let prefixes : List GoString := [internalIDPrefix]
  if refsInEra.length > 0 then
    (sortSlice refsInEra).foldl (buildReferencesStep purge) (tx, prefixes)
  else (tx, prefixes)

/-- The callback of `Sweep` (identity.go:381-397) for one forward entry. -/
def sweepStep (era : Int) (prefixes : List GoString) (acc : Except identityError Store)
    (kv : GoString × tuple) : Except identityError Store :=
  match acc with
  | .error e => .error e
  | .ok tx =>
    if prefixes.any (fun pfx => HasPrefix kv.1 pfx) then
      if kv.2.Era < era then addToGarbage tx kv.2 else .ok tx
    else .ok tx

/-- `db.Update` under `withDb` (identity.go:517-540): commit on return, roll back on a
fault, which is handed to the caller as the error. -/
def Update (s : Store) (fn : Store → Except identityError Store) : Store × Option identityError :=
  match fn s with
  | .ok s1 => (s1, none)
  | .error e => (s, some e)

/-- `db.View` under `withDb`: the function reads the state and writes nothing. -/
def View {α : Type} (s : Store) (fn : Store → Except identityError α) : Except identityError α :=
  fn s

/-- The transaction of `BumpEra` (identity.go:159-164); key `metadata` is not empty. -/
def BumpEraTx (tx : Store) : Except identityError Store :=
  match readMetadata tx with
  | .error e => .error e
  | .ok md => .ok { tx with metadata := some { md with Era := wrapInt64 (md.Era + 1) } }

/-- Source `BumpEra` (identity.go:157-166). -/
def BumpEra (s : Store) : Store × Option identityError := Update s BumpEraTx

/-- Source `ReadEra` (identity.go:169-177). -/
def ReadEra (s : Store) : Except identityError Int :=
  View s (fun tx => match readMetadata tx with
    | .ok md => .ok md.Era
    | .error e => .error e)

/-- Lines 201-208 of `Associate`: remove the mapping of the external id, then add the
mapping in both directions. -/
def associateInsert (tx : Store) (internalID externalID : GoString) (now : Int) :
    Except identityError Store :=
  match removeExternal tx externalID true with
  | .error e => .error e
  | .ok tx1 =>
    match readMetadata tx1 with
    | .error e => .error e
    | .ok m =>
      match putInBucket .internalToExternal tx1.internalToExternal internalID
          ⟨internalID, externalID, now, m.Era⟩ with
      | .error e => .error e
      | .ok f =>
        match putInBucket .externalToInternal tx1.externalToInternal externalID internalID with
        | .error e => .error e
        | .ok r => .ok { tx1 with internalToExternal := f, externalToInternal := r }

/-- The transaction of `Associate` (identity.go:186-209). -/
def AssociateTx (internalID externalID : GoString) (now : Int) (tx : Store) :
    Except identityError Store :=
  let tx1 : Store := { tx with garbage := deleteFromBucket tx.garbage externalID }
  match readTuple tx1 internalID with
  | some t =>
    if t.ExternalID = externalID then updateEra t tx1
    else
      match removeInternal tx1 internalID true with
      | .error e => .error e
      | .ok tx2 => associateInsert tx2 internalID externalID now
  | none => associateInsert tx1 internalID externalID now

/-- Source `Associate` (identity.go:184-211). -/
def Associate (s : Store) (internalID externalID : GoString) (now : Int) :
    Store × Option identityError :=
  Update s (AssociateTx internalID externalID now)

/-- The transaction of `AddReference` (identity.go:219-230). -/
def AddReferenceTx (internalId otherId : GoString) (now : Int) (tx : Store) :
    Except identityError Store :=
  match readReference tx (refKey internalId otherId) with
  | some t => updateEra t tx
  | none =>
    match readMetadata tx with
    | .error e => .error e
    | .ok m =>
      match putInBucket .references tx.references (refKey internalId otherId)
          ⟨internalId, otherId, now, m.Era⟩ with
      | .error e => .error e
      | .ok r => .ok { tx with references := r }

/-- Source `AddReference` (identity.go:217-232). -/
def AddReference (s : Store) (internalId otherId : GoString) (now : Int) :
    Store × Option identityError :=
  Update s (AddReferenceTx internalId otherId now)

/-- The transaction of `GetExternal` (identity.go:239-246). -/
def GetExternalTx (internalID : GoString) (tx : Store) : Except identityError Store :=
  match readTuple tx internalID with
  | some t => updateEra t tx
  | none => .ok tx

/-- Source `GetExternal` (identity.go:236-249): the state, the returned external id
(assigned before the era refresh, so also returned beside an error) and the error. -/
def GetExternal (s : Store) (internalID : GoString) : Store × GoString × Option identityError :=
  let externalID : GoString :=
    match readTuple s internalID with
    | some t => t.ExternalID
    | none => []
  let r := Update s (GetExternalTx internalID)
  (r.1, externalID, r.2)

/-- The transaction of `GetInternal` (identity.go:256-267). -/
def GetInternalTx (externalID : GoString) (tx : Store) : Except identityError Store :=
  match tx.externalToInternal.Get externalID with
  | none => .ok tx
  | some iid =>
    match readTuple tx iid with
    | some t => updateEra t tx
    | none => .ok tx

/-- Source `GetInternal` (identity.go:253-270). -/
def GetInternal (s : Store) (externalID : GoString) : Store × GoString × Option identityError :=
  let internalID : GoString :=
    match s.externalToInternal.Get externalID with
    | some iid => iid
    | none => []
  let r := Update s (GetInternalTx externalID)
  (r.1, internalID, r.2)

/-- The transaction of `PurgeExternal` (identity.go:276-281). -/
def PurgeExternalTx (externalID : GoString) (tx : Store) : Except identityError Store :=
  match removeExternal tx externalID false with
  | .error e => .error e
  | .ok tx1 => .ok { tx1 with garbage := deleteFromBucket tx1.garbage externalID }

/-- Source `PurgeExternal` (identity.go:274-283). -/
def PurgeExternal (s : Store) (externalID : GoString) : Store × Option identityError :=
  Update s (PurgeExternalTx externalID)

/-- The transaction of `PurgeInternal` (identity.go:289-308). -/
def PurgeInternalTx (internalID : GoString) (tx : Store) : Except identityError Store :=
  match removeInternal tx internalID false with
  | .error e => .error e
  | .ok tx1 =>
    let es : List GoString :=
      (tx1.garbage.filter (fun kv => decide (kv.2.InternalID = internalID))).map Prod.fst
    .ok { tx1 with garbage := es.foldl (fun g eid => deleteFromBucket g eid) tx1.garbage }

/-- Source `PurgeInternal` (identity.go:287-310). -/
def PurgeInternal (s : Store) (internalID : GoString) : Store × Option identityError :=
  Update s (PurgeInternalTx internalID)

/-- The transaction of `PurgeReferences` (identity.go:315-319). -/
def PurgeReferencesTx (internalIDPrefix : GoString) (tx : Store) : Except identityError Store :=
  match readMetadata tx with
  | .error e => .error e
  | .ok md => .ok (buildReferences tx md.Era internalIDPrefix true).1

/-- Source `PurgeReferences` (identity.go:313-321). -/
def PurgeReferences (s : Store) (internalIDPrefix : GoString) : Store × Option identityError :=
  Update s (PurgeReferencesTx internalIDPrefix)

/-- Source `RemoveExternal` (identity.go:324-331). -/
def RemoveExternal (s : Store) (externalID : GoString) : Store × Option identityError :=
  Update s (fun tx => removeExternal tx externalID true)

/-- Source `RemoveInternal` (identity.go:334-341). -/
def RemoveInternal (s : Store) (internalID : GoString) : Store × Option identityError :=
  Update s (fun tx => removeInternal tx internalID true)

/-- The transaction of `Sweep` (identity.go:374-398). -/
def SweepTx (internalIDPrefix : GoString) (tx : Store) : Except identityError Store :=
  match readMetadata tx with
  | .error e => .error e
  | .ok md =>
    let r := buildReferences tx md.Era internalIDPrefix false
    r.1.internalToExternal.foldl (sweepStep md.Era r.2) (.ok r.1)

/-- Source `Sweep` (identity.go:372-400). -/
def Sweep (s : Store) (internalIDPrefix : GoString) : Store × Option identityError :=
  Update s (SweepTx internalIDPrefix)

/-- Source `sortedValueTuples` (identity.go:622-629); a value tuple is kept as its tuple. -/
def sortedValueTuples (vts : List tuple) : List tuple := sortSlice vts

/-- Source `Search` (identity.go:350-366). -/
def Search (s : Store) (internalIDPrefix : GoString) : Except identityError (List tuple) :=
  match View s (fun tx => .ok ((tx.internalToExternal.filter
      (fun kv => HasPrefix kv.1 internalIDPrefix)).map Prod.snd)) with
  | .error e => .error e
  | .ok found => .ok (sortedValueTuples found)

/-- Source `Garbage` (identity.go:448-474). -/
def Garbage (s : Store) (internalIDPrefix : GoString) : Except identityError (List tuple) :=
  match View s (fun tx =>
      match readMetadata tx with
      | .error e => .error e
      | .ok md =>
        let r := buildReferences tx md.Era internalIDPrefix false
        .ok ((r.1.garbage.map Prod.snd).filter
          (fun t => r.2.any (fun pfx => HasPrefix t.InternalID pfx)))) with
  | .error e => .error e
  | .ok gs => .ok (sortedValueTuples gs)

/-- What `NewIdentity` writes into an empty file (identity.go:130-147): the metadata
record with version `1.1.0` and era 0, and four empty buckets. -/
def newStore (now : Int) : Store :=
  { metadata := some ⟨[49, 46, 49, 46, 48], now, 0⟩
    internalToExternal := []
    externalToInternal := []
    references := []
    garbage := [] }

/-- A call of a public operation that writes. -/
inductive Op where
  | Associate (internalID externalID : GoString) (now : Int)
  | AddReference (internalId otherId : GoString) (now : Int)
  | GetExternal (internalID : GoString)
  | GetInternal (externalID : GoString)
  | RemoveExternal (externalID : GoString)
  | RemoveInternal (internalID : GoString)
  | PurgeExternal (externalID : GoString)
  | PurgeInternal (internalID : GoString)
  | PurgeReferences (internalIDPrefix : GoString)
  | Sweep (internalIDPrefix : GoString)
  | BumpEra
deriving DecidableEq, Repr

/-- The store after one call. -/
def Op.apply (s : Store) : Op → Store
  | .Associate i e now => (Identity.Associate s i e now).1
  | .AddReference i o now => (Identity.AddReference s i o now).1
  | .GetExternal i => (Identity.GetExternal s i).1
  | .GetInternal e => (Identity.GetInternal s e).1
  | .RemoveExternal e => (Identity.RemoveExternal s e).1
  | .RemoveInternal i => (Identity.RemoveInternal s i).1
  | .PurgeExternal e => (Identity.PurgeExternal s e).1
  | .PurgeInternal i => (Identity.PurgeInternal s i).1
  | .PurgeReferences p => (Identity.PurgeReferences s p).1
  | .Sweep p => (Identity.Sweep s p).1
  | .BumpEra => (Identity.BumpEra s).1

/-- The store after a sequence of calls. -/
def run (s : Store) (ops : List Op) : Store := ops.foldl Op.apply s

/-- The states reachable from a freshly created store by public operations. -/
def Reachable (s : Store) : Prop := ∃ now ops, s = run (newStore now) ops

/-- No key of the four data buckets is longer than bbolt accepts. -/
def Store.KeysFit (s : Store) : Prop :=
  (∀ kv ∈ s.internalToExternal, kv.1.length ≤ MaxKeySize) ∧
  (∀ kv ∈ s.externalToInternal, kv.1.length ≤ MaxKeySize) ∧
  (∀ kv ∈ s.garbage, kv.1.length ≤ MaxKeySize) ∧
  (∀ kv ∈ s.references, kv.1.length ≤ MaxKeySize)

/-- The data model of the buckets (spec §3, and bbolt keys are neither empty nor longer than
`MaxKeySize`): the metadata record is present, a forward entry is keyed by the internal id
of its tuple, a garbage entry by the external id of its tuple, a reference by `refKey` of
its two ids, no key is empty and no key is too long. -/
def Store.WellFormed (s : Store) : Prop :=
  s.metadata.isSome = true ∧
  (∀ kv ∈ s.internalToExternal, kv.2.InternalID = kv.1 ∧ kv.1 ≠ []) ∧
  (∀ kv ∈ s.externalToInternal, kv.1 ≠ []) ∧
  (∀ kv ∈ s.garbage, kv.2.ExternalID = kv.1 ∧ kv.1 ≠ []) ∧
  (∀ kv ∈ s.references, kv.1 = refKey kv.2.InternalID kv.2.ExternalID) ∧
  s.KeysFit

instance (s : Store) : Decidable s.WellFormed := by
  unfold Store.WellFormed Store.KeysFit
  infer_instance

/-- The forward and the reverse index agree: a forward entry `i -> t` has the reverse
entry `t.ExternalID -> i`, and a reverse entry `e -> i` has a forward entry `i -> t` with
`t.ExternalID = e`. -/
def Store.Agree (s : Store) : Prop :=
  (∀ k t, s.internalToExternal.Get k = some t → s.externalToInternal.Get t.ExternalID = some k) ∧
  (∀ e k, s.externalToInternal.Get e = some k →
    ∃ t, s.internalToExternal.Get k = some t ∧ t.ExternalID = e)

/-- Decidable form of `Store.Agree`, over the entries of the two buckets. -/
def Store.agreeCheck (s : Store) : Bool :=
  s.internalToExternal.all (fun kv =>
    decide (s.internalToExternal.Get kv.1 = some kv.2 →
      s.externalToInternal.Get kv.2.ExternalID = some kv.1)) &&
  s.externalToInternal.all (fun kv =>
    decide (s.externalToInternal.Get kv.1 = some kv.2 →
      (s.internalToExternal.Get kv.2).map tuple.ExternalID = some kv.1))

/-- Specification of the era refresh (spec §4.E): the era of the tuple becomes `era` when
it was lower, every other field is kept. -/
def tuple.refreshed (t : tuple) (era : Int) : tuple :=
  { t with Era := if t.Era < era then era else t.Era }

/-- The operations that neither sweep nor add a reference. -/
def Op.isMapping : Op → Bool
  | .Sweep _ => false
  | .AddReference _ _ _ => false
  | _ => true

/-- The states reachable from a freshly created store without `Sweep` and `AddReference`. -/
def ReachableMapping (s : Store) : Prop :=
  ∃ now ops, (∀ op ∈ ops, op.isMapping = true) ∧ s = run (newStore now) ops

/-- Specification of the marks of `Sweep` (spec §4.E, step 3): the garbage bucket after
the writes `garbage[t.ExternalID] := t` for the forward entries, in bucket order, whose key
starts with one of `prefixes` and whose tuple has an era below `era`. -/
def markStale (garbage forward : Bucket tuple) (prefixes : List GoString) (era : Int) :
    Bucket tuple :=
  ((forward.filter (fun kv =>
      prefixes.any (fun pfx => HasPrefix kv.1 pfx) && decide (kv.2.Era < era))).map
    Prod.snd).foldl (fun g t => g.insert t.ExternalID t) garbage

/-- The prefixes of `buildReferencesStep`, without the store: a reference whose internal
id starts with a prefix collected so far contributes its other id. -/
def expandStep (prefixes : List GoString) (ref : reference) : List GoString :=
  if prefixes.any (fun pfx => HasPrefix ref.InternalID pfx) then prefixes ++ [ref.ExternalID]
  else prefixes

/-- Auxiliary state of the proofs: the store without the forward entry of `i`, without the
reverse entry of the external id of `t`, and with `t` in the garbage bucket when
`moveToGarbage` is set. -/
def dropPair (tx : Store) (i : GoString) (t : tuple) (moveToGarbage : Bool) : Store :=
  { tx with
    internalToExternal := tx.internalToExternal.Delete i
    externalToInternal := tx.externalToInternal.Delete t.ExternalID
    garbage := if moveToGarbage then tx.garbage.insert t.ExternalID t else tx.garbage }

/-- Auxiliary state of the proofs: what `removeInternal` does on agreeing indices, drop the
pair of `i` if there is one. -/
def dropInternal (tx : Store) (i : GoString) (moveToGarbage : Bool) : Store :=
  match tx.internalToExternal.Get i with
  | some t => dropPair tx i t moveToGarbage
  | none => tx

/-- Auxiliary state of the proofs: what `removeExternal` does on agreeing indices, drop the
pair of `e` if there is one. -/
def dropExternal (tx : Store) (e : GoString) (moveToGarbage : Bool) : Store :=
  match tx.externalToInternal.Get e with
  | some j => dropInternal tx j moveToGarbage
  | none => tx

/-- Auxiliary state of the proofs: the store with the pair `(i, e)` added in both
directions. -/
def addPair (tx : Store) (i e : GoString) (now era : Int) : Store :=
  { tx with
    internalToExternal := tx.internalToExternal.insert i ⟨i, e, now, era⟩
    externalToInternal := tx.externalToInternal.insert e i }

/-- Auxiliary state of the proofs: what `Associate(i, e)` writes on agreeing indices when
`i` is not yet mapped to `e`.  The garbage entry of `e` goes, the pairs of `i` and of `e`
are dropped into the garbage bucket, and the pair `(i, e)` is added. -/
def reassociated (s : Store) (i e : GoString) (now era : Int) : Store :=
  addPair (dropExternal (dropInternal { s with garbage := s.garbage.Delete e } i true) e true)
    i e now era

/-- Garbage is disjoint from live: no garbage tuple has a forward entry with the same
internal and external id. -/
def Store.GarbageDisjoint (s : Store) : Prop :=
  ∀ k t, s.garbage.Get k = some t →
    ∀ t1, s.internalToExternal.Get t.InternalID = some t1 → t1.ExternalID ≠ t.ExternalID

/-- The invariant of the mapping engine: the data model and the agreement of the two
indices. -/
def Store.Inv (s : Store) : Prop := s.WellFormed ∧ s.Agree

/-- The store of test `TestSweepWithRef` before its `Sweep("a:")`; the ids are
`a:i1 = [97,58,105,49]`, `b:i2 = [98,58,105,50]`, `e1 = [101,49]` and so on. -/
def sweepWithRefStore : Store :=
  run (newStore 0)
    [.Associate [97, 58, 105, 49] [101, 49] 1, .Associate [97, 58, 105, 50] [101, 50] 2,
     .AddReference [97, 58, 105, 51] [98, 58] 3, .Associate [98, 58, 105, 49] [101, 51] 4,
     .Associate [98, 58, 105, 50] [101, 52] 5, .BumpEra, .GetExternal [97, 58, 105, 49],
     .GetExternal [98, 58, 105, 49]]

/-- The keys of a bucket are strictly ascending in byte order, as bbolt keeps them. -/
def Bucket.Sorted {V : Type} (b : Bucket V) : Prop :=
  b.Pairwise (fun x y => bytesLess x.1 y.1 = true)

/-- The keys of the four data buckets are strictly ascending. -/
def Store.KeysSorted (s : Store) : Prop :=
  s.internalToExternal.Sorted ∧ s.externalToInternal.Sorted ∧ s.references.Sorted ∧
  s.garbage.Sorted

/-- No tuple of the forward index, no tuple of the garbage bucket and no reference has an
era above `E`. -/
def Store.Below (E : Int) (s : Store) : Prop :=
  (∀ kv ∈ s.internalToExternal, kv.2.Era ≤ E) ∧ (∀ kv ∈ s.garbage, kv.2.Era ≤ E) ∧
  (∀ kv ∈ s.references, kv.2.Era ≤ E)

/-- The store has the metadata record `md`, whose era is at most `E`, sorted keys and no
record with an era above `E`. -/
def Store.Good (E : Int) (md : storeMeta) (s : Store) : Prop :=
  s.metadata = some md ∧ md.Era ≤ E ∧ s.KeysSorted ∧ s.Below E

/-- Era monotonicity (spec §3, invariant 4): no record has an era above the current era. -/
def Store.EraBound (s : Store) : Prop :=
  ∃ md, s.metadata = some md ∧ s.Below md.Era

/-- The call is a `BumpEra`. -/
def Op.isBump : Op → Bool
  | .BumpEra => true
  | _ => false

/-- The number of `BumpEra` calls of a sequence. -/
def bumps (ops : List Op) : Nat := (ops.filter Op.isBump).length

/-- A store whose era is the largest `int64`, with one mapping made in that era. -/
def lastEraStore : Store :=
  { metadata := some ⟨[49, 46, 49, 46, 48], 0, 9223372036854775807⟩
    internalToExternal := [([97], ⟨[97], [101], 1, 9223372036854775807⟩)]
    externalToInternal := [([101], [97])]
    references := []
    garbage := [] }

/-- The bijection of the mapping engine (spec §3): the tuple stored at a forward key has
that key as its internal id, and the forward and the reverse index agree. -/
def Store.Bijection (s : Store) : Prop :=
  (∀ k t, s.internalToExternal.Get k = some t → t.InternalID = k) ∧ s.Agree

/-- The bbolt file that `NewIdentity` opens: a bucket that was never created is `none`.
The metadata bucket is given by the record at its key `metadata`; `some none` is the
bucket without that record. -/
structure DbFile where
  metadata : Option (Option storeMeta)
  internalToExternal : Option (Bucket tuple)
  externalToInternal : Option (Bucket GoString)
  references : Option (Bucket reference)
  garbage : Option (Bucket tuple)
deriving DecidableEq, Repr

/-- The failures of `NewIdentity`: the three errors it makes itself (identity.go:107, 112,
127), `ErrBucketExists` of bbolt `CreateBucket`, and the panic of
`semver.MustParseVersion`, which `withDb` does not recover. -/
inductive openError where
  | invalidFormat
  | unsupportedVersion
  | predatesVersioning
  | bucketExists (bid : BucketName)
  | versionPanic
deriving DecidableEq, Repr

/-- Modelled from the spec: package `semver` (github.com/lyraproj/semver) is not among the
sources.  Spec §6 has the version follow semantic versioning; a version is its three
numbers `major.minor.patch`, pre-release and build suffixes are outside the model. -/
structure Version where
  major : Nat
  minor : Nat
  patch : Nat
deriving DecidableEq, Repr

/-- The parts of a string between its dots (byte 46). -/
def splitDots : GoString → List GoString
  | [] => [[]]
  | c :: cs =>
    if c = 46 then [] :: splitDots cs
    else
      match splitDots cs with
      | [] => [[c]]
      | p :: ps => (c :: p) :: ps

/-- A numeric identifier of semantic versioning: decimal digits without a leading zero. -/
def parseNumber (ds : GoString) : Option Nat :=
  if ds = [] then none
  else if ds.all (fun c => decide (48 ≤ c ∧ c ≤ 57)) &&
      (decide (ds.length = 1) || decide (ds.head? ≠ some 48)) then
    some (ds.foldl (fun n c => 10 * n + (c - 48)) 0)
  else none

/-- Modelled from the spec: `semver.MustParseVersion` of the absent package `semver`;
`none` is its panic on a string that is not `major.minor.patch`. -/
def MustParseVersion (s : GoString) : Option Version :=
  match splitDots s with
  | [a, b, c] =>
    match parseNumber a, parseNumber b, parseNumber c with
    | some x, some y, some z => some ⟨x, y, z⟩
    | _, _, _ => none
  | _ => none

/-- Modelled from the spec: `supportedVersions.Includes(v)` of the absent package `semver`
for the range `1.x` of identity.go:64 (spec §6: "Supported range is `1.x`"), the versions
with major number 1. -/
def supportedVersionsIncludes (v : Version) : Bool := v.major == 1

/-- The string `1.0.0` of identity.go:114. -/
def version100 : GoString := [49, 46, 48, 46, 48]

/-- The string `1.1.0`: `identityStoreVersion.String()` (identity.go:63, 130) and the
version written by the upgrade (identity.go:118). -/
def version110 : GoString := [49, 46, 49, 46, 48]

/-- bbolt `tx.CreateBucket`: fails with `ErrBucketExists` on a bucket that is there, else
the new bucket is empty. -/
def CreateBucket {V : Type} (bid : BucketName) (b : Option (Bucket V)) :
    Except openError (Bucket V) :=
  match b with
  | some _ => .error (.bucketExists bid)
  | none => .ok []

/-- The transaction of `NewIdentity` (identity.go:102-148).  The captured `err` is nil when
the function starts; `CreateBucket(metadata)` of line 131 runs where the bucket is absent
and the `Put` of the record at the non-empty key `metadata` has no failure. -/
def NewIdentityTx (now : Int) (tx : DbFile) : Except openError DbFile :=
  match tx.metadata with
  | some mbb =>
    match mbb with
    | none => .error .invalidFormat
    | some md =>
      match MustParseVersion md.Version with
      | none => .error .versionPanic
      | some v =>
        if supportedVersionsIncludes v = false then .error .unsupportedVersion
        else if md.Version = version100 then
          match CreateBucket .references tx.references with
          | .error e => .error e
          | .ok rb =>
            .ok { tx with
                  references := some rb
                  metadata := some (some { md with Version := version110 }) }
        else .ok tx
  | none =>
    match tx.internalToExternal with
    | some _ => .error .predatesVersioning
    | none =>
      match CreateBucket .internalToExternal tx.internalToExternal with
      | .error e => .error e
      | .ok fb =>
        match CreateBucket .externalToInternal tx.externalToInternal with
        | .error e => .error e
        | .ok eb =>
          match CreateBucket .garbage tx.garbage with
          | .error e => .error e
          | .ok gb =>
            match CreateBucket .references tx.references with
            | .error e => .error e
            | .ok rb =>
              .ok { metadata := some (some ⟨version110, now, 0⟩)
                    internalToExternal := some fb
                    externalToInternal := some eb
                    references := some rb
                    garbage := some gb }

/-- Source `NewIdentity` (identity.go:92-154) on the file it opens: the file afterwards
and the error; `db.Update` rolls back the writes of a transaction that fails. -/
def NewIdentity (f : DbFile) (now : Int) : DbFile × Option openError :=
  match NewIdentityTx now f with
  | .ok f1 => (f1, none)
  | .error e => (f, some e)

/-- A file without buckets, as `bolt.Open` creates it. -/
def emptyFile : DbFile := ⟨none, none, none, none, none⟩

/-- The file of a store that has all five buckets. -/
def Store.toFile (s : Store) : DbFile :=
  ⟨some s.metadata, some s.internalToExternal, some s.externalToInternal, some s.references,
    some s.garbage⟩

/-! Buckets -/

namespace Bucket
variable {V : Type}

theorem Get_insert_self (b : Bucket V) (k : GoString) (v : V) : (b.insert k v).Get k = some v := by
  induction b with
  | nil => simp [Bucket.insert, Bucket.Get]
  | cons hd tl ih =>
    obtain ⟨k0, w⟩ := hd
    simp only [Bucket.insert]
    split_ifs with h1 h2
    · simp [Bucket.Get]
    · simp [Bucket.Get]
    · simp [Bucket.Get, h1, ih]

theorem Get_insert_ne (b : Bucket V) {k k1 : GoString} (v : V) (h : k1 ≠ k) :
    (b.insert k v).Get k1 = b.Get k1 := by
  induction b with
  | nil => simp [Bucket.insert, Bucket.Get, h.symm]
  | cons hd tl ih =>
    obtain ⟨k0, w⟩ := hd
    simp only [Bucket.insert]
    split_ifs with h1 h2
    · subst h1; simp [Bucket.Get, h.symm]
    · simp [Bucket.Get, h.symm]
    · simp [Bucket.Get, ih]

theorem Get_Delete_self (b : Bucket V) (k : GoString) : (b.Delete k).Get k = none := by
  induction b with
  | nil => simp [Bucket.Delete, Bucket.Get]
  | cons hd tl ih =>
    obtain ⟨k0, w⟩ := hd
    by_cases h : k0 = k
    · simpa [Bucket.Delete, List.filter_cons, h] using ih
    · simpa [Bucket.Delete, List.filter_cons, h, Bucket.Get] using ih

theorem Get_Delete_ne (b : Bucket V) {k k1 : GoString} (h : k1 ≠ k) :
    (b.Delete k).Get k1 = b.Get k1 := by
  induction b with
  | nil => simp [Bucket.Delete, Bucket.Get]
  | cons hd tl ih =>
    obtain ⟨k0, w⟩ := hd
    by_cases h0 : k0 = k
    · subst h0
      have : ¬ k0 = k1 := fun e => h e.symm
      simpa [Bucket.Delete, List.filter_cons, Bucket.Get, this] using ih
    · by_cases h2 : k0 = k1
      · subst h2
        simp [Bucket.Delete, List.filter_cons, h0, Bucket.Get]
      · simpa [Bucket.Delete, List.filter_cons, h0, Bucket.Get, h2] using ih

theorem mem_of_Get {b : Bucket V} {k : GoString} {v : V} (h : b.Get k = some v) : (k, v) ∈ b := by
  induction b with
  | nil => simp [Bucket.Get] at h
  | cons hd tl ih =>
    obtain ⟨k0, w⟩ := hd
    simp only [Bucket.Get] at h
    split_ifs at h with h1
    · cases h; subst h1; exact List.mem_cons_self _ _
    · exact List.mem_cons_of_mem _ (ih h)

theorem mem_insert {b : Bucket V} {k : GoString} {v : V} {kv : GoString × V}
    (h : kv ∈ b.insert k v) : kv = (k, v) ∨ kv ∈ b := by
  induction b with
  | nil => simpa [Bucket.insert] using h
  | cons hd tl ih =>
    obtain ⟨k0, w⟩ := hd
    simp only [Bucket.insert] at h
    split_ifs at h with h1 h2
    · rcases List.mem_cons.1 h with h | h
      · exact Or.inl h
      · exact Or.inr (List.mem_cons_of_mem _ h)
    · rcases List.mem_cons.1 h with h | h
      · exact Or.inl h
      · exact Or.inr h
    · rcases List.mem_cons.1 h with h | h
      · exact Or.inr (h ▸ List.mem_cons_self _ _)
      · rcases ih h with h | h
        · exact Or.inl h
        · exact Or.inr (List.mem_cons_of_mem _ h)

theorem mem_Delete {b : Bucket V} {k : GoString} {kv : GoString × V}
    (h : kv ∈ b.Delete k) : kv ∈ b :=
  (List.mem_filter.1 h).1

theorem Get_nil_of_keys {b : Bucket V} (h : ∀ kv ∈ b, kv.1 ≠ []) : b.Get [] = none := by
  cases hg : b.Get [] with
  | none => rfl
  | some v => exact absurd rfl (h _ (mem_of_Get hg))

end Bucket


/-! Era refresh -/

/-- A `Put` at a key that is neither empty nor too long writes. -/
theorem Put_eq {V : Type} (b : Bucket V) {k : GoString} (v : V) (hk : k ≠ [])
    (hl : k.length ≤ MaxKeySize) : b.Put k v = some (b.insert k v) := by
  unfold Bucket.Put
  rw [if_neg hk, if_neg (Nat.not_lt.2 hl)]

/-- A `Put` that writes had a key that is neither empty nor too long. -/
theorem Put_some {V : Type} {b b1 : Bucket V} {k : GoString} {v : V} (h : b.Put k v = some b1) :
    k ≠ [] ∧ k.length ≤ MaxKeySize ∧ b1 = b.insert k v := by
  unfold Bucket.Put at h
  by_cases hk : k = []
  · rw [if_pos hk] at h; cases h
  · rw [if_neg hk] at h
    by_cases hl : MaxKeySize < k.length
    · rw [if_pos hl] at h; cases h
    · rw [if_neg hl] at h
      exact ⟨hk, Nat.not_lt.1 hl, (Option.some.inj h).symm⟩

theorem putInBucket_eq {V : Type} (bid : BucketName) (b : Bucket V) {k : GoString} (v : V)
    (hk : k ≠ []) (hl : k.length ≤ MaxKeySize) : putInBucket bid b k v = .ok (b.insert k v) := by
  unfold putInBucket
  rw [Put_eq b v hk hl]

theorem updateEra_eq (t : tuple) (tx : Store) (md : storeMeta) (hmd : tx.metadata = some md)
    (hk : t.InternalID ≠ []) (hl : t.InternalID.length ≤ MaxKeySize) :
    updateEra t tx = .ok (if t.Era < md.Era then
      { tx with internalToExternal :=
          tx.internalToExternal.insert t.InternalID { t with Era := md.Era } } else tx) := by
  simp only [updateEra, readMetadata, hmd, putInBucket_eq _ _ _ hk hl]
  split_ifs <;> rfl

theorem putInBucket_ok {V : Type} {bid : BucketName} {b b1 : Bucket V} {key : GoString}
    {data : V} (h : putInBucket bid b key data = .ok b1) : key ≠ [] ∧ b1 = b.insert key data := by
  cases hp : b.Put key data with
  | none => simp only [putInBucket, hp] at h; cases h
  | some b2 =>
    simp only [putInBucket, hp] at h
    cases h
    exact ⟨(Put_some hp).1, (Put_some hp).2.2⟩

/-- A `putInBucket` that returns had a key of at most `MaxKeySize` bytes. -/
theorem putInBucket_len {V : Type} {bid : BucketName} {b b1 : Bucket V} {key : GoString}
    {data : V} (h : putInBucket bid b key data = .ok b1) : key.length ≤ MaxKeySize := by
  cases hp : b.Put key data with
  | none => simp only [putInBucket, hp] at h; cases h
  | some b2 => exact (Put_some hp).2.1

/-- What an `updateEra` that returns has written. -/
theorem updateEra_ok {tx tx1 : Store} {t : tuple} (hu : updateEra t tx = .ok tx1) :
    tx1 = tx ∨
    ∃ md, tx.metadata = some md ∧ t.InternalID ≠ [] ∧ t.InternalID.length ≤ MaxKeySize ∧
      tx1 =
        { tx with
          internalToExternal :=
            tx.internalToExternal.insert t.InternalID { t with Era := md.Era } } := by
  cases hm : tx.metadata with
  | none => simp only [updateEra, readMetadata, hm] at hu; cases hu
  | some md =>
    have hrm : readMetadata tx = .ok md := by simp only [readMetadata, hm]
    by_cases hlt : t.Era < md.Era
    · right
      cases hp : putInBucket .internalToExternal tx.internalToExternal t.InternalID
          { t with Era := md.Era } with
      | error e => simp only [updateEra, hrm, hlt, if_true, hp] at hu; cases hu
      | ok b =>
        simp only [updateEra, hrm, hlt, if_true, hp] at hu
        cases hu
        rw [(putInBucket_ok hp).2]
        exact ⟨md, rfl, (putInBucket_ok hp).1, putInBucket_len hp, by rw [hm]⟩
    · left
      simp only [updateEra, hrm, hlt, if_false] at hu
      cases hu
      rfl

theorem fwd_key_of_wf {s : Store} (h : s.WellFormed) {k : GoString} {t : tuple}
    (hg : s.internalToExternal.Get k = some t) : t.InternalID = k ∧ k ≠ [] :=
  h.2.1 _ (Bucket.mem_of_Get hg)

theorem fwd_len_of_wf {s : Store} (h : s.WellFormed) {k : GoString} {t : tuple}
    (hg : s.internalToExternal.Get k = some t) : k.length ≤ MaxKeySize :=
  h.2.2.2.2.2.1 _ (Bucket.mem_of_Get hg)

theorem fit_insert {V : Type} {b : Bucket V} (h : ∀ kv ∈ b, kv.1.length ≤ MaxKeySize)
    {k : GoString} (v : V) (hk : k.length ≤ MaxKeySize) :
    ∀ kv ∈ b.insert k v, kv.1.length ≤ MaxKeySize := by
  intro kv hkv
  rcases Bucket.mem_insert hkv with rfl | hm
  · exact hk
  · exact h kv hm

theorem fit_Delete {V : Type} {b : Bucket V} (h : ∀ kv ∈ b, kv.1.length ≤ MaxKeySize)
    (k : GoString) : ∀ kv ∈ b.Delete k, kv.1.length ≤ MaxKeySize :=
  fun kv hkv => h kv (Bucket.mem_Delete hkv)

theorem GetExternal_hit (s : Store) (md : storeMeta) (hwf : s.WellFormed)
    (hmd : s.metadata = some md) (i : GoString) (t : tuple)
    (hg : s.internalToExternal.Get i = some t) :
    GetExternal s i = ((if t.Era < md.Era then
      { s with internalToExternal := s.internalToExternal.insert i { t with Era := md.Era } }
      else s), t.ExternalID, none) := by
  obtain ⟨h1, h2⟩ := fwd_key_of_wf hwf hg
  have hk : t.InternalID ≠ [] := by rw [h1]; exact h2
  have hl : t.InternalID.length ≤ MaxKeySize := by rw [h1]; exact fwd_len_of_wf hwf hg
  simp only [GetExternal, Update, GetExternalTx, readTuple, hg, updateEra_eq t s md hmd hk hl, h1]

theorem GetInternal_hit (s : Store) (md : storeMeta) (hwf : s.WellFormed)
    (hmd : s.metadata = some md) (e iid : GoString)
    (hg : s.externalToInternal.Get e = some iid) :
    GetInternal s e = ((match s.internalToExternal.Get iid with
      | some t => if t.Era < md.Era then
          { s with internalToExternal := s.internalToExternal.insert iid { t with Era := md.Era } }
          else s
      | none => s), iid, none) := by
  cases hf : s.internalToExternal.Get iid with
  | none => simp only [GetInternal, Update, GetInternalTx, readTuple, hg, hf]
  | some t =>
    obtain ⟨h1, h2⟩ := fwd_key_of_wf hwf hf
    have hk : t.InternalID ≠ [] := by rw [h1]; exact h2
    have hl : t.InternalID.length ≤ MaxKeySize := by rw [h1]; exact fwd_len_of_wf hwf hf
    simp only [GetInternal, Update, GetInternalTx, readTuple, hg, hf,
      updateEra_eq t s md hmd hk hl, h1]

/-! Well-formedness is kept by every bucket write -/

theorem wf_forward_insert {s : Store} (h : s.WellFormed) {k : GoString} {t : tuple}
    (h1 : t.InternalID = k) (h2 : k ≠ []) (h3 : k.length ≤ MaxKeySize) :
    Store.WellFormed { s with internalToExternal := s.internalToExternal.insert k t } := by
  obtain ⟨f1, f2, f3, f4⟩ := h.2.2.2.2.2
  refine ⟨h.1, ?_, h.2.2.1, h.2.2.2.1, h.2.2.2.2.1, fit_insert f1 t h3, f2, f3, f4⟩
  intro kv hkv
  rcases Bucket.mem_insert hkv with rfl | hm
  · exact ⟨h1, h2⟩
  · exact h.2.1 kv hm

theorem wf_forward_Delete {s : Store} (h : s.WellFormed) (k : GoString) :
    Store.WellFormed { s with internalToExternal := s.internalToExternal.Delete k } :=
  ⟨h.1, fun kv hkv => h.2.1 kv (Bucket.mem_Delete hkv), h.2.2.1, h.2.2.2.1, h.2.2.2.2.1,
    fit_Delete h.2.2.2.2.2.1 k, h.2.2.2.2.2.2⟩

theorem wf_reverse_insert {s : Store} (h : s.WellFormed) {k : GoString} (v : GoString)
    (h2 : k ≠ []) (h3 : k.length ≤ MaxKeySize) :
    Store.WellFormed { s with externalToInternal := s.externalToInternal.insert k v } := by
  obtain ⟨f1, f2, f3, f4⟩ := h.2.2.2.2.2
  refine ⟨h.1, h.2.1, ?_, h.2.2.2.1, h.2.2.2.2.1, f1, fit_insert f2 v h3, f3, f4⟩
  intro kv hkv
  rcases Bucket.mem_insert hkv with rfl | hm
  · exact h2
  · exact h.2.2.1 kv hm

theorem wf_reverse_Delete {s : Store} (h : s.WellFormed) (k : GoString) :
    Store.WellFormed { s with externalToInternal := s.externalToInternal.Delete k } :=
  ⟨h.1, h.2.1, fun kv hkv => h.2.2.1 kv (Bucket.mem_Delete hkv), h.2.2.2.1, h.2.2.2.2.1,
    h.2.2.2.2.2.1, fit_Delete h.2.2.2.2.2.2.1 k, h.2.2.2.2.2.2.2⟩

theorem wf_garbage_insert {s : Store} (h : s.WellFormed) {k : GoString} {t : tuple}
    (h1 : t.ExternalID = k) (h2 : k ≠ []) (h3 : k.length ≤ MaxKeySize) :
    Store.WellFormed { s with garbage := s.garbage.insert k t } := by
  obtain ⟨f1, f2, f3, f4⟩ := h.2.2.2.2.2
  refine ⟨h.1, h.2.1, h.2.2.1, ?_, h.2.2.2.2.1, f1, f2, fit_insert f3 t h3, f4⟩
  intro kv hkv
  rcases Bucket.mem_insert hkv with rfl | hm
  · exact ⟨h1, h2⟩
  · exact h.2.2.2.1 kv hm

theorem wf_garbage_Delete {s : Store} (h : s.WellFormed) (k : GoString) :
    Store.WellFormed { s with garbage := s.garbage.Delete k } :=
  ⟨h.1, h.2.1, h.2.2.1, fun kv hkv => h.2.2.2.1 kv (Bucket.mem_Delete hkv), h.2.2.2.2.1,
    h.2.2.2.2.2.1, h.2.2.2.2.2.2.1, fit_Delete h.2.2.2.2.2.2.2.1 k, h.2.2.2.2.2.2.2.2⟩

theorem wf_references_insert {s : Store} (h : s.WellFormed) (r : reference)
    (h3 : (refKey r.InternalID r.ExternalID).length ≤ MaxKeySize) :
    Store.WellFormed
      { s with references := s.references.insert (refKey r.InternalID r.ExternalID) r } := by
  obtain ⟨f1, f2, f3, f4⟩ := h.2.2.2.2.2
  refine ⟨h.1, h.2.1, h.2.2.1, h.2.2.2.1, ?_, f1, f2, f3, fit_insert f4 r h3⟩
  intro kv hkv
  rcases Bucket.mem_insert hkv with rfl | hm
  · rfl
  · exact h.2.2.2.2.1 kv hm

theorem wf_references_Delete {s : Store} (h : s.WellFormed) (k : GoString) :
    Store.WellFormed { s with references := s.references.Delete k } :=
  ⟨h.1, h.2.1, h.2.2.1, h.2.2.2.1, fun kv hkv => h.2.2.2.2.1 kv (Bucket.mem_Delete hkv),
    h.2.2.2.2.2.1, h.2.2.2.2.2.2.1, h.2.2.2.2.2.2.2.1, fit_Delete h.2.2.2.2.2.2.2.2 k⟩

theorem wf_metadata {s : Store} (h : s.WellFormed) (md : storeMeta) :
    Store.WellFormed { s with metadata := some md } :=
  ⟨rfl, h.2.1, h.2.2.1, h.2.2.2.1, h.2.2.2.2⟩

theorem refreshed_eq (t : tuple) (era : Int) :
    t.refreshed era = if t.Era < era then { t with Era := era } else t := by
  unfold tuple.refreshed
  split_ifs <;> rfl

/-- C9: a read that hits returns the stored id and changes nothing but the era of the
touched forward tuple, which becomes the current era when it was lower; a second, equal
read changes nothing. -/
theorem get_hit_refreshes_era (s : Store) (md : storeMeta) (hwf : s.WellFormed)
    (hmd : s.metadata = some md) :
    (∀ i t, s.internalToExternal.Get i = some t →
      (GetExternal s i).2 = (t.ExternalID, none) ∧
      (GetExternal s i).1.metadata = s.metadata ∧
      (GetExternal s i).1.externalToInternal = s.externalToInternal ∧
      (GetExternal s i).1.references = s.references ∧
      (GetExternal s i).1.garbage = s.garbage ∧
      (GetExternal s i).1.internalToExternal.Get i = some (t.refreshed md.Era) ∧
      (∀ k, k ≠ i → (GetExternal s i).1.internalToExternal.Get k = s.internalToExternal.Get k) ∧
      (md.Era ≤ t.Era → (GetExternal s i).1 = s) ∧
      GetExternal (GetExternal s i).1 i = ((GetExternal s i).1, t.ExternalID, none)) ∧
    (∀ e iid, s.externalToInternal.Get e = some iid →
      (GetInternal s e).2 = (iid, none) ∧
      (GetInternal s e).1.metadata = s.metadata ∧
      (GetInternal s e).1.externalToInternal = s.externalToInternal ∧
      (GetInternal s e).1.references = s.references ∧
      (GetInternal s e).1.garbage = s.garbage ∧
      (∀ t, s.internalToExternal.Get iid = some t →
        (GetInternal s e).1.internalToExternal.Get iid = some (t.refreshed md.Era) ∧
        (md.Era ≤ t.Era → (GetInternal s e).1 = s)) ∧
      (s.internalToExternal.Get iid = none → (GetInternal s e).1 = s) ∧
      (∀ k, k ≠ iid → (GetInternal s e).1.internalToExternal.Get k = s.internalToExternal.Get k) ∧
      GetInternal (GetInternal s e).1 e = ((GetInternal s e).1, iid, none)) := by
  constructor
  · intro i t hg
    obtain ⟨h1, h2⟩ := fwd_key_of_wf hwf hg
    have hE := GetExternal_hit s md hwf hmd i t hg
    by_cases hlt : t.Era < md.Era
    · rw [if_pos hlt] at hE
      have hwf1 := wf_forward_insert (t := { t with Era := md.Era }) hwf h1 h2
        (fwd_len_of_wf hwf hg)
      have hE2 := GetExternal_hit _ md hwf1 hmd i { t with Era := md.Era }
        (Bucket.Get_insert_self _ _ _)
      rw [if_neg (lt_irrefl _)] at hE2
      rw [hE]
      refine ⟨rfl, rfl, rfl, rfl, rfl, ?_, fun k hk => Bucket.Get_insert_ne _ _ hk,
        fun hle => absurd hlt (not_lt.2 hle), hE2⟩
      rw [refreshed_eq, if_pos hlt]
      exact Bucket.Get_insert_self _ _ _
    · rw [if_neg hlt] at hE
      rw [hE]
      refine ⟨rfl, rfl, rfl, rfl, rfl, ?_, fun k _ => rfl, fun _ => rfl, hE⟩
      rw [refreshed_eq, if_neg hlt]
      exact hg
  · intro e iid hg
    have hE := GetInternal_hit s md hwf hmd e iid hg
    cases hf : s.internalToExternal.Get iid with
    | none =>
      rw [hf] at hE
      rw [hE]
      exact ⟨rfl, rfl, rfl, rfl, rfl, fun t ht => (by cases ht), fun _ => rfl, fun k _ => rfl, hE⟩
    | some t =>
      rw [hf] at hE
      obtain ⟨h1, h2⟩ := fwd_key_of_wf hwf hf
      by_cases hlt : t.Era < md.Era
      · simp only [if_pos hlt] at hE
        have hwf1 := wf_forward_insert (t := { t with Era := md.Era }) hwf h1 h2
          (fwd_len_of_wf hwf hf)
        have hE2 := GetInternal_hit _ md hwf1 hmd e iid hg
        simp only [Bucket.Get_insert_self, if_neg (lt_irrefl md.Era)] at hE2
        rw [hE]
        refine ⟨rfl, rfl, rfl, rfl, rfl, ?_, fun h => (by cases h),
          fun k hk => Bucket.Get_insert_ne _ _ hk, hE2⟩
        intro t1 ht1
        cases ht1
        rw [refreshed_eq, if_pos hlt]
        exact ⟨Bucket.Get_insert_self _ _ _, fun hle => absurd hlt (not_lt.2 hle)⟩
      · simp only [if_neg hlt] at hE
        rw [hE]
        refine ⟨rfl, rfl, rfl, rfl, rfl, ?_, fun h => (by cases h), fun k _ => rfl, hE⟩
        intro t1 ht1
        cases ht1
        rw [refreshed_eq, if_neg hlt]
        exact ⟨hf, fun _ => rfl⟩

/-- C10: a read of an id that has no entry returns the empty string and no error, and
leaves the store as it was. -/
theorem get_miss_returns_empty (s : Store) :
    (∀ i, s.internalToExternal.Get i = none → GetExternal s i = (s, [], none)) ∧
    (∀ e, s.externalToInternal.Get e = none → GetInternal s e = (s, [], none)) := by
  constructor
  · intro i h
    simp only [GetExternal, Update, GetExternalTx, readTuple, h]
  · intro e h
    simp only [GetInternal, Update, GetInternalTx, h]


/-- Witness of C9: the store of test `TestAccessSetEra` after `Associate("i","e")` and one
`BumpEra`; both reads hit, and the era of the tuple goes from 0 to 1. -/
theorem get_hit_refreshes_era_witness :
    (run (newStore 0) [.Associate [105] [101] 1, .BumpEra]).WellFormed ∧
    (GetExternal (run (newStore 0) [.Associate [105] [101] 1, .BumpEra]) [105]).2
      = ([101], none) ∧
    (GetExternal (run (newStore 0) [.Associate [105] [101] 1, .BumpEra]) [105]).1.internalToExternal.Get
      [105] = some ⟨[105], [101], 1, 1⟩ ∧
    (GetInternal (run (newStore 0) [.Associate [105] [101] 1, .BumpEra]) [101]).2
      = ([105], none) :=
  ⟨by decide,
   ((get_hit_refreshes_era (run (newStore 0) [.Associate [105] [101] 1, .BumpEra])
      ⟨[49, 46, 49, 46, 48], 0, 1⟩ (by decide) (by decide)).1
      [105] ⟨[105], [101], 1, 0⟩ (by decide)).1,
   ((get_hit_refreshes_era (run (newStore 0) [.Associate [105] [101] 1, .BumpEra])
      ⟨[49, 46, 49, 46, 48], 0, 1⟩ (by decide) (by decide)).1
      [105] ⟨[105], [101], 1, 0⟩ (by decide)).2.2.2.2.2.1,
   ((get_hit_refreshes_era (run (newStore 0) [.Associate [105] [101] 1, .BumpEra])
      ⟨[49, 46, 49, 46, 48], 0, 1⟩ (by decide) (by decide)).2
      [101] [105] (by decide)).1⟩

/-- Witness of C10: test `TestBasicFunctionality`, the reads of `"foo"` and `"bar"` after
`Associate("i","e")`. -/
theorem get_miss_returns_empty_witness :
    GetExternal (run (newStore 0) [.Associate [105] [101] 1]) [102, 111, 111]
      = (run (newStore 0) [.Associate [105] [101] 1], [], none) ∧
    GetInternal (run (newStore 0) [.Associate [105] [101] 1]) [98, 97, 114]
      = (run (newStore 0) [.Associate [105] [101] 1], [], none) :=
  ⟨(get_miss_returns_empty _).1 [102, 111, 111] (by decide),
   (get_miss_returns_empty _).2 [98, 97, 114] (by decide)⟩

/-! The era refresh of a reference is written to the forward index

`AddReference` hands the reference it found to `updateEra`, which writes its argument
into `internalToExternal` (identity.go:554).  Ids below: `a = [97]`, `b = [98]`,
`e = [101]`. -/

/-- C1 (code defect): in the store reached by `AddReference("a","b")`, `BumpEra`,
`AddReference("a","b")`, the call `Associate("a","b")` returns without error and
`GetExternal("a")` returns `"b"`, but `GetInternal("b")` returns the empty string. -/
theorem associate_after_reference_refresh :
    (Associate (run (newStore 0) [.AddReference [97] [98] 1, .BumpEra, .AddReference [97] [98] 2])
      [97] [98] 3).2 = none ∧
    (GetExternal (Associate (run (newStore 0)
      [.AddReference [97] [98] 1, .BumpEra, .AddReference [97] [98] 2]) [97] [98] 3).1 [97]).2
      = ([98], none) ∧
    (GetInternal (Associate (run (newStore 0)
      [.AddReference [97] [98] 1, .BumpEra, .AddReference [97] [98] 2]) [97] [98] 3).1 [98]).2
      = ([], none) := by
  decide

/-- C2 (code defect): in the store reached by `Associate("a","e")`, `AddReference("a","b")`,
`BumpEra`, `AddReference("a","b")`, the reverse index has `e -> a` while the forward
tuple of `a` has external id `b`. -/
theorem reverse_entry_disagrees_after_reference_refresh :
    Reachable (run (newStore 0)
      [.Associate [97] [101] 1, .AddReference [97] [98] 2, .BumpEra, .AddReference [97] [98] 3]) ∧
    (run (newStore 0) [.Associate [97] [101] 1, .AddReference [97] [98] 2, .BumpEra,
      .AddReference [97] [98] 3]).externalToInternal.Get [101] = some [97] ∧
    (run (newStore 0) [.Associate [97] [101] 1, .AddReference [97] [98] 2, .BumpEra,
      .AddReference [97] [98] 3]).internalToExternal.Get [97] = some ⟨[97], [98], 2, 1⟩ :=
  ⟨⟨0, _, rfl⟩, by decide, by decide⟩

/-- C7 (code defect): a reference added in era 0 and added again in era 1 keeps era 0
in the `references` bucket. -/
theorem reference_era_not_refreshed :
    ReadEra (run (newStore 0) [.AddReference [97] [98] 1, .BumpEra]) = .ok 1 ∧
    (run (newStore 0) [.AddReference [97] [98] 1, .BumpEra]).references.Get (refKey [97] [98])
      = some ⟨[97], [98], 1, 0⟩ ∧
    (AddReference (run (newStore 0) [.AddReference [97] [98] 1, .BumpEra]) [97] [98] 2).2 = none ∧
    (AddReference (run (newStore 0) [.AddReference [97] [98] 1, .BumpEra])
      [97] [98] 2).1.references.Get (refKey [97] [98]) = some ⟨[97], [98], 1, 0⟩ := by
  refine ⟨rfl, by decide, by decide, by decide⟩

/-- C8 (code defect): the same second `AddReference("a","b")` turns an empty forward
index into one that maps `a` to `b`. -/
theorem add_reference_writes_forward_index :
    (run (newStore 0) [.AddReference [97] [98] 1, .BumpEra]).internalToExternal = [] ∧
    (AddReference (run (newStore 0) [.AddReference [97] [98] 1, .BumpEra])
      [97] [98] 2).1.internalToExternal = [([97], ⟨[97], [98], 1, 1⟩)] := by
  refine ⟨by decide, by decide⟩


/-! Prefix expansion -/

theorem buildReferencesStep_snd (purge : Bool) (acc : Store × List GoString) (r : reference) :
    (buildReferencesStep purge acc r).2 = expandStep acc.2 r := by
  unfold buildReferencesStep expandStep
  split_ifs <;> rfl

theorem foldl_buildReferencesStep_snd (purge : Bool) (l : List reference)
    (acc : Store × List GoString) :
    (l.foldl (buildReferencesStep purge) acc).2 = l.foldl expandStep acc.2 := by
  induction l generalizing acc with
  | nil => rfl
  | cons r l ih => simp only [List.foldl_cons, ih, buildReferencesStep_snd]

theorem foldl_buildReferencesStep_fst (l : List reference) (acc : Store × List GoString) :
    (l.foldl (buildReferencesStep false) acc).1 = acc.1 := by
  induction l generalizing acc with
  | nil => rfl
  | cons r l ih =>
    rw [List.foldl_cons, ih]
    unfold buildReferencesStep
    simp only [Bool.false_eq_true, if_false]
    split_ifs <;> rfl

/-- The prefixes of `buildReferences` are the expansion over the sorted stale references. -/
theorem buildReferences_snd (tx : Store) (era : Int) (seed : GoString) (purge : Bool) :
    (buildReferences tx era seed purge).2 =
      (sortSlice ((tx.references.map Prod.snd).filter (fun r => decide (r.Era < era)))).foldl
        expandStep [seed] := by
  unfold buildReferences
  simp only []
  split_ifs with h
  · exact foldl_buildReferencesStep_snd _ _ _
  · have : (tx.references.map Prod.snd).filter (fun r => decide (r.Era < era)) = [] :=
      List.length_eq_zero.1 (Nat.eq_zero_of_not_pos h)
    rw [this]
    rfl

/-- Without purge `buildReferences` leaves the store as it is. -/
theorem buildReferences_fst_false (tx : Store) (era : Int) (seed : GoString) :
    (buildReferences tx era seed false).1 = tx := by
  unfold buildReferences
  simp only []
  split_ifs with h
  · exact foldl_buildReferencesStep_fst _ _
  · rfl

theorem subset_expandStep (P : List GoString) (r : reference) : P ⊆ expandStep P r := by
  unfold expandStep
  split_ifs
  · exact List.subset_append_left _ _
  · exact List.Subset.refl _

theorem subset_foldl_expandStep (l : List reference) (P : List GoString) :
    P ⊆ l.foldl expandStep P := by
  induction l generalizing P with
  | nil => exact List.Subset.refl _
  | cons r l ih => exact List.Subset.trans (subset_expandStep P r) (ih _)

theorem expandStep_pos (P : List GoString) (r : reference)
    (h : P.any (fun pfx => HasPrefix r.InternalID pfx) = true) :
    expandStep P r = P ++ [r.ExternalID] := by
  unfold expandStep
  rw [if_pos h]

theorem mem_expand_of_found (a b : List reference) (r : reference) (P : List GoString)
    (p : GoString) (hp : p ∈ a.foldl expandStep P) (hpre : HasPrefix r.InternalID p = true) :
    r.ExternalID ∈ (a ++ r :: b).foldl expandStep P := by
  rw [List.foldl_append, List.foldl_cons]
  apply subset_foldl_expandStep
  rw [expandStep_pos _ _ (List.any_eq_true.2 ⟨p, hp, hpre⟩)]
  exact List.mem_append_right _ (List.mem_singleton_self _)

theorem sortSlice_sorted (l : List tuple) :
    (sortSlice l).Pairwise (fun a b => a.Timestamp ≤ b.Timestamp) := by
  haveI : IsTotal tuple (fun a b => a.Timestamp ≤ b.Timestamp) := ⟨fun a b => le_total _ _⟩
  haveI : IsTrans tuple (fun a b => a.Timestamp ≤ b.Timestamp) :=
    ⟨fun a b c hab hbc => le_trans hab hbc⟩
  exact List.sorted_insertionSort _ l

theorem mem_sortSlice {l : List tuple} {x : tuple} : x ∈ sortSlice l ↔ x ∈ l :=
  (List.perm_insertionSort _ l).mem_iff

/-- The expansion reaches the other id of every reference of a chain that starts under a
collected prefix, provided each link of the chain is later than the one before it. -/
theorem expand_chain (L : List reference) (P : List GoString)
    (hs : L.Pairwise (fun a b => a.Timestamp ≤ b.Timestamp)) (c : List reference)
    (r : reference) (hr : r ∈ L)
    (hQ : ∀ l1 l2, L = l1 ++ l2 → r ∈ l1 → r.ExternalID ∈ l1.foldl expandStep P)
    (hc : List.Chain (fun a b => HasPrefix b.InternalID a.ExternalID = true ∧
      a.Timestamp < b.Timestamp) r c)
    (hmem : ∀ x ∈ c, x ∈ L) :
    ∀ x ∈ c, ∀ l1 l2, L = l1 ++ l2 → x ∈ l1 → x.ExternalID ∈ l1.foldl expandStep P := by
  induction c generalizing r with
  | nil => intro x hx; cases hx
  | cons y c ih =>
    obtain ⟨⟨hlink, hts⟩, hc1⟩ := List.chain_cons.1 hc
    have hy : y ∈ L := hmem y (List.mem_cons_self _ _)
    have hQy : ∀ l1 l2, L = l1 ++ l2 → y ∈ l1 → y.ExternalID ∈ l1.foldl expandStep P := by
      intro l1 l2 hL hy1
      obtain ⟨a, b, rfl⟩ := List.append_of_mem hy1
      have hL1 : L = a ++ (y :: (b ++ l2)) := by simp [hL]
      have hra : r ∈ a := by
        rw [hL1] at hr hs
        rcases List.mem_append.1 hr with h | h
        · exact h
        · exfalso
          rcases List.mem_cons.1 h with h | h
          · rw [h] at hts; exact lt_irrefl _ hts
          · have := (List.pairwise_cons.1 (List.pairwise_append.1 hs).2.1).1 r h
            exact absurd hts (not_lt.2 this)
      exact mem_expand_of_found a b y P _ (hQ a _ hL1 hra) hlink
    intro x hx
    rcases List.mem_cons.1 hx with rfl | hx
    · exact hQy
    · exact ih y hy hQy hc1 (fun z hz => hmem z (List.mem_cons_of_mem _ hz)) x hx

/-- C6 (as the code has it): `buildReferences` returns the other id of every reference of
a chain of stored references older than `era`, where the first starts with the seed, each
next one starts with the other id of the one before and has a later timestamp. -/
theorem buildReferences_follows_chain (tx : Store) (era : Int) (seed : GoString)
    (purge : Bool) (r : reference) (c : List reference)
    (hstored : ∀ x ∈ r :: c, ∃ k, tx.references.Get k = some x)
    (hera : ∀ x ∈ r :: c, x.Era < era)
    (hseed : HasPrefix r.InternalID seed = true)
    (hlinks : List.Chain (fun a b => HasPrefix b.InternalID a.ExternalID = true ∧
      a.Timestamp < b.Timestamp) r c) :
    ∀ x ∈ r :: c, x.ExternalID ∈ (buildReferences tx era seed purge).2 := by
  rw [buildReferences_snd]
  have hL : ∀ x ∈ r :: c,
      x ∈ sortSlice ((tx.references.map Prod.snd).filter (fun r => decide (r.Era < era))) := by
    intro x hx
    obtain ⟨k, hk⟩ := hstored x hx
    rw [mem_sortSlice, List.mem_filter]
    exact ⟨List.mem_map.2 ⟨(k, x), Bucket.mem_of_Get hk, rfl⟩, decide_eq_true (hera x hx)⟩
  have hQ : ∀ l1 l2,
      sortSlice ((tx.references.map Prod.snd).filter (fun r => decide (r.Era < era)))
        = l1 ++ l2 → r ∈ l1 → r.ExternalID ∈ l1.foldl expandStep [seed] := by
    intro l1 l2 _ hr1
    obtain ⟨a, b, rfl⟩ := List.append_of_mem hr1
    exact mem_expand_of_found a b r [seed] seed
      (subset_foldl_expandStep a [seed] (List.mem_singleton_self _)) hseed
  intro x hx
  rcases List.mem_cons.1 hx with rfl | hxc
  · exact hQ _ [] (List.append_nil _).symm (hL _ hx)
  · exact expand_chain _ [seed] (sortSlice_sorted _) c r (hL r (List.mem_cons_self _ _)) hQ
      hlinks (fun z hz => hL z (List.mem_cons_of_mem _ hz)) x hxc _ []
      (List.append_nil _).symm (hL x hx)

/-- Witness of C6: `a -> b` added at instant 1 and `b -> c` at instant 2, expanded from
seed `a` in era 1, reach `c`. -/
theorem buildReferences_follows_chain_witness :
    HasPrefix [97] [97] = true ∧ HasPrefix [98] [98] = true ∧
    [99] ∈ (buildReferences
      (run (newStore 0) [.AddReference [97] [98] 1, .AddReference [98] [99] 2, .BumpEra])
      1 [97] false).2 :=
  ⟨by decide, by decide,
   buildReferences_follows_chain
    (run (newStore 0) [.AddReference [97] [98] 1, .AddReference [98] [99] 2, .BumpEra])
    1 [97] false ⟨[97], [98], 1, 0⟩ [⟨[98], [99], 2, 0⟩]
    (fun x hx => by
      rcases List.mem_cons.1 hx with rfl | hx
      · exact ⟨refKey [97] [98], by decide⟩
      · rw [List.mem_singleton.1 hx]
        exact ⟨refKey [98] [99], by decide⟩)
    (by decide) (by decide)
    (List.Chain.cons ⟨by decide, by decide⟩ List.Chain.nil)
    ⟨[98], [99], 2, 0⟩ (by decide)⟩

/-- Counterexample to C6: the same two references with `b -> c` added first (instant 1)
and `a -> b` second (instant 2) form a chain from seed `a`, both are older than era 1,
and the expansion is `[a, b]`: it does not contain `c`. -/
theorem buildReferences_misses_reference_added_earlier :
    (run (newStore 0) [.AddReference [98] [99] 1, .AddReference [97] [98] 2,
      .BumpEra]).references.Get (refKey [97] [98]) = some ⟨[97], [98], 2, 0⟩ ∧
    (run (newStore 0) [.AddReference [98] [99] 1, .AddReference [97] [98] 2,
      .BumpEra]).references.Get (refKey [98] [99]) = some ⟨[98], [99], 1, 0⟩ ∧
    HasPrefix [97] [97] = true ∧ HasPrefix [98] [98] = true ∧
    (buildReferences
      (run (newStore 0) [.AddReference [98] [99] 1, .AddReference [97] [98] 2, .BumpEra])
      1 [97] false).2 = [[97], [98]] ∧
    [99] ∉ (buildReferences
      (run (newStore 0) [.AddReference [98] [99] 1, .AddReference [97] [98] 2, .BumpEra])
      1 [97] false).2 := by
  refine ⟨by decide, by decide, by decide, by decide, by decide, by decide⟩


/-! Sweep -/

theorem addToGarbage_eq (tx : Store) (t : tuple) (h : t.ExternalID ≠ [])
    (hl : t.ExternalID.length ≤ MaxKeySize) :
    addToGarbage tx t = .ok { tx with garbage := tx.garbage.insert t.ExternalID t } := by
  simp only [addToGarbage, putInBucket_eq _ _ _ h hl]

/-- An `addToGarbage` that returns had a key that bbolt accepts. -/
theorem addToGarbage_key {tx tx1 : Store} {t : tuple} (h : addToGarbage tx t = .ok tx1) :
    t.ExternalID ≠ [] ∧ t.ExternalID.length ≤ MaxKeySize := by
  cases hp : tx.garbage.Put t.ExternalID t with
  | none => simp only [addToGarbage, putInBucket, hp] at h; cases h
  | some g => exact ⟨(Put_some hp).1, (Put_some hp).2.1⟩

theorem addToGarbage_ok {tx tx1 : Store} {t : tuple} (h : addToGarbage tx t = .ok tx1) :
    t.ExternalID ≠ [] ∧ tx1 = { tx with garbage := tx.garbage.insert t.ExternalID t } := by
  obtain ⟨hk, hl⟩ := addToGarbage_key h
  rw [addToGarbage_eq tx t hk hl] at h
  exact ⟨hk, (Except.ok.inj h).symm⟩

theorem foldl_sweepStep_error (era : Int) (P : List GoString) (l : Bucket tuple)
    (e : identityError) : l.foldl (sweepStep era P) (.error e) = .error e := by
  induction l with
  | nil => rfl
  | cons kv l ih => rw [List.foldl_cons]; exact ih

/-- The loop of `Sweep` writes only the garbage bucket. -/
theorem foldl_sweepStep_frame (era : Int) (P : List GoString) (l : Bucket tuple)
    (tx tx1 : Store) (h : l.foldl (sweepStep era P) (.ok tx) = .ok tx1) :
    tx1.metadata = tx.metadata ∧ tx1.internalToExternal = tx.internalToExternal ∧
    tx1.externalToInternal = tx.externalToInternal ∧ tx1.references = tx.references := by
  induction l generalizing tx with
  | nil => cases h; exact ⟨rfl, rfl, rfl, rfl⟩
  | cons kv l ih =>
    rw [List.foldl_cons] at h
    cases hs : sweepStep era P (.ok tx) kv with
    | error e => rw [hs, foldl_sweepStep_error] at h; cases h
    | ok tx2 =>
      rw [hs] at h
      have h2 := ih tx2 h
      have h3 : tx2.metadata = tx.metadata ∧ tx2.internalToExternal = tx.internalToExternal ∧
          tx2.externalToInternal = tx.externalToInternal ∧ tx2.references = tx.references := by
        simp only [sweepStep] at hs
        split_ifs at hs
        · obtain ⟨_, rfl⟩ := addToGarbage_ok hs
          exact ⟨rfl, rfl, rfl, rfl⟩
        · cases hs; exact ⟨rfl, rfl, rfl, rfl⟩
        · cases hs; exact ⟨rfl, rfl, rfl, rfl⟩
      exact ⟨h2.1.trans h3.1, h2.2.1.trans h3.2.1, h2.2.2.1.trans h3.2.2.1,
        h2.2.2.2.trans h3.2.2.2⟩

/-- The loop of `Sweep` over entries whose stale tuples under the prefixes carry an
external id: the garbage bucket receives exactly the marked tuples. -/
theorem foldl_sweepStep_eq (era : Int) (P : List GoString) (l : Bucket tuple) (tx : Store)
    (hk : ∀ kv ∈ l, P.any (fun pfx => HasPrefix kv.1 pfx) = true → kv.2.Era < era →
      kv.2.ExternalID ≠ [] ∧ kv.2.ExternalID.length ≤ MaxKeySize) :
    l.foldl (sweepStep era P) (.ok tx) =
      .ok { tx with garbage := markStale tx.garbage l P era } := by
  induction l generalizing tx with
  | nil => rfl
  | cons kv l ih =>
    have hl : ∀ kv ∈ l, P.any (fun pfx => HasPrefix kv.1 pfx) = true → kv.2.Era < era →
        kv.2.ExternalID ≠ [] ∧ kv.2.ExternalID.length ≤ MaxKeySize :=
      fun x hx => hk x (List.mem_cons_of_mem _ hx)
    rw [List.foldl_cons]
    by_cases h1 : P.any (fun pfx => HasPrefix kv.1 pfx) = true
    · by_cases h2 : kv.2.Era < era
      · have hs : sweepStep era P (.ok tx) kv =
            .ok { tx with garbage := tx.garbage.insert kv.2.ExternalID kv.2 } := by
          simp only [sweepStep, h1, h2, if_true]
          exact addToGarbage_eq tx kv.2 (hk kv (List.mem_cons_self _ _) h1 h2).1
            (hk kv (List.mem_cons_self _ _) h1 h2).2
        rw [hs, ih _ hl]
        simp [markStale, List.filter_cons, h1, h2]
      · have hs : sweepStep era P (.ok tx) kv = .ok tx := by
          simp only [sweepStep, h1, h2, if_true, if_false]
        rw [hs, ih _ hl]
        simp [markStale, List.filter_cons, h1, h2]
    · have hs : sweepStep era P (.ok tx) kv = .ok tx := by
        simp only [sweepStep, h1, if_false]
        rfl
      rw [hs, ih _ hl]
      simp [markStale, List.filter_cons, h1]

theorem SweepTx_frame (s s1 : Store) (pfx : GoString) (h : SweepTx pfx s = .ok s1) :
    s1.metadata = s.metadata ∧ s1.internalToExternal = s.internalToExternal ∧
    s1.externalToInternal = s.externalToInternal ∧ s1.references = s.references := by
  simp only [SweepTx, readMetadata] at h
  cases hm : s.metadata with
  | none => rw [hm] at h; cases h
  | some md =>
    rw [hm] at h
    simp only [buildReferences_fst_false] at h
    rw [← hm]
    exact foldl_sweepStep_frame _ _ _ s s1 h

/-- `Sweep` leaves the metadata, the forward index, the reverse index and the references
as they are; when the stale forward tuples under the expanded prefixes carry an external
id that bbolt accepts as a key, it succeeds and the garbage bucket is the old one with
`garbage[t.ExternalID] := t` written for exactly those tuples. -/
theorem Sweep_marks (s : Store) (pfx : GoString) :
    (Sweep s pfx).1.metadata = s.metadata ∧
    (Sweep s pfx).1.internalToExternal = s.internalToExternal ∧
    (Sweep s pfx).1.externalToInternal = s.externalToInternal ∧
    (Sweep s pfx).1.references = s.references ∧
    (∀ md, s.metadata = some md →
      (∀ kv ∈ s.internalToExternal,
        (buildReferences s md.Era pfx false).2.any (fun p => HasPrefix kv.1 p) = true →
        kv.2.Era < md.Era → kv.2.ExternalID ≠ [] ∧ kv.2.ExternalID.length ≤ MaxKeySize) →
      Sweep s pfx =
        ({ s with
            garbage := markStale s.garbage s.internalToExternal
              (buildReferences s md.Era pfx false).2 md.Era }, none)) := by
  have hframe : (Sweep s pfx).1.metadata = s.metadata ∧
      (Sweep s pfx).1.internalToExternal = s.internalToExternal ∧
      (Sweep s pfx).1.externalToInternal = s.externalToInternal ∧
      (Sweep s pfx).1.references = s.references := by
    unfold Sweep Update
    cases h : SweepTx pfx s with
    | error e => exact ⟨rfl, rfl, rfl, rfl⟩
    | ok s1 => exact SweepTx_frame s s1 pfx h
  refine ⟨hframe.1, hframe.2.1, hframe.2.2.1, hframe.2.2.2, ?_⟩
  intro md hmd hk
  have h : SweepTx pfx s = .ok { s with
      garbage := markStale s.garbage s.internalToExternal
        (buildReferences s md.Era pfx false).2 md.Era } := by
    have hf := foldl_sweepStep_eq _ _ _ s hk
    unfold SweepTx readMetadata
    rw [hmd]
    simp only [buildReferences_fst_false]
    rw [hmd] at hf
    exact hf
  rw [Sweep, Update, h]


/-- Test `TestSweepWithRef`: `Sweep("a:")` puts `e2` (of `a:i2`) and `e4` (of `b:i2`,
reached through the reference to `b:`) into the empty garbage bucket. -/
theorem Sweep_marks_TestSweepWithRef :
    (Sweep sweepWithRefStore [97, 58]).2 = none ∧
    (Sweep sweepWithRefStore [97, 58]).1.garbage =
      [([101, 50], ⟨[97, 58, 105, 50], [101, 50], 2, 0⟩),
       ([101, 52], ⟨[98, 58, 105, 50], [101, 52], 5, 0⟩)] := by
  have h := (Sweep_marks sweepWithRefStore [97, 58]).2.2.2.2
    ⟨[49, 46, 49, 46, 48], 0, 1⟩ (by decide) (by decide)
  rw [h]
  exact ⟨rfl, by decide⟩


/-! The mapping engine on agreeing indices -/

theorem Bucket.Get_Delete_some {V : Type} {b : Bucket V} {k k1 : GoString} {v : V}
    (h : (b.Delete k).Get k1 = some v) : k1 ≠ k ∧ b.Get k1 = some v := by
  by_cases hk : k1 = k
  · subst hk
    rw [Bucket.Get_Delete_self] at h
    cases h
  · rw [Bucket.Get_Delete_ne b hk] at h
    exact ⟨hk, h⟩

theorem Bucket.Get_Delete_none {V : Type} {b : Bucket V} {k1 : GoString} (k : GoString)
    (h : b.Get k1 = none) : (b.Delete k).Get k1 = none := by
  by_cases hk : k1 = k
  · subst hk
    exact Bucket.Get_Delete_self b k1
  · rw [Bucket.Get_Delete_ne b hk]
    exact h

theorem rev_key_of_wf {s : Store} (h : s.WellFormed) {e k : GoString}
    (hg : s.externalToInternal.Get e = some k) : e ≠ [] :=
  h.2.2.1 _ (Bucket.mem_of_Get hg)

theorem garbage_key_of_wf {s : Store} (h : s.WellFormed) {k : GoString} {t : tuple}
    (hg : s.garbage.Get k = some t) : t.ExternalID = k ∧ k ≠ [] :=
  h.2.2.2.1 _ (Bucket.mem_of_Get hg)

theorem rev_len_of_wf {s : Store} (h : s.WellFormed) {e k : GoString}
    (hg : s.externalToInternal.Get e = some k) : e.length ≤ MaxKeySize :=
  h.2.2.2.2.2.2.1 _ (Bucket.mem_of_Get hg)

/-- On agreeing indices `removeInternal` drops the pair of the internal id. -/
theorem removeInternal_eq (tx : Store) (hwf : tx.WellFormed) (hag : tx.Agree)
    (iid : GoString) (m : Bool) :
    removeInternal tx iid m = .ok (dropInternal tx iid m) := by
  unfold dropInternal
  cases hf : tx.internalToExternal.Get iid with
  | none => simp only [removeInternal, readTuple, hf]
  | some t =>
    have hr := hag.1 iid t hf
    have hk : t.ExternalID ≠ [] := rev_key_of_wf hwf hr
    have hl : t.ExternalID.length ≤ MaxKeySize := rev_len_of_wf hwf hr
    cases m
    · simp [removeInternal, readTuple, hf, deleteFromBucket, hr, bytesEqual, dropPair]
    · simp [removeInternal, readTuple, hf, deleteFromBucket, hr, bytesEqual, dropPair,
        addToGarbage, putInBucket_eq _ _ _ hk hl]

/-- On agreeing indices `removeExternal` drops the pair of the external id. -/
theorem removeExternal_eq (tx : Store) (hwf : tx.WellFormed) (hag : tx.Agree)
    (eid : GoString) (m : Bool) :
    removeExternal tx eid m = .ok (dropExternal tx eid m) := by
  unfold dropExternal dropInternal
  cases hr : tx.externalToInternal.Get eid with
  | none => simp only [removeExternal, hr]
  | some iid =>
    obtain ⟨t, hf, hte⟩ := hag.2 eid iid hr
    have hk : eid ≠ [] := rev_key_of_wf hwf hr
    have hl : eid.length ≤ MaxKeySize := rev_len_of_wf hwf hr
    subst hte
    cases m
    · simp [removeExternal, readTuple, hf, deleteFromBucket, hr, dropPair]
    · simp [removeExternal, readTuple, hf, deleteFromBucket, hr, dropPair,
        addToGarbage, putInBucket_eq _ _ _ hk hl]


theorem inv_dropPair {tx : Store} (h : tx.Inv) {i : GoString} {t : tuple}
    (hf : tx.internalToExternal.Get i = some t) (m : Bool) : (dropPair tx i t m).Inv := by
  obtain ⟨hwf, hag⟩ := h
  have hti : t.InternalID = i := (fwd_key_of_wf hwf hf).1
  have hr : tx.externalToInternal.Get t.ExternalID = some i := hag.1 i t hf
  have hk : t.ExternalID ≠ [] := rev_key_of_wf hwf hr
  refine ⟨?_, ?_, ?_⟩
  · have h1 := wf_reverse_Delete (wf_forward_Delete hwf i) t.ExternalID
    cases m
    · exact h1
    · exact wf_garbage_insert h1 rfl hk (rev_len_of_wf hwf hr)
  · intro k t1 hk1
    obtain ⟨hne, hk2⟩ := Bucket.Get_Delete_some hk1
    have hr1 := hag.1 k t1 hk2
    have hne2 : t1.ExternalID ≠ t.ExternalID := by
      intro heq
      rw [heq, hr] at hr1
      exact hne (Option.some.inj hr1).symm
    show (tx.externalToInternal.Delete t.ExternalID).Get t1.ExternalID = some k
    rw [Bucket.Get_Delete_ne _ hne2]
    exact hr1
  · intro e k hek
    obtain ⟨hne, hek2⟩ := Bucket.Get_Delete_some hek
    obtain ⟨t1, hf1, hte⟩ := hag.2 e k hek2
    have hki : k ≠ i := by
      intro heq
      rw [heq, hf] at hf1
      cases hf1
      exact hne hte.symm
    refine ⟨t1, ?_, hte⟩
    show (tx.internalToExternal.Delete i).Get k = some t1
    rw [Bucket.Get_Delete_ne _ hki]
    exact hf1

theorem disj_dropPair {tx : Store} (h : tx.Inv) (hg : tx.GarbageDisjoint) {i : GoString}
    {t : tuple} (hf : tx.internalToExternal.Get i = some t) (m : Bool) :
    (dropPair tx i t m).GarbageDisjoint := by
  have hti : t.InternalID = i := (fwd_key_of_wf h.1 hf).1
  intro k tg hkg t1 hf1
  obtain ⟨hne, hf2⟩ := Bucket.Get_Delete_some hf1
  have hold : tx.garbage.Get k = some tg := by
    cases m
    · exact hkg
    · by_cases hkk : k = t.ExternalID
      · exfalso
        subst hkk
        have : tg = t := by
          have h2 : (tx.garbage.insert t.ExternalID t).Get t.ExternalID = some tg := hkg
          rw [Bucket.Get_insert_self] at h2
          exact (Option.some.inj h2).symm
        exact hne (this ▸ hti)
      · have h2 : (tx.garbage.insert t.ExternalID t).Get k = some tg := hkg
        rw [Bucket.Get_insert_ne _ _ hkk] at h2
        exact h2
  exact hg k tg hold t1 hf2

theorem inv_garbage_Delete {tx : Store} (h : tx.Inv) (e : GoString) :
    Store.Inv { tx with garbage := tx.garbage.Delete e } :=
  ⟨wf_garbage_Delete h.1 e, h.2⟩

theorem disj_garbage_Delete {tx : Store} (hg : tx.GarbageDisjoint) (e : GoString) :
    Store.GarbageDisjoint { tx with garbage := tx.garbage.Delete e } :=
  fun k t hk t1 ht1 => hg k t (Bucket.Get_Delete_some hk).2 t1 ht1

/-- Rewriting a forward tuple with the same two ids keeps the invariant. -/
theorem inv_touch {tx : Store} (h : tx.Inv) {i : GoString} {t t1 : tuple}
    (hf : tx.internalToExternal.Get i = some t) (hi : t1.InternalID = t.InternalID)
    (he : t1.ExternalID = t.ExternalID) :
    Store.Inv { tx with internalToExternal := tx.internalToExternal.insert i t1 } := by
  obtain ⟨hwf, hag⟩ := h
  obtain ⟨hti, hine⟩ := fwd_key_of_wf hwf hf
  refine ⟨wf_forward_insert hwf (hi.trans hti) hine (fwd_len_of_wf hwf hf), ?_, ?_⟩
  · intro k x hkx
    by_cases hk : k = i
    · subst hk
      have h2 : (tx.internalToExternal.insert k t1).Get k = some x := hkx
      rw [Bucket.Get_insert_self] at h2
      cases h2
      rw [he]
      exact hag.1 k t hf
    · have h2 : (tx.internalToExternal.insert i t1).Get k = some x := hkx
      rw [Bucket.Get_insert_ne _ _ hk] at h2
      exact hag.1 k x h2
  · intro e k hek
    obtain ⟨x, hx, hxe⟩ := hag.2 e k hek
    by_cases hk : k = i
    · subst hk
      rw [hf] at hx
      cases hx
      exact ⟨t1, Bucket.Get_insert_self _ _ _, he.trans hxe⟩
    · exact ⟨x, (Bucket.Get_insert_ne _ _ hk).trans hx, hxe⟩

theorem disj_touch {tx : Store} (hg : tx.GarbageDisjoint) {i : GoString} {t t1 : tuple}
    (hf : tx.internalToExternal.Get i = some t) (he : t1.ExternalID = t.ExternalID) :
    Store.GarbageDisjoint { tx with internalToExternal := tx.internalToExternal.insert i t1 } := by
  intro k tg hkg x hx
  by_cases hk : tg.InternalID = i
  · have h2 : (tx.internalToExternal.insert i t1).Get tg.InternalID = some x := hx
    rw [hk, Bucket.Get_insert_self] at h2
    cases h2
    rw [he]
    exact hg k tg hkg t (hk ▸ hf)
  · have h2 : (tx.internalToExternal.insert i t1).Get tg.InternalID = some x := hx
    rw [Bucket.Get_insert_ne _ _ hk] at h2
    exact hg k tg hkg x h2

/-- Adding a fresh pair in both directions keeps the invariant. -/
theorem inv_addPair {tx : Store} (h : tx.Inv) {i e : GoString} (now era : Int)
    (hi : i ≠ []) (he : e ≠ []) (hil : i.length ≤ MaxKeySize) (hel : e.length ≤ MaxKeySize)
    (hf : tx.internalToExternal.Get i = none)
    (hr : tx.externalToInternal.Get e = none) :
    (addPair tx i e now era).Inv := by
  unfold addPair
  obtain ⟨hwf, hag⟩ := h
  refine ⟨?_, ?_, ?_⟩
  · exact wf_reverse_insert (wf_forward_insert (t := ⟨i, e, now, era⟩) hwf rfl hi hil) i he hel
  · intro k x hkx
    have h2 : (tx.internalToExternal.insert i ⟨i, e, now, era⟩).Get k = some x := hkx
    show (tx.externalToInternal.insert e i).Get x.ExternalID = some k
    by_cases hk : k = i
    · subst hk
      rw [Bucket.Get_insert_self] at h2
      cases h2
      exact Bucket.Get_insert_self _ _ _
    · rw [Bucket.Get_insert_ne _ _ hk] at h2
      have h3 := hag.1 k x h2
      have hne : x.ExternalID ≠ e := by
        intro heq
        rw [heq, hr] at h3
        cases h3
      rw [Bucket.Get_insert_ne _ _ hne]
      exact h3
  · intro e1 k hek
    have h2 : (tx.externalToInternal.insert e i).Get e1 = some k := hek
    show ∃ t, (tx.internalToExternal.insert i ⟨i, e, now, era⟩).Get k = some t ∧
      t.ExternalID = e1
    by_cases hk : e1 = e
    · subst hk
      rw [Bucket.Get_insert_self] at h2
      cases h2
      exact ⟨_, Bucket.Get_insert_self _ _ _, rfl⟩
    · rw [Bucket.Get_insert_ne _ _ hk] at h2
      obtain ⟨x, hx, hxe⟩ := hag.2 e1 k h2
      have hki : k ≠ i := by
        intro heq
        rw [heq, hf] at hx
        cases hx
      exact ⟨x, (Bucket.Get_insert_ne _ _ hki).trans hx, hxe⟩

theorem disj_addPair {tx : Store} (hwf : tx.WellFormed) (hg : tx.GarbageDisjoint)
    {i e : GoString} (now era : Int)
    (hgb : ∀ tg, tx.garbage.Get e = some tg → tg.InternalID ≠ i) :
    (addPair tx i e now era).GarbageDisjoint := by
  unfold addPair
  intro k tg hkg x hx
  have h2 : (tx.internalToExternal.insert i ⟨i, e, now, era⟩).Get tg.InternalID = some x := hx
  by_cases hk : tg.InternalID = i
  · rw [hk, Bucket.Get_insert_self] at h2
    cases h2
    intro heq
    have hkey := (garbage_key_of_wf hwf hkg).1
    have : k = e := hkey.symm.trans heq.symm
    subst this
    exact hgb tg hkg hk
  · rw [Bucket.Get_insert_ne _ _ hk] at h2
    exact hg k tg hkg x h2

theorem dropInternal_some {tx : Store} {i : GoString} {t : tuple}
    (h : tx.internalToExternal.Get i = some t) (m : Bool) :
    dropInternal tx i m = dropPair tx i t m := by
  unfold dropInternal
  rw [h]

theorem dropInternal_none {tx : Store} {i : GoString}
    (h : tx.internalToExternal.Get i = none) (m : Bool) : dropInternal tx i m = tx := by
  unfold dropInternal
  rw [h]

theorem dropExternal_some {tx : Store} {e j : GoString}
    (h : tx.externalToInternal.Get e = some j) (m : Bool) :
    dropExternal tx e m = dropInternal tx j m := by
  unfold dropExternal
  rw [h]

theorem dropExternal_none {tx : Store} {e : GoString}
    (h : tx.externalToInternal.Get e = none) (m : Bool) : dropExternal tx e m = tx := by
  unfold dropExternal
  rw [h]

theorem inv_dropInternal {tx : Store} (h : tx.Inv) (i : GoString) (m : Bool) :
    (dropInternal tx i m).Inv := by
  cases hf : tx.internalToExternal.Get i with
  | none => rw [dropInternal_none hf]; exact h
  | some t => rw [dropInternal_some hf]; exact inv_dropPair h hf m

theorem inv_dropExternal {tx : Store} (h : tx.Inv) (e : GoString) (m : Bool) :
    (dropExternal tx e m).Inv := by
  cases hr : tx.externalToInternal.Get e with
  | none => rw [dropExternal_none hr]; exact h
  | some j => rw [dropExternal_some hr]; exact inv_dropInternal h j m

theorem dropInternal_metadata (tx : Store) (i : GoString) (m : Bool) :
    (dropInternal tx i m).metadata = tx.metadata := by
  cases hf : tx.internalToExternal.Get i with
  | none => rw [dropInternal_none hf]
  | some t => rw [dropInternal_some hf]; rfl

theorem dropExternal_metadata (tx : Store) (e : GoString) (m : Bool) :
    (dropExternal tx e m).metadata = tx.metadata := by
  cases hr : tx.externalToInternal.Get e with
  | none => rw [dropExternal_none hr]
  | some j => rw [dropExternal_some hr]; exact dropInternal_metadata tx j m

theorem dropInternal_forward_self (tx : Store) (i : GoString) (m : Bool) :
    (dropInternal tx i m).internalToExternal.Get i = none := by
  cases hf : tx.internalToExternal.Get i with
  | none => rw [dropInternal_none hf]; exact hf
  | some t => rw [dropInternal_some hf]; exact Bucket.Get_Delete_self _ _

theorem dropInternal_forward_none (tx : Store) (j : GoString) (m : Bool) {i : GoString}
    (h : tx.internalToExternal.Get i = none) :
    (dropInternal tx j m).internalToExternal.Get i = none := by
  cases hf : tx.internalToExternal.Get j with
  | none => rw [dropInternal_none hf]; exact h
  | some t => rw [dropInternal_some hf]; exact Bucket.Get_Delete_none _ h

theorem dropExternal_reverse_self (tx : Store) (hag : tx.Agree) (e : GoString) (m : Bool) :
    (dropExternal tx e m).externalToInternal.Get e = none := by
  cases hr : tx.externalToInternal.Get e with
  | none => rw [dropExternal_none hr]; exact hr
  | some j =>
    obtain ⟨t, hf, hte⟩ := hag.2 e j hr
    rw [dropExternal_some hr, dropInternal_some hf]
    show (tx.externalToInternal.Delete t.ExternalID).Get e = none
    rw [hte]
    exact Bucket.Get_Delete_self _ _

theorem dropExternal_forward_none (tx : Store) (e : GoString) (m : Bool) {i : GoString}
    (h : tx.internalToExternal.Get i = none) :
    (dropExternal tx e m).internalToExternal.Get i = none := by
  cases hr : tx.externalToInternal.Get e with
  | none => rw [dropExternal_none hr]; exact h
  | some j => rw [dropExternal_some hr]; exact dropInternal_forward_none tx j m h

/-- Lines 201-208 of `Associate` on agreeing indices and ids that are not empty. -/
theorem associateInsert_eq (tx : Store) (hwf : tx.WellFormed) (hag : tx.Agree)
    (md : storeMeta) (hmd : tx.metadata = some md) (i e : GoString) (now : Int)
    (hi : i ≠ []) (he : e ≠ []) (hil : i.length ≤ MaxKeySize) (hel : e.length ≤ MaxKeySize) :
    associateInsert tx i e now = .ok (addPair (dropExternal tx e true) i e now md.Era) := by
  have hm : (dropExternal tx e true).metadata = some md :=
    (dropExternal_metadata tx e true).trans hmd
  simp only [associateInsert, removeExternal_eq tx hwf hag, readMetadata, hm,
    putInBucket_eq _ _ _ hi hil, putInBucket_eq _ _ _ he hel, addPair]

/-- A `Put` at a key that is empty or too long fails. -/
theorem Put_none {V : Type} (b : Bucket V) {k : GoString} (v : V)
    (h : k = [] ∨ MaxKeySize < k.length) : b.Put k v = none := by
  unfold Bucket.Put
  by_cases hk : k = []
  · rw [if_pos hk]
  · rw [if_neg hk, if_pos (h.resolve_left hk)]

theorem putInBucket_rejected {V : Type} (bid : BucketName) (b : Bucket V) {k : GoString} (v : V)
    (h : k = [] ∨ MaxKeySize < k.length) : putInBucket bid b k v = .error (.writeFailed bid) := by
  unfold putInBucket
  rw [Put_none b v h]

/-- An id that is empty or too long makes lines 201-208 of `Associate` fail. -/
theorem associateInsert_rejected (tx : Store) (i e : GoString) (now : Int)
    (h : (i = [] ∨ MaxKeySize < i.length) ∨ (e = [] ∨ MaxKeySize < e.length)) :
    ∃ err, associateInsert tx i e now = .error err := by
  unfold associateInsert
  cases hr : removeExternal tx e true with
  | error err => exact ⟨err, rfl⟩
  | ok tx1 =>
    cases hm : tx1.metadata with
    | none => exact ⟨.invalidFormat, by simp only [readMetadata, hm]⟩
    | some md =>
      simp only [readMetadata, hm]
      rcases h with hi | he
      · exact ⟨_, by rw [putInBucket_rejected _ _ _ hi]⟩
      · cases hp : putInBucket .internalToExternal tx1.internalToExternal i
            ⟨i, e, now, md.Era⟩ with
        | error err => exact ⟨err, rfl⟩
        | ok f =>
          exact ⟨.writeFailed .externalToInternal, by rw [putInBucket_rejected _ _ _ he]⟩




/-- `Associate` of a pair that is not stored yet, on agreeing indices. -/
theorem AssociateTx_new (s : Store) (h : s.Inv) (md : storeMeta) (hmd : s.metadata = some md)
    (i e : GoString) (now : Int) (hi : i ≠ []) (he : e ≠ [])
    (hil : i.length ≤ MaxKeySize) (hel : e.length ≤ MaxKeySize)
    (hnew : ∀ t, s.internalToExternal.Get i = some t → t.ExternalID ≠ e) :
    AssociateTx i e now s = .ok (reassociated s i e now md.Era) := by
  have h1 := inv_garbage_Delete h e
  have h2 := inv_dropInternal h1 i true
  have hm2 : (dropInternal { s with garbage := s.garbage.Delete e } i true).metadata = some md :=
    (dropInternal_metadata _ i true).trans hmd
  have hins := associateInsert_eq _ h2.1 h2.2 md hm2 i e now hi he hil hel
  unfold AssociateTx reassociated
  simp only [deleteFromBucket, readTuple]
  cases hf : s.internalToExternal.Get i with
  | none =>
    have hf1 : ({ s with garbage := s.garbage.Delete e } : Store).internalToExternal.Get i
        = none := hf
    have hd : dropInternal { s with garbage := s.garbage.Delete e } i true
        = { s with garbage := s.garbage.Delete e } := dropInternal_none hf1 true
    rw [hd] at hins
    simp only [hd]
    exact hins
  | some t =>
    simp only [if_neg (hnew t hf), removeInternal_eq _ h1.1 h1.2]
    exact hins

theorem reassociated_forward_none (s : Store) (i e : GoString) :
    (dropExternal (dropInternal { s with garbage := s.garbage.Delete e } i true) e
      true).internalToExternal.Get i = none :=
  dropExternal_forward_none _ e true (dropInternal_forward_self _ i true)

theorem dropInternal_garbage_ne (tx : Store) (j : GoString) (m : Bool) {k e : GoString}
    (hj : ∀ t, tx.internalToExternal.Get j = some t → t.ExternalID = e) (hk : k ≠ e) :
    (dropInternal tx j m).garbage.Get k = tx.garbage.Get k := by
  cases hf : tx.internalToExternal.Get j with
  | none => rw [dropInternal_none hf]
  | some t =>
    rw [dropInternal_some hf]
    have hte := hj t hf
    cases m
    · rfl
    · show (tx.garbage.insert t.ExternalID t).Get k = tx.garbage.Get k
      rw [hte]
      exact Bucket.Get_insert_ne _ _ hk

theorem dropExternal_garbage_ne (tx : Store) (hag : tx.Agree) (e : GoString) (m : Bool)
    {k : GoString} (hk : k ≠ e) :
    (dropExternal tx e m).garbage.Get k = tx.garbage.Get k := by
  cases hr : tx.externalToInternal.Get e with
  | none => rw [dropExternal_none hr]
  | some j =>
    rw [dropExternal_some hr]
    obtain ⟨t, hf, hte⟩ := hag.2 e j hr
    exact dropInternal_garbage_ne tx j m
      (fun t1 ht1 => by rw [hf] at ht1; cases ht1; exact hte) hk

theorem disj_dropInternal {tx : Store} (h : tx.Inv) (hg : tx.GarbageDisjoint) (i : GoString)
    (m : Bool) : (dropInternal tx i m).GarbageDisjoint := by
  cases hf : tx.internalToExternal.Get i with
  | none => rw [dropInternal_none hf]; exact hg
  | some t => rw [dropInternal_some hf]; exact disj_dropPair h hg hf m

theorem disj_dropExternal {tx : Store} (h : tx.Inv) (hg : tx.GarbageDisjoint) (e : GoString)
    (m : Bool) : (dropExternal tx e m).GarbageDisjoint := by
  cases hr : tx.externalToInternal.Get e with
  | none => rw [dropExternal_none hr]; exact hg
  | some j => rw [dropExternal_some hr]; exact disj_dropInternal h hg j m

theorem inv_reassociated (s : Store) (h : s.Inv) (i e : GoString) (now era : Int)
    (hi : i ≠ []) (he : e ≠ []) (hil : i.length ≤ MaxKeySize) (hel : e.length ≤ MaxKeySize) :
    (reassociated s i e now era).Inv := by
  have h2 := inv_dropInternal (inv_garbage_Delete h e) i true
  exact inv_addPair (inv_dropExternal h2 e true) now era hi he hil hel
    (reassociated_forward_none s i e) (dropExternal_reverse_self _ h2.2 e true)

theorem disj_reassociated (s : Store) (h : s.Inv) (hg : s.GarbageDisjoint) (i e : GoString)
    (now era : Int)
    (hnew : ∀ t, s.internalToExternal.Get i = some t → t.ExternalID ≠ e) :
    (reassociated s i e now era).GarbageDisjoint := by
  have h1 := inv_garbage_Delete h e
  have h2 := inv_dropInternal h1 i true
  have h3 := inv_dropExternal h2 e true
  have g3 := disj_dropExternal h2 (disj_dropInternal h1 (disj_garbage_Delete hg e) i true) e true
  have hfi := reassociated_forward_none s i e
  have hg2 : (dropInternal { s with garbage := s.garbage.Delete e } i true).garbage.Get e
      = none := by
    cases hf : s.internalToExternal.Get i with
    | none =>
      have hf1 : ({ s with garbage := s.garbage.Delete e } : Store).internalToExternal.Get i
          = none := hf
      rw [dropInternal_none hf1]
      exact Bucket.Get_Delete_self _ _
    | some t =>
      have hf1 : ({ s with garbage := s.garbage.Delete e } : Store).internalToExternal.Get i
          = some t := hf
      rw [dropInternal_some hf1]
      show ((s.garbage.Delete e).insert t.ExternalID t).Get e = none
      rw [Bucket.Get_insert_ne _ _ (fun heq => hnew t hf heq.symm)]
      exact Bucket.Get_Delete_self _ _
  refine disj_addPair h3.1 g3 now era ?_
  intro tg htg hti
  cases hr : (dropInternal { s with garbage := s.garbage.Delete e } i true).externalToInternal.Get e with
  | none =>
    rw [dropExternal_none hr, hg2] at htg
    cases htg
  | some j =>
    obtain ⟨tj, hfj, htje⟩ := h2.2.2 e j hr
    rw [dropExternal_some hr, dropInternal_some hfj] at htg hfi
    have h4 : ((dropInternal { s with garbage := s.garbage.Delete e } i true).garbage.insert
        tj.ExternalID tj).Get e = some tg := htg
    rw [htje, Bucket.Get_insert_self] at h4
    have htg : tj = tg := Option.some.inj h4
    subst htg
    have hji : tj.InternalID = j := (fwd_key_of_wf h2.1 hfj).1
    have hdi := dropInternal_forward_self { s with garbage := s.garbage.Delete e } i true
    have hij : j = i := hji.symm.trans hti
    rw [hij, hdi] at hfj
    cases hfj

/-- The result of `updateEra` on a stored forward tuple: the same store, or the store with
the tuple rewritten under the same two ids. -/
theorem updateEra_cases {tx : Store} (hwf : tx.WellFormed) {i : GoString} {t : tuple}
    (hf : tx.internalToExternal.Get i = some t) {tx1 : Store} (hu : updateEra t tx = .ok tx1) :
    tx1 = tx ∨ ∃ t1, t1.InternalID = t.InternalID ∧ t1.ExternalID = t.ExternalID ∧
      tx1 = { tx with internalToExternal := tx.internalToExternal.insert i t1 } := by
  obtain ⟨hti, hine⟩ := fwd_key_of_wf hwf hf
  obtain ⟨md, hm⟩ := Option.isSome_iff_exists.1 hwf.1
  rw [updateEra_eq t tx md hm (by rw [hti]; exact hine)
    (by rw [hti]; exact fwd_len_of_wf hwf hf)] at hu
  have hu1 := Except.ok.inj hu
  by_cases hlt : t.Era < md.Era
  · rw [if_pos hlt, hti] at hu1
    exact Or.inr ⟨⟨i, t.ExternalID, t.Timestamp, md.Era⟩, hti.symm, rfl, hu1.symm⟩
  · rw [if_neg hlt] at hu1
    exact Or.inl hu1.symm

theorem updateEra_inv {tx : Store} (h : tx.Inv) {i : GoString} {t : tuple}
    (hf : tx.internalToExternal.Get i = some t) {tx1 : Store} (hu : updateEra t tx = .ok tx1) :
    tx1.Inv := by
  rcases updateEra_cases h.1 hf hu with rfl | ⟨t1, h1, h2, rfl⟩
  · exact h
  · exact inv_touch h hf h1 h2

theorem updateEra_disj {tx : Store} (h : tx.Inv) (hg : tx.GarbageDisjoint) {i : GoString}
    {t : tuple} (hf : tx.internalToExternal.Get i = some t) {tx1 : Store}
    (hu : updateEra t tx = .ok tx1) : tx1.GarbageDisjoint := by
  rcases updateEra_cases h.1 hf hu with rfl | ⟨t1, _, h2, rfl⟩
  · exact hg
  · exact disj_touch hg hf h2

/-- The three outcomes of `Associate` on agreeing indices: nothing is written (a fault),
the stored pair is touched, or the pair is new and the displaced pairs go to garbage. -/
theorem Associate_cases (s : Store) (h : s.Inv) (i e : GoString) (now : Int) :
    (Associate s i e now).1 = s ∨
    (∃ t, s.internalToExternal.Get i = some t ∧ t.ExternalID = e ∧
      updateEra t { s with garbage := s.garbage.Delete e } = .ok (Associate s i e now).1) ∨
    (∃ md, s.metadata = some md ∧ i ≠ [] ∧ e ≠ [] ∧
      i.length ≤ MaxKeySize ∧ e.length ≤ MaxKeySize ∧
      (∀ t, s.internalToExternal.Get i = some t → t.ExternalID ≠ e) ∧
      (Associate s i e now).1 = reassociated s i e now md.Era) := by
  unfold Associate Update
  cases hr : AssociateTx i e now s with
  | error err => exact Or.inl rfl
  | ok s1 =>
    right
    show (∃ t, s.internalToExternal.Get i = some t ∧ t.ExternalID = e ∧
      updateEra t { s with garbage := s.garbage.Delete e } = .ok s1) ∨
      (∃ md, s.metadata = some md ∧ i ≠ [] ∧ e ≠ [] ∧
      i.length ≤ MaxKeySize ∧ e.length ≤ MaxKeySize ∧
      (∀ t, s.internalToExternal.Get i = some t → t.ExternalID ≠ e) ∧
      s1 = reassociated s i e now md.Era)
    have h1 := inv_garbage_Delete h e
    by_cases htouch : ∃ t, s.internalToExternal.Get i = some t ∧ t.ExternalID = e
    · obtain ⟨t, hf, hte⟩ := htouch
      simp only [AssociateTx, deleteFromBucket, readTuple, hf, hte, if_true] at hr
      exact Or.inl ⟨t, hf, hte, hr⟩
    · have hnew : ∀ t, s.internalToExternal.Get i = some t → t.ExternalID ≠ e :=
        fun t hf hte => htouch ⟨t, hf, hte⟩
      by_cases hie : (i = [] ∨ MaxKeySize < i.length) ∨ (e = [] ∨ MaxKeySize < e.length)
      · exfalso
        simp only [AssociateTx, deleteFromBucket, readTuple] at hr
        cases hf : s.internalToExternal.Get i with
        | none =>
          rw [hf] at hr
          obtain ⟨err, herr⟩ := associateInsert_rejected
            { s with garbage := s.garbage.Delete e } i e now hie
          rw [herr] at hr
          cases hr
        | some t =>
          rw [hf] at hr
          simp only [if_neg (hnew t hf), removeInternal_eq _ h1.1 h1.2] at hr
          obtain ⟨err, herr⟩ := associateInsert_rejected
            (dropInternal { s with garbage := s.garbage.Delete e } i true) i e now hie
          rw [herr] at hr
          cases hr
      · have hi : i ≠ [] := fun hh => hie (Or.inl (Or.inl hh))
        have he : e ≠ [] := fun hh => hie (Or.inr (Or.inl hh))
        have hil : i.length ≤ MaxKeySize :=
          Nat.not_lt.1 (fun hh => hie (Or.inl (Or.inr hh)))
        have hel : e.length ≤ MaxKeySize :=
          Nat.not_lt.1 (fun hh => hie (Or.inr (Or.inr hh)))
        cases hm : s.metadata with
        | none =>
          exfalso
          have hwfm := h.1.1
          rw [hm] at hwfm
          cases hwfm
        | some md =>
          rw [AssociateTx_new s h md hm i e now hi he hil hel hnew] at hr
          cases hr
          exact Or.inr ⟨md, rfl, hi, he, hil, hel, hnew, rfl⟩

/-- `Associate` keeps the agreement of the two indices. -/
theorem inv_Associate (s : Store) (h : s.Inv) (i e : GoString) (now : Int) :
    (Associate s i e now).1.Inv := by
  rcases Associate_cases s h i e now with
    h1 | ⟨t, hf, _, hu⟩ | ⟨md, _, hi, he, hil, hel, _, h1⟩
  · rw [h1]; exact h
  · exact updateEra_inv (inv_garbage_Delete h e) hf hu
  · rw [h1]; exact inv_reassociated s h i e now md.Era hi he hil hel

/-- `Associate` keeps garbage disjoint from the live mappings. -/
theorem disj_Associate (s : Store) (h : s.Inv) (hg : s.GarbageDisjoint) (i e : GoString)
    (now : Int) : (Associate s i e now).1.GarbageDisjoint := by
  rcases Associate_cases s h i e now with
    h1 | ⟨t, hf, _, hu⟩ | ⟨md, _, _, _, _, _, hnew, h1⟩
  · rw [h1]; exact hg
  · exact updateEra_disj (inv_garbage_Delete h e) (disj_garbage_Delete hg e) hf hu
  · rw [h1]; exact disj_reassociated s h hg i e now md.Era hnew

theorem GetExternal_miss (s : Store) (i : GoString) (h : s.internalToExternal.Get i = none) :
    GetExternal s i = (s, [], none) := by
  simp only [GetExternal, Update, GetExternalTx, readTuple, h]

theorem GetInternal_miss (s : Store) (e : GoString) (h : s.externalToInternal.Get e = none) :
    GetInternal s e = (s, [], none) := by
  simp only [GetInternal, Update, GetInternalTx, h]

theorem dropInternal_reverse_none (tx : Store) (j : GoString) (m : Bool) {k : GoString}
    (h : tx.externalToInternal.Get k = none) :
    (dropInternal tx j m).externalToInternal.Get k = none := by
  cases hf : tx.internalToExternal.Get j with
  | none => rw [dropInternal_none hf]; exact h
  | some t => rw [dropInternal_some hf]; exact Bucket.Get_Delete_none _ h

theorem dropExternal_reverse_none (tx : Store) (e : GoString) (m : Bool) {k : GoString}
    (h : tx.externalToInternal.Get k = none) :
    (dropExternal tx e m).externalToInternal.Get k = none := by
  cases hr : tx.externalToInternal.Get e with
  | none => rw [dropExternal_none hr]; exact h
  | some j => rw [dropExternal_some hr]; exact dropInternal_reverse_none tx j m h

/-- `Garbage("")` returns every tuple of the garbage bucket. -/
theorem Garbage_all (s : Store) (md : storeMeta) (hmd : s.metadata = some md) :
    ∃ gs, Garbage s [] = .ok gs ∧ ∀ k t, s.garbage.Get k = some t → t ∈ gs := by
  refine ⟨sortedValueTuples ((s.garbage.map Prod.snd).filter
    (fun t => (buildReferences s md.Era [] false).2.any (fun pfx => HasPrefix t.InternalID pfx))),
    ?_, ?_⟩
  · simp only [Garbage, View, readMetadata, hmd, buildReferences_fst_false]
  · intro k t hk
    unfold sortedValueTuples
    rw [mem_sortSlice, List.mem_filter]
    refine ⟨List.mem_map.2 ⟨(k, t), Bucket.mem_of_Get hk, rfl⟩, ?_⟩
    rw [List.any_eq_true]
    refine ⟨[], ?_, by simp [HasPrefix]⟩
    rw [buildReferences_snd]
    exact subset_foldl_expandStep _ _ (List.mem_singleton_self _)

/-- The store after `removeInternal` in `Associate(i, e)` still has the pair of `e`. -/
theorem dropInternal_keeps_other (s : Store) (h : s.Inv) (i e : GoString)
    (hnew : ∀ t, s.internalToExternal.Get i = some t → t.ExternalID ≠ e)
    (j : GoString) (tj : tuple) (hr : s.externalToInternal.Get e = some j)
    (hfj : s.internalToExternal.Get j = some tj) :
    j ≠ i ∧ tj.ExternalID = e ∧
    (dropInternal { s with garbage := s.garbage.Delete e } i true).externalToInternal.Get e
      = some j ∧
    (dropInternal { s with garbage := s.garbage.Delete e } i true).internalToExternal.Get j
      = some tj := by
  obtain ⟨t, ht, hte⟩ := h.2.2 e j hr
  rw [hfj] at ht
  cases ht
  have hji : j ≠ i := fun heq => hnew tj (heq ▸ hfj) hte
  refine ⟨hji, hte, ?_, ?_⟩
  · cases hf : s.internalToExternal.Get i with
    | none =>
      have hf1 : ({ s with garbage := s.garbage.Delete e } : Store).internalToExternal.Get i
          = none := hf
      rw [dropInternal_none hf1]
      exact hr
    | some t1 =>
      have hf1 : ({ s with garbage := s.garbage.Delete e } : Store).internalToExternal.Get i
          = some t1 := hf
      rw [dropInternal_some hf1]
      show (s.externalToInternal.Delete t1.ExternalID).Get e = some j
      rw [Bucket.Get_Delete_ne _ (fun heq => hnew t1 hf heq.symm)]
      exact hr
  · cases hf : s.internalToExternal.Get i with
    | none =>
      have hf1 : ({ s with garbage := s.garbage.Delete e } : Store).internalToExternal.Get i
          = none := hf
      rw [dropInternal_none hf1]
      exact hfj
    | some t1 =>
      have hf1 : ({ s with garbage := s.garbage.Delete e } : Store).internalToExternal.Get i
          = some t1 := hf
      rw [dropInternal_some hf1]
      show (s.internalToExternal.Delete i).Get j = some tj
      rw [Bucket.Get_Delete_ne _ hji]
      exact hfj

/-- C3 (as the code has it): on agreeing indices `Associate(i, e)` of a pair that is not
stored, with two non-empty ids of at most `MaxKeySize` bytes, maps `i` to `e` and `e` to
`i`; the tuple `t1` that `i` had and the tuple `tj` that held `e` are gone from both indices
and sit in the garbage bucket under their external ids, hence in `Garbage("")`. -/
theorem associate_displaces (s : Store) (md : storeMeta) (i e : GoString) (now : Int)
    (hwf : s.WellFormed) (hagree : s.Agree)
    (hmd : s.metadata = some md) (hi : i ≠ []) (he : e ≠ [])
    (hil : i.length ≤ MaxKeySize) (hel : e.length ≤ MaxKeySize)
    (hnew : ∀ t, s.internalToExternal.Get i = some t → t.ExternalID ≠ e) :
    (Associate s i e now).2 = none ∧
    (Associate s i e now).1.internalToExternal.Get i = some ⟨i, e, now, md.Era⟩ ∧
    (Associate s i e now).1.externalToInternal.Get e = some i ∧
    (GetExternal (Associate s i e now).1 i).2 = (e, none) ∧
    (GetInternal (Associate s i e now).1 e).2 = (i, none) ∧
    (∀ t1, s.internalToExternal.Get i = some t1 →
      (Associate s i e now).1.externalToInternal.Get t1.ExternalID = none ∧
      (GetInternal (Associate s i e now).1 t1.ExternalID).2 = ([], none) ∧
      (Associate s i e now).1.garbage.Get t1.ExternalID = some t1 ∧
      ∃ gs, Garbage (Associate s i e now).1 [] = .ok gs ∧ t1 ∈ gs) ∧
    (∀ j tj, s.externalToInternal.Get e = some j → s.internalToExternal.Get j = some tj →
      (Associate s i e now).1.internalToExternal.Get j = none ∧
      (GetExternal (Associate s i e now).1 j).2 = ([], none) ∧
      (Associate s i e now).1.garbage.Get e = some tj ∧
      ∃ gs, Garbage (Associate s i e now).1 [] = .ok gs ∧ tj ∈ gs) := by
  have h : s.Inv := ⟨hwf, hagree⟩
  have hA : Associate s i e now = (reassociated s i e now md.Era, none) := by
    rw [Associate, Update, AssociateTx_new s h md hmd i e now hi he hil hel hnew]
  have hF := inv_reassociated s h i e now md.Era hi he hil hel
  have h1 := inv_garbage_Delete h e
  have h2 := inv_dropInternal h1 i true
  have hFm : (reassociated s i e now md.Era).metadata = some md := by
    show (dropExternal (dropInternal { s with garbage := s.garbage.Delete e } i true) e
      true).metadata = some md
    rw [dropExternal_metadata, dropInternal_metadata]
    exact hmd
  have hFi : (reassociated s i e now md.Era).internalToExternal.Get i
      = some ⟨i, e, now, md.Era⟩ := Bucket.Get_insert_self _ _ _
  have hFe : (reassociated s i e now md.Era).externalToInternal.Get e = some i :=
    Bucket.Get_insert_self _ _ _
  obtain ⟨gs, hgs, hgall⟩ := Garbage_all _ md hFm
  rw [hA]
  refine ⟨rfl, hFi, hFe, ?_, ?_, ?_, ?_⟩
  · rw [GetExternal_hit _ md hF.1 hFm i _ hFi]
  · have hE := GetInternal_hit _ md hF.1 hFm e i hFe
    rw [hFi] at hE
    rw [hE]
  · intro t1 hf
    have hne : t1.ExternalID ≠ e := hnew t1 hf
    have hf1 : ({ s with garbage := s.garbage.Delete e } : Store).internalToExternal.Get i
        = some t1 := hf
    have hrev : (reassociated s i e now md.Era).externalToInternal.Get t1.ExternalID = none := by
      show ((dropExternal (dropInternal { s with garbage := s.garbage.Delete e } i true) e
        true).externalToInternal.insert e i).Get t1.ExternalID = none
      rw [Bucket.Get_insert_ne _ _ hne]
      apply dropExternal_reverse_none
      rw [dropInternal_some hf1]
      exact Bucket.Get_Delete_self _ _
    have hgar : (reassociated s i e now md.Era).garbage.Get t1.ExternalID = some t1 := by
      show (dropExternal (dropInternal { s with garbage := s.garbage.Delete e } i true) e
        true).garbage.Get t1.ExternalID = some t1
      rw [dropExternal_garbage_ne _ h2.2 e true hne, dropInternal_some hf1]
      exact Bucket.Get_insert_self _ _ _
    refine ⟨hrev, ?_, hgar, gs, hgs, hgall _ _ hgar⟩
    rw [GetInternal_miss _ _ hrev]
  · intro j tj hr hfj
    obtain ⟨hji, hte, hTr, hTf⟩ := dropInternal_keeps_other s h i e hnew j tj hr hfj
    have hfwd : (reassociated s i e now md.Era).internalToExternal.Get j = none := by
      show ((dropExternal (dropInternal { s with garbage := s.garbage.Delete e } i true) e
        true).internalToExternal.insert i ⟨i, e, now, md.Era⟩).Get j = none
      rw [Bucket.Get_insert_ne _ _ hji, dropExternal_some hTr]
      exact dropInternal_forward_self _ j true
    have hgar : (reassociated s i e now md.Era).garbage.Get e = some tj := by
      show (dropExternal (dropInternal { s with garbage := s.garbage.Delete e } i true) e
        true).garbage.Get e = some tj
      rw [dropExternal_some hTr, dropInternal_some hTf]
      show ((dropInternal { s with garbage := s.garbage.Delete e } i true).garbage.insert
        tj.ExternalID tj).Get e = some tj
      rw [hte]
      exact Bucket.Get_insert_self _ _ _
    refine ⟨hfwd, ?_, hgar, gs, hgs, hgall _ _ hgar⟩
    rw [GetExternal_miss _ _ hfwd]


theorem agree_of_check {s : Store} (h : s.agreeCheck = true) : s.Agree := by
  unfold Store.agreeCheck at h
  rw [Bool.and_eq_true, List.all_eq_true, List.all_eq_true] at h
  constructor
  · intro k t hk
    exact of_decide_eq_true (h.1 (k, t) (Bucket.mem_of_Get hk)) hk
  · intro e k hk
    have h2 := of_decide_eq_true (h.2 (e, k) (Bucket.mem_of_Get hk)) hk
    cases hf : s.internalToExternal.Get k with
    | none => rw [hf] at h2; cases h2
    | some t =>
      rw [hf] at h2
      exact ⟨t, rfl, Option.some.inj h2⟩

/-- Witness of C3: test `TestMultipleKeys`; after `Associate("i1","e1")` and
`Associate("i4","e4")` the call `Associate("i1","e4")` maps `i1` to `e4`, leaves `e1` and `i4`
without mapping and puts both old tuples into the garbage bucket. -/
theorem associate_displaces_witness :
    (run (newStore 0) [.Associate [105, 49] [101, 49] 1, .Associate [105, 52] [101, 52] 2]).WellFormed ∧
    (GetExternal (Associate (run (newStore 0)
      [.Associate [105, 49] [101, 49] 1, .Associate [105, 52] [101, 52] 2])
      [105, 49] [101, 52] 3).1 [105, 49]).2 = ([101, 52], none) ∧
    (GetInternal (Associate (run (newStore 0)
      [.Associate [105, 49] [101, 49] 1, .Associate [105, 52] [101, 52] 2])
      [105, 49] [101, 52] 3).1 [101, 49]).2 = ([], none) ∧
    (GetExternal (Associate (run (newStore 0)
      [.Associate [105, 49] [101, 49] 1, .Associate [105, 52] [101, 52] 2])
      [105, 49] [101, 52] 3).1 [105, 52]).2 = ([], none) ∧
    (Associate (run (newStore 0)
      [.Associate [105, 49] [101, 49] 1, .Associate [105, 52] [101, 52] 2])
      [105, 49] [101, 52] 3).1.garbage.Get [101, 49] = some ⟨[105, 49], [101, 49], 1, 0⟩ ∧
    (Associate (run (newStore 0)
      [.Associate [105, 49] [101, 49] 1, .Associate [105, 52] [101, 52] 2])
      [105, 49] [101, 52] 3).1.garbage.Get [101, 52] = some ⟨[105, 52], [101, 52], 2, 0⟩ := by
  have h := associate_displaces
    (run (newStore 0) [.Associate [105, 49] [101, 49] 1, .Associate [105, 52] [101, 52] 2])
    ⟨[49, 46, 49, 46, 48], 0, 0⟩ [105, 49] [101, 52] 3 (by decide)
    (agree_of_check (by decide)) (by decide) (by decide) (by decide) (by decide) (by decide)
    (fun t ht => by
      have h1 : t = ⟨[105, 49], [101, 49], 1, 0⟩ := by
        have h2 : (run (newStore 0) [.Associate [105, 49] [101, 49] 1,
          .Associate [105, 52] [101, 52] 2]).internalToExternal.Get [105, 49]
            = some ⟨[105, 49], [101, 49], 1, 0⟩ := by decide
        rw [h2] at ht
        exact (Option.some.inj ht).symm
      rw [h1]
      decide)
  have h1 := h.2.2.2.2.2.1 ⟨[105, 49], [101, 49], 1, 0⟩ (by decide)
  have h2 := h.2.2.2.2.2.2 [105, 52] ⟨[105, 52], [101, 52], 2, 0⟩ (by decide) (by decide)
  exact ⟨by decide, h.2.2.2.1, h1.2.1, h2.2.1, h1.2.2.1, h2.2.2.1⟩


/-! The other mapping operations keep the invariants -/

theorem inv_of_frame {s s1 : Store} (h : s.Inv) (hm : s1.metadata = s.metadata)
    (hf : s1.internalToExternal = s.internalToExternal)
    (hr : s1.externalToInternal = s.externalToInternal)
    (hg : ∀ kv ∈ s1.garbage, kv ∈ s.garbage)
    (hrf : ∀ kv ∈ s1.references, kv ∈ s.references) : s1.Inv := by
  obtain ⟨hwf, hag⟩ := h
  refine ⟨⟨hm ▸ hwf.1, ?_, ?_, ?_, ?_, ?_, ?_, ?_, ?_⟩, ?_, ?_⟩
  · rw [hf]; exact hwf.2.1
  · rw [hr]; exact hwf.2.2.1
  · exact fun kv hkv => hwf.2.2.2.1 kv (hg kv hkv)
  · exact fun kv hkv => hwf.2.2.2.2.1 kv (hrf kv hkv)
  · rw [hf]; exact hwf.2.2.2.2.2.1
  · rw [hr]; exact hwf.2.2.2.2.2.2.1
  · exact fun kv hkv => hwf.2.2.2.2.2.2.2.1 kv (hg kv hkv)
  · exact fun kv hkv => hwf.2.2.2.2.2.2.2.2 kv (hrf kv hkv)
  · rw [hf, hr]; exact hag.1
  · rw [hf, hr]; exact hag.2

theorem disj_of_frame {s s1 : Store} (h : s.GarbageDisjoint)
    (hf : s1.internalToExternal = s.internalToExternal)
    (hg : ∀ k t, s1.garbage.Get k = some t → s.garbage.Get k = some t) :
    s1.GarbageDisjoint := by
  intro k t hk t1 ht1
  rw [hf] at ht1
  exact h k t (hg k t hk) t1 ht1

theorem GetExternal_cases (s : Store) (hwf : s.WellFormed) (i : GoString) :
    (GetExternal s i).1 = s ∨ ∃ t t1, s.internalToExternal.Get i = some t ∧
      t1.InternalID = t.InternalID ∧ t1.ExternalID = t.ExternalID ∧
      (GetExternal s i).1 = { s with internalToExternal := s.internalToExternal.insert i t1 } := by
  have hE : (GetExternal s i).1 = (Update s (GetExternalTx i)).1 := rfl
  rw [hE]
  unfold Update
  cases hf : s.internalToExternal.Get i with
  | none =>
    have hx : GetExternalTx i s = .ok s := by simp only [GetExternalTx, readTuple, hf]
    rw [hx]
    exact Or.inl rfl
  | some t =>
    have hx : GetExternalTx i s = updateEra t s := by simp only [GetExternalTx, readTuple, hf]
    rw [hx]
    cases hu : updateEra t s with
    | error err => exact Or.inl rfl
    | ok s1 =>
      rcases updateEra_cases hwf hf hu with h1 | ⟨t1, h1, h2, h3⟩
      · exact Or.inl h1
      · exact Or.inr ⟨t, t1, rfl, h1, h2, h3⟩

theorem GetInternal_cases (s : Store) (hwf : s.WellFormed) (e : GoString) :
    (GetInternal s e).1 = s ∨ ∃ i t t1, s.internalToExternal.Get i = some t ∧
      t1.InternalID = t.InternalID ∧ t1.ExternalID = t.ExternalID ∧
      (GetInternal s e).1 = { s with internalToExternal := s.internalToExternal.insert i t1 } := by
  have hE : (GetInternal s e).1 = (Update s (GetInternalTx e)).1 := rfl
  rw [hE]
  unfold Update
  cases hr : s.externalToInternal.Get e with
  | none =>
    have hx : GetInternalTx e s = .ok s := by simp only [GetInternalTx, hr]
    rw [hx]
    exact Or.inl rfl
  | some i =>
    cases hf : s.internalToExternal.Get i with
    | none =>
      have hx : GetInternalTx e s = .ok s := by simp only [GetInternalTx, readTuple, hr, hf]
      rw [hx]
      exact Or.inl rfl
    | some t =>
      have hx : GetInternalTx e s = updateEra t s := by
        simp only [GetInternalTx, readTuple, hr, hf]
      rw [hx]
      cases hu : updateEra t s with
      | error err => exact Or.inl rfl
      | ok s1 =>
        rcases updateEra_cases hwf hf hu with h1 | ⟨t1, h1, h2, h3⟩
        · exact Or.inl h1
        · exact Or.inr ⟨i, t, t1, hf, h1, h2, h3⟩

theorem RemoveExternal_eq (s : Store) (h : s.Inv) (e : GoString) :
    RemoveExternal s e = (dropExternal s e true, none) := by
  rw [RemoveExternal, Update, removeExternal_eq s h.1 h.2]

theorem RemoveInternal_eq (s : Store) (h : s.Inv) (i : GoString) :
    RemoveInternal s i = (dropInternal s i true, none) := by
  rw [RemoveInternal, Update, removeInternal_eq s h.1 h.2]

theorem PurgeExternal_eq (s : Store) (h : s.Inv) (e : GoString) :
    PurgeExternal s e =
      ({ dropExternal s e false with garbage := (dropExternal s e false).garbage.Delete e },
        none) := by
  rw [PurgeExternal, Update, PurgeExternalTx, removeExternal_eq s h.1 h.2]
  rfl

theorem mem_foldl_Delete {V : Type} (es : List GoString) (g : Bucket V) {kv : GoString × V}
    (h : kv ∈ es.foldl (fun g eid => deleteFromBucket g eid) g) : kv ∈ g := by
  induction es generalizing g with
  | nil => exact h
  | cons k es ih => exact Bucket.mem_Delete (ih _ h)

theorem Get_foldl_Delete_some {V : Type} (es : List GoString) (g : Bucket V) {k : GoString}
    {v : V} (h : (es.foldl (fun g eid => deleteFromBucket g eid) g).Get k = some v) :
    g.Get k = some v := by
  induction es generalizing g with
  | nil => exact h
  | cons k1 es ih => exact (Bucket.Get_Delete_some (ih _ h)).2

theorem PurgeInternal_eq (s : Store) (h : s.Inv) (i : GoString) :
    PurgeInternal s i =
      ({ dropInternal s i false with
          garbage := (((dropInternal s i false).garbage.filter
            (fun kv => decide (kv.2.InternalID = i))).map Prod.fst).foldl
              (fun g eid => deleteFromBucket g eid) (dropInternal s i false).garbage },
        none) := by
  rw [PurgeInternal, Update, PurgeInternalTx, removeInternal_eq s h.1 h.2]

theorem foldl_buildReferencesStep_frame (purge : Bool) (l : List reference)
    (acc : Store × List GoString) :
    (l.foldl (buildReferencesStep purge) acc).1.metadata = acc.1.metadata ∧
    (l.foldl (buildReferencesStep purge) acc).1.internalToExternal = acc.1.internalToExternal ∧
    (l.foldl (buildReferencesStep purge) acc).1.externalToInternal = acc.1.externalToInternal ∧
    (l.foldl (buildReferencesStep purge) acc).1.garbage = acc.1.garbage ∧
    ∀ kv ∈ (l.foldl (buildReferencesStep purge) acc).1.references, kv ∈ acc.1.references := by
  induction l generalizing acc with
  | nil => exact ⟨rfl, rfl, rfl, rfl, fun kv h => h⟩
  | cons r l ih =>
    rw [List.foldl_cons]
    obtain ⟨h1, h2, h3, h4, h5⟩ := ih (buildReferencesStep purge acc r)
    have hs : (buildReferencesStep purge acc r).1.metadata = acc.1.metadata ∧
        (buildReferencesStep purge acc r).1.internalToExternal = acc.1.internalToExternal ∧
        (buildReferencesStep purge acc r).1.externalToInternal = acc.1.externalToInternal ∧
        (buildReferencesStep purge acc r).1.garbage = acc.1.garbage ∧
        ∀ kv ∈ (buildReferencesStep purge acc r).1.references, kv ∈ acc.1.references := by
      unfold buildReferencesStep
      split_ifs
      · exact ⟨rfl, rfl, rfl, rfl, fun kv h => Bucket.mem_Delete h⟩
      · exact ⟨rfl, rfl, rfl, rfl, fun kv h => h⟩
      · exact ⟨rfl, rfl, rfl, rfl, fun kv h => h⟩
    exact ⟨h1.trans hs.1, h2.trans hs.2.1, h3.trans hs.2.2.1, h4.trans hs.2.2.2.1,
      fun kv h => hs.2.2.2.2 kv (h5 kv h)⟩

/-- `buildReferences` writes nothing but deletions from the references bucket. -/
theorem buildReferences_frame (tx : Store) (era : Int) (seed : GoString) (purge : Bool) :
    (buildReferences tx era seed purge).1.metadata = tx.metadata ∧
    (buildReferences tx era seed purge).1.internalToExternal = tx.internalToExternal ∧
    (buildReferences tx era seed purge).1.externalToInternal = tx.externalToInternal ∧
    (buildReferences tx era seed purge).1.garbage = tx.garbage ∧
    ∀ kv ∈ (buildReferences tx era seed purge).1.references, kv ∈ tx.references := by
  unfold buildReferences
  simp only []
  split_ifs
  · exact foldl_buildReferencesStep_frame purge _ (tx, [seed])
  · exact ⟨rfl, rfl, rfl, rfl, fun kv h => h⟩

theorem PurgeReferences_frame (s : Store) (p : GoString) :
    (PurgeReferences s p).1.metadata = s.metadata ∧
    (PurgeReferences s p).1.internalToExternal = s.internalToExternal ∧
    (PurgeReferences s p).1.externalToInternal = s.externalToInternal ∧
    (PurgeReferences s p).1.garbage = s.garbage ∧
    ∀ kv ∈ (PurgeReferences s p).1.references, kv ∈ s.references := by
  cases hm : s.metadata with
  | none =>
    have hx : PurgeReferencesTx p s = .error .invalidFormat := by
      simp only [PurgeReferencesTx, readMetadata, hm]
    have hs : (PurgeReferences s p).1 = s := by rw [PurgeReferences, Update, hx]
    rw [hs]
    exact ⟨hm, rfl, rfl, rfl, fun kv h => h⟩
  | some md =>
    have hx : PurgeReferencesTx p s = .ok (buildReferences s md.Era p true).1 := by
      simp only [PurgeReferencesTx, readMetadata, hm]
    have hs : (PurgeReferences s p).1 = (buildReferences s md.Era p true).1 := by
      rw [PurgeReferences, Update, hx]
    have hb := buildReferences_frame s md.Era p true
    rw [hm] at hb
    rw [hs]
    exact hb

theorem BumpEra_frame (s : Store) :
    (BumpEra s).1.metadata.isSome = s.metadata.isSome ∧
    (BumpEra s).1.internalToExternal = s.internalToExternal ∧
    (BumpEra s).1.externalToInternal = s.externalToInternal ∧
    (BumpEra s).1.garbage = s.garbage ∧ (BumpEra s).1.references = s.references := by
  cases hm : s.metadata with
  | none =>
    have hx : BumpEraTx s = .error .invalidFormat := by
      simp only [BumpEraTx, readMetadata, hm]
    have hs : (BumpEra s).1 = s := by rw [BumpEra, Update, hx]
    rw [hs, hm]
    exact ⟨rfl, rfl, rfl, rfl, rfl⟩
  | some md =>
    have hx : BumpEraTx s
        = .ok { s with metadata := some { md with Era := wrapInt64 (md.Era + 1) } } := by
      simp only [BumpEraTx, readMetadata, hm]
    have hs : (BumpEra s).1
        = { s with metadata := some { md with Era := wrapInt64 (md.Era + 1) } } := by
      rw [BumpEra, Update, hx]
    rw [hs]
    exact ⟨rfl, rfl, rfl, rfl, rfl⟩

/-- Every operation but `Sweep` and `AddReference` keeps the agreement of the two indices
and the disjointness of garbage. -/
theorem mapping_op_keeps (s : Store) (h : s.Inv) (hg : s.GarbageDisjoint) (op : Op)
    (hop : op.isMapping = true) : (op.apply s).Inv ∧ (op.apply s).GarbageDisjoint := by
  cases op with
  | Associate i e now => exact ⟨inv_Associate s h i e now, disj_Associate s h hg i e now⟩
  | AddReference i o now => cases hop
  | Sweep p => cases hop
  | GetExternal i =>
    show (GetExternal s i).1.Inv ∧ (GetExternal s i).1.GarbageDisjoint
    rcases GetExternal_cases s h.1 i with h1 | ⟨t, t1, hf, h1, h2, h3⟩
    · rw [h1]; exact ⟨h, hg⟩
    · rw [h3]; exact ⟨inv_touch h hf h1 h2, disj_touch hg hf h2⟩
  | GetInternal e =>
    show (GetInternal s e).1.Inv ∧ (GetInternal s e).1.GarbageDisjoint
    rcases GetInternal_cases s h.1 e with h1 | ⟨i, t, t1, hf, h1, h2, h3⟩
    · rw [h1]; exact ⟨h, hg⟩
    · rw [h3]; exact ⟨inv_touch h hf h1 h2, disj_touch hg hf h2⟩
  | RemoveExternal e =>
    show (RemoveExternal s e).1.Inv ∧ (RemoveExternal s e).1.GarbageDisjoint
    rw [RemoveExternal_eq s h e]
    exact ⟨inv_dropExternal h e true, disj_dropExternal h hg e true⟩
  | RemoveInternal i =>
    show (RemoveInternal s i).1.Inv ∧ (RemoveInternal s i).1.GarbageDisjoint
    rw [RemoveInternal_eq s h i]
    exact ⟨inv_dropInternal h i true, disj_dropInternal h hg i true⟩
  | PurgeExternal e =>
    show (PurgeExternal s e).1.Inv ∧ (PurgeExternal s e).1.GarbageDisjoint
    rw [PurgeExternal_eq s h e]
    exact ⟨inv_garbage_Delete (inv_dropExternal h e false) e,
      disj_garbage_Delete (disj_dropExternal h hg e false) e⟩
  | PurgeInternal i =>
    show (PurgeInternal s i).1.Inv ∧ (PurgeInternal s i).1.GarbageDisjoint
    rw [PurgeInternal_eq s h i]
    exact ⟨inv_of_frame (inv_dropInternal h i false) rfl rfl rfl
        (fun kv hkv => mem_foldl_Delete _ _ hkv) (fun kv hkv => hkv),
      disj_of_frame (disj_dropInternal h hg i false) rfl
        (fun k t hk => Get_foldl_Delete_some _ _ hk)⟩
  | PurgeReferences p =>
    show (PurgeReferences s p).1.Inv ∧ (PurgeReferences s p).1.GarbageDisjoint
    obtain ⟨h1, h2, h3, h4, h5⟩ := PurgeReferences_frame s p
    exact ⟨inv_of_frame h h1 h2 h3 (fun kv hkv => h4 ▸ hkv) h5,
      disj_of_frame hg h2 (fun k t hk => h4 ▸ hk)⟩
  | BumpEra =>
    show (BumpEra s).1.Inv ∧ (BumpEra s).1.GarbageDisjoint
    obtain ⟨h1, h2, h3, h4, h5⟩ := BumpEra_frame s
    refine ⟨⟨⟨h1.trans h.1.1, ?_, ?_, ?_, ?_, ?_⟩, ?_, ?_⟩,
      disj_of_frame hg h2 (fun k t hk => h4 ▸ hk)⟩
    · rw [h2]; exact h.1.2.1
    · rw [h3]; exact h.1.2.2.1
    · rw [h4]; exact h.1.2.2.2.1
    · rw [h5]; exact h.1.2.2.2.2.1
    · unfold Store.KeysFit
      rw [h2, h3, h4, h5]
      exact h.1.2.2.2.2.2
    · rw [h2, h3]; exact h.2.1
    · rw [h2, h3]; exact h.2.2

theorem run_mapping_keeps (ops : List Op) (s : Store) (h : s.Inv) (hg : s.GarbageDisjoint)
    (hops : ∀ op ∈ ops, op.isMapping = true) :
    (run s ops).Inv ∧ (run s ops).GarbageDisjoint := by
  induction ops generalizing s with
  | nil => exact ⟨h, hg⟩
  | cons op ops ih =>
    obtain ⟨h1, g1⟩ := mapping_op_keeps s h hg op (hops op (List.mem_cons_self _ _))
    exact ih (op.apply s) h1 g1 (fun o ho => hops o (List.mem_cons_of_mem _ ho))

theorem newStore_inv (now : Int) : (newStore now).Inv ∧ (newStore now).GarbageDisjoint := by
  refine ⟨⟨⟨rfl, ?_, ?_, ?_, ?_, ?_, ?_, ?_, ?_⟩, ?_, ?_⟩, ?_⟩
  · intro kv h; cases h
  · intro kv h; cases h
  · intro kv h; cases h
  · intro kv h; cases h
  · intro kv h; cases h
  · intro kv h; cases h
  · intro kv h; cases h
  · intro kv h; cases h
  · intro k t h; cases h
  · intro e k h; cases h
  · intro k t h; cases h

/-- C4 (as the code has it): in a store reached without `Sweep` and `AddReference`, a
garbage tuple is keyed by its external id, no forward entry has the same pair of ids, and
the reverse index does not map its external id to its internal id. -/
theorem garbage_disjoint_without_sweep (s : Store) (h : ReachableMapping s) :
    ∀ k t, s.garbage.Get k = some t →
      t.ExternalID = k ∧
      (∀ k1 t1, s.internalToExternal.Get k1 = some t1 →
        ¬ (t1.InternalID = t.InternalID ∧ t1.ExternalID = t.ExternalID)) ∧
      s.externalToInternal.Get t.ExternalID ≠ some t.InternalID := by
  obtain ⟨now, ops, hops, rfl⟩ := h
  obtain ⟨hinv, hdisj⟩ :=
    run_mapping_keeps ops (newStore now) (newStore_inv now).1 (newStore_inv now).2 hops
  intro k t hk
  refine ⟨(garbage_key_of_wf hinv.1 hk).1, ?_, ?_⟩
  · intro k1 t1 hf ⟨hi, he⟩
    have hk1 : t1.InternalID = k1 := (fwd_key_of_wf hinv.1 hf).1
    rw [← hk1, hi] at hf
    exact hdisj k t hk t1 hf he
  · intro hr
    obtain ⟨t1, hf, he⟩ := hinv.2.2 _ _ hr
    exact hdisj k t hk t1 hf he

/-- Witness of C4: after `Associate("a","e")` and `RemoveInternal("a")` the tuple is in the
garbage bucket and in neither index. -/
theorem garbage_disjoint_without_sweep_witness :
    ReachableMapping (run (newStore 0) [.Associate [97] [101] 1, .RemoveInternal [97]]) ∧
    (run (newStore 0) [.Associate [97] [101] 1, .RemoveInternal [97]]).garbage.Get [101]
      = some ⟨[97], [101], 1, 0⟩ ∧
    (run (newStore 0) [.Associate [97] [101] 1,
      .RemoveInternal [97]]).externalToInternal.Get [101] ≠ some [97] :=
  ⟨⟨0, _, by decide, rfl⟩, by decide,
   (garbage_disjoint_without_sweep
      (run (newStore 0) [.Associate [97] [101] 1, .RemoveInternal [97]])
      ⟨0, _, by decide, rfl⟩ [101] ⟨[97], [101], 1, 0⟩ (by decide)).2.2⟩

/-- Counterexample to C4: after `Associate("a","e")`, `BumpEra` and `Sweep("")` the tuple
of `a` is in the garbage bucket while the same tuple is still in the forward index and
the reverse entry `e -> a` is still there. -/
theorem swept_tuple_stays_live :
    Reachable (run (newStore 0) [.Associate [97] [101] 1, .BumpEra, .Sweep []]) ∧
    (run (newStore 0) [.Associate [97] [101] 1, .BumpEra, .Sweep []]).garbage.Get [101]
      = some ⟨[97], [101], 1, 0⟩ ∧
    (run (newStore 0) [.Associate [97] [101] 1, .BumpEra,
      .Sweep []]).internalToExternal.Get [97] = some ⟨[97], [101], 1, 0⟩ ∧
    (run (newStore 0) [.Associate [97] [101] 1, .BumpEra,
      .Sweep []]).externalToInternal.Get [101] = some [97] :=
  ⟨⟨0, _, rfl⟩, by decide, by decide, by decide⟩


/-! Every reachable store is well-formed -/

theorem wf_of_frame {s s1 : Store} (h : s.WellFormed) (hm : s1.metadata = s.metadata)
    (hf : s1.internalToExternal = s.internalToExternal)
    (hr : s1.externalToInternal = s.externalToInternal)
    (hg : ∀ kv ∈ s1.garbage, kv ∈ s.garbage)
    (hrf : ∀ kv ∈ s1.references, kv ∈ s.references) : s1.WellFormed := by
  refine ⟨hm ▸ h.1, ?_, ?_, ?_, ?_, ?_, ?_, ?_, ?_⟩
  · rw [hf]; exact h.2.1
  · rw [hr]; exact h.2.2.1
  · exact fun kv hkv => h.2.2.2.1 kv (hg kv hkv)
  · exact fun kv hkv => h.2.2.2.2.1 kv (hrf kv hkv)
  · rw [hf]; exact h.2.2.2.2.2.1
  · rw [hr]; exact h.2.2.2.2.2.2.1
  · exact fun kv hkv => h.2.2.2.2.2.2.2.1 kv (hg kv hkv)
  · exact fun kv hkv => h.2.2.2.2.2.2.2.2 kv (hrf kv hkv)

theorem wf_addToGarbage {tx tx1 : Store} {t : tuple} (h : tx.WellFormed)
    (hu : addToGarbage tx t = .ok tx1) : tx1.WellFormed := by
  have hl := (addToGarbage_key hu).2
  obtain ⟨hk, rfl⟩ := addToGarbage_ok hu
  exact wf_garbage_insert h rfl hk hl

theorem wf_updateEra {tx tx1 : Store} {t : tuple} (h : tx.WellFormed)
    (hu : updateEra t tx = .ok tx1) : tx1.WellFormed := by
  obtain ⟨md, hm⟩ := Option.isSome_iff_exists.1 h.1
  by_cases hlt : t.Era < md.Era
  · cases hp : putInBucket .internalToExternal tx.internalToExternal t.InternalID
        { t with Era := md.Era } with
    | error e => simp only [updateEra, readMetadata, hm, hlt, if_true, hp] at hu; cases hu
    | ok b =>
      simp only [updateEra, readMetadata, hm, hlt, if_true, hp] at hu
      cases hu
      rw [(putInBucket_ok hp).2]
      exact wf_metadata (wf_forward_insert (t := { t with Era := md.Era }) h rfl
        (putInBucket_ok hp).1 (putInBucket_len hp)) md
  · simp only [updateEra, readMetadata, hm, hlt, if_false] at hu
    cases hu
    exact h

theorem wf_removeExternal {tx tx1 : Store} {eid : GoString} {m : Bool} (h : tx.WellFormed)
    (hu : removeExternal tx eid m = .ok tx1) : tx1.WellFormed := by
  unfold removeExternal at hu
  cases hr : tx.externalToInternal.Get eid with
  | none => rw [hr] at hu; cases hu; exact h
  | some iid =>
    rw [hr] at hu
    simp only [readTuple, deleteFromBucket] at hu
    have h1 := wf_reverse_Delete h eid
    cases hf : tx.internalToExternal.Get iid with
    | none => rw [hf] at hu; cases hu; exact h1
    | some t =>
      rw [hf] at hu
      simp only [] at hu
      have h2 := wf_forward_Delete h1 iid
      split_ifs at hu
      · exact wf_addToGarbage h2 hu
      · cases hu; exact h2
      · cases hu; exact h1

theorem wf_removeInternal {tx tx1 : Store} {iid : GoString} {m : Bool} (h : tx.WellFormed)
    (hu : removeInternal tx iid m = .ok tx1) : tx1.WellFormed := by
  unfold removeInternal at hu
  simp only [readTuple, deleteFromBucket] at hu
  cases hf : tx.internalToExternal.Get iid with
  | none => rw [hf] at hu; cases hu; exact h
  | some t =>
    rw [hf] at hu
    simp only [] at hu
    have h1 := wf_forward_Delete h iid
    have h2 := wf_reverse_Delete h1 t.ExternalID
    cases m
    · simp only [Bool.false_eq_true, if_false] at hu
      have hu1 := Except.ok.inj hu
      rw [← hu1]
      split_ifs
      · exact h2
      · exact h1
    · simp only [if_true] at hu
      split_ifs at hu
      · exact wf_addToGarbage h2 hu
      · exact wf_addToGarbage h1 hu

theorem wf_associateInsert {tx tx1 : Store} {i e : GoString} {now : Int} (h : tx.WellFormed)
    (hu : associateInsert tx i e now = .ok tx1) : tx1.WellFormed := by
  unfold associateInsert at hu
  cases hr : removeExternal tx e true with
  | error err => rw [hr] at hu; cases hu
  | ok tx2 =>
    rw [hr] at hu
    simp only [] at hu
    have h2 := wf_removeExternal h hr
    cases hm : readMetadata tx2 with
    | error err => rw [hm] at hu; cases hu
    | ok md =>
      rw [hm] at hu
      simp only [] at hu
      cases hp : putInBucket .internalToExternal tx2.internalToExternal i
          ⟨i, e, now, md.Era⟩ with
      | error err => rw [hp] at hu; cases hu
      | ok f =>
        rw [hp] at hu
        simp only [] at hu
        have hil := putInBucket_len hp
        obtain ⟨hi, rfl⟩ := putInBucket_ok hp
        cases hq : putInBucket .externalToInternal tx2.externalToInternal e i with
        | error err => rw [hq] at hu; cases hu
        | ok r =>
          rw [hq] at hu
          have hel := putInBucket_len hq
          obtain ⟨he, rfl⟩ := putInBucket_ok hq
          cases hu
          exact wf_reverse_insert (wf_forward_insert (t := ⟨i, e, now, md.Era⟩) h2 rfl hi hil)
            i he hel

theorem wf_AssociateTx {tx tx1 : Store} {i e : GoString} {now : Int} (h : tx.WellFormed)
    (hu : AssociateTx i e now tx = .ok tx1) : tx1.WellFormed := by
  unfold AssociateTx at hu
  simp only [readTuple, deleteFromBucket] at hu
  have h1 := wf_garbage_Delete h e
  cases hf : tx.internalToExternal.Get i with
  | none => rw [hf] at hu; exact wf_associateInsert h1 hu
  | some t =>
    rw [hf] at hu
    simp only [] at hu
    split_ifs at hu
    · exact wf_updateEra h1 hu
    · cases hr : removeInternal { tx with garbage := tx.garbage.Delete e } i true with
      | error err => rw [hr] at hu; cases hu
      | ok tx2 =>
        rw [hr] at hu
        exact wf_associateInsert (wf_removeInternal h1 hr) hu

theorem wf_AddReferenceTx {tx tx1 : Store} {i o : GoString} {now : Int} (h : tx.WellFormed)
    (hu : AddReferenceTx i o now tx = .ok tx1) : tx1.WellFormed := by
  unfold AddReferenceTx at hu
  cases hf : readReference tx (refKey i o) with
  | some t => rw [hf] at hu; exact wf_updateEra h hu
  | none =>
    rw [hf] at hu
    simp only [] at hu
    cases hm : readMetadata tx with
    | error err => rw [hm] at hu; cases hu
    | ok md =>
      rw [hm] at hu
      simp only [] at hu
      cases hp : putInBucket .references tx.references (refKey i o) ⟨i, o, now, md.Era⟩ with
      | error err => rw [hp] at hu; cases hu
      | ok r =>
        rw [hp] at hu
        have hl := putInBucket_len hp
        obtain ⟨_, rfl⟩ := putInBucket_ok hp
        cases hu
        exact wf_references_insert h ⟨i, o, now, md.Era⟩ hl

theorem wf_GetExternalTx {tx tx1 : Store} {i : GoString} (h : tx.WellFormed)
    (hu : GetExternalTx i tx = .ok tx1) : tx1.WellFormed := by
  unfold GetExternalTx at hu
  cases hf : readTuple tx i with
  | none => rw [hf] at hu; cases hu; exact h
  | some t => rw [hf] at hu; exact wf_updateEra h hu

theorem wf_GetInternalTx {tx tx1 : Store} {e : GoString} (h : tx.WellFormed)
    (hu : GetInternalTx e tx = .ok tx1) : tx1.WellFormed := by
  unfold GetInternalTx at hu
  cases hr : tx.externalToInternal.Get e with
  | none => rw [hr] at hu; cases hu; exact h
  | some i =>
    rw [hr] at hu
    simp only [] at hu
    cases hf : readTuple tx i with
    | none => rw [hf] at hu; cases hu; exact h
    | some t => rw [hf] at hu; exact wf_updateEra h hu

theorem wf_PurgeExternalTx {tx tx1 : Store} {e : GoString} (h : tx.WellFormed)
    (hu : PurgeExternalTx e tx = .ok tx1) : tx1.WellFormed := by
  unfold PurgeExternalTx at hu
  cases hr : removeExternal tx e false with
  | error err => rw [hr] at hu; cases hu
  | ok tx2 =>
    rw [hr] at hu
    cases hu
    exact wf_garbage_Delete (wf_removeExternal h hr) e

theorem wf_PurgeInternalTx {tx tx1 : Store} {i : GoString} (h : tx.WellFormed)
    (hu : PurgeInternalTx i tx = .ok tx1) : tx1.WellFormed := by
  unfold PurgeInternalTx at hu
  cases hr : removeInternal tx i false with
  | error err => rw [hr] at hu; cases hu
  | ok tx2 =>
    rw [hr] at hu
    cases hu
    exact wf_of_frame (wf_removeInternal h hr) rfl rfl rfl
      (fun kv hkv => mem_foldl_Delete _ _ hkv) (fun kv hkv => hkv)

theorem wf_PurgeReferencesTx {tx tx1 : Store} {p : GoString} (h : tx.WellFormed)
    (hu : PurgeReferencesTx p tx = .ok tx1) : tx1.WellFormed := by
  unfold PurgeReferencesTx at hu
  cases hm : readMetadata tx with
  | error err => rw [hm] at hu; cases hu
  | ok md =>
    rw [hm] at hu
    cases hu
    obtain ⟨h1, h2, h3, h4, h5⟩ := buildReferences_frame tx md.Era p true
    exact wf_of_frame h h1 h2 h3 (fun kv hkv => h4 ▸ hkv) h5

theorem wf_foldl_sweepStep (era : Int) (P : List GoString) (l : Bucket tuple)
    (tx tx1 : Store) (h : tx.WellFormed) (hu : l.foldl (sweepStep era P) (.ok tx) = .ok tx1) :
    tx1.WellFormed := by
  induction l generalizing tx with
  | nil => cases hu; exact h
  | cons kv l ih =>
    rw [List.foldl_cons] at hu
    cases hs : sweepStep era P (.ok tx) kv with
    | error e => rw [hs, foldl_sweepStep_error] at hu; cases hu
    | ok tx2 =>
      rw [hs] at hu
      refine ih tx2 ?_ hu
      simp only [sweepStep] at hs
      split_ifs at hs
      · exact wf_addToGarbage h hs
      · cases hs; exact h
      · cases hs; exact h

theorem wf_SweepTx {tx tx1 : Store} {p : GoString} (h : tx.WellFormed)
    (hu : SweepTx p tx = .ok tx1) : tx1.WellFormed := by
  unfold SweepTx at hu
  cases hm : readMetadata tx with
  | error err => rw [hm] at hu; cases hu
  | ok md =>
    rw [hm] at hu
    simp only [buildReferences_fst_false] at hu
    exact wf_foldl_sweepStep _ _ _ tx tx1 h hu

theorem wf_BumpEraTx {tx tx1 : Store} (h : tx.WellFormed)
    (hu : BumpEraTx tx = .ok tx1) : tx1.WellFormed := by
  unfold BumpEraTx at hu
  cases hm : readMetadata tx with
  | error err => rw [hm] at hu; cases hu
  | ok md =>
    rw [hm] at hu
    cases hu
    exact wf_metadata h _

theorem wf_Update {s : Store} {fn : Store → Except identityError Store} (h : s.WellFormed)
    (hfn : ∀ tx1, fn s = .ok tx1 → tx1.WellFormed) : (Update s fn).1.WellFormed := by
  unfold Update
  cases hr : fn s with
  | error err => exact h
  | ok tx1 => exact hfn tx1 hr

/-- Every public operation keeps the data model of the buckets. -/
theorem wf_apply (s : Store) (h : s.WellFormed) (op : Op) : (op.apply s).WellFormed := by
  cases op with
  | Associate i e now => exact wf_Update h (fun _ hu => wf_AssociateTx h hu)
  | AddReference i o now => exact wf_Update h (fun _ hu => wf_AddReferenceTx h hu)
  | GetExternal i =>
    exact @wf_Update s (GetExternalTx i) h (fun _ hu => wf_GetExternalTx h hu)
  | GetInternal e =>
    exact @wf_Update s (GetInternalTx e) h (fun _ hu => wf_GetInternalTx h hu)
  | RemoveExternal e => exact wf_Update h (fun _ hu => wf_removeExternal h hu)
  | RemoveInternal i => exact wf_Update h (fun _ hu => wf_removeInternal h hu)
  | PurgeExternal e => exact wf_Update h (fun _ hu => wf_PurgeExternalTx h hu)
  | PurgeInternal i => exact wf_Update h (fun _ hu => wf_PurgeInternalTx h hu)
  | PurgeReferences p => exact wf_Update h (fun _ hu => wf_PurgeReferencesTx h hu)
  | Sweep p => exact wf_Update h (fun _ hu => wf_SweepTx h hu)
  | BumpEra => exact wf_Update h (fun _ hu => wf_BumpEraTx h hu)

theorem wf_run (ops : List Op) (s : Store) (h : s.WellFormed) : (run s ops).WellFormed := by
  induction ops generalizing s with
  | nil => exact h
  | cons op ops ih => exact ih (op.apply s) (wf_apply s h op)

/-- Every store reached from a freshly created one by public operations is well-formed. -/
theorem wellFormed_of_reachable (s : Store) (h : Reachable s) : s.WellFormed := by
  obtain ⟨now, ops, rfl⟩ := h
  exact wf_run ops (newStore now) (newStore_inv now).1.1


/-! BumpEra and ReadEra -/

theorem BumpEra_eq (s : Store) (md : storeMeta) (hmd : s.metadata = some md) :
    BumpEra s = ({ s with metadata := some { md with Era := wrapInt64 (md.Era + 1) } }, none) := by
  have hx : BumpEraTx s
      = .ok { s with metadata := some { md with Era := wrapInt64 (md.Era + 1) } } := by
    simp only [BumpEraTx, readMetadata, hmd]
  rw [BumpEra, Update, hx]

theorem ReadEra_eq (s : Store) (md : storeMeta) (hmd : s.metadata = some md) :
    ReadEra s = .ok md.Era := by
  simp only [ReadEra, View, readMetadata, hmd]

theorem wrapInt64_of_range (x : Int) (h1 : -2 ^ 63 ≤ x) (h2 : x < 2 ^ 63) : wrapInt64 x = x := by
  unfold wrapInt64
  omega

theorem wrapInt64_range (x : Int) : -2 ^ 63 ≤ wrapInt64 x ∧ wrapInt64 x < 2 ^ 63 := by
  unfold wrapInt64
  omega

/-- C11 (as the code has it): `BumpEra` succeeds and rewrites only the era of the metadata
record, to the old era plus one wrapped to 64 bits; version, creation time and the four data
buckets are kept.  For an era below the largest `int64`, `ReadEra` afterwards returns
`ReadEra` before plus one. -/
theorem bumpEra_increments (s : Store) (md : storeMeta) (hmd : s.metadata = some md) :
    ReadEra s = .ok md.Era ∧
    (BumpEra s).2 = none ∧
    (BumpEra s).1.metadata = some ⟨md.Version, md.Timestamp, wrapInt64 (md.Era + 1)⟩ ∧
    (BumpEra s).1.internalToExternal = s.internalToExternal ∧
    (BumpEra s).1.externalToInternal = s.externalToInternal ∧
    (BumpEra s).1.garbage = s.garbage ∧
    (BumpEra s).1.references = s.references ∧
    ReadEra (BumpEra s).1 = .ok (wrapInt64 (md.Era + 1)) ∧
    (-2 ^ 63 ≤ md.Era → md.Era < 2 ^ 63 - 1 → ReadEra (BumpEra s).1 = .ok (md.Era + 1)) := by
  have hB := BumpEra_eq s md hmd
  have hR : ReadEra (BumpEra s).1 = .ok (wrapInt64 (md.Era + 1)) := by
    rw [hB]
    exact ReadEra_eq _ ⟨md.Version, md.Timestamp, wrapInt64 (md.Era + 1)⟩ rfl
  refine ⟨ReadEra_eq s md hmd, ?_, ?_, ?_, ?_, ?_, ?_, hR, ?_⟩
  · rw [hB]
  · rw [hB]
  · rw [hB]
  · rw [hB]
  · rw [hB]
  · rw [hB]
  · intro h1 h2
    rw [hR, wrapInt64_of_range (md.Era + 1) (by omega) (by omega)]

/-- Witness of C11: test `TestBumpEra`, a fresh store reads era 1 after one `BumpEra`. -/
theorem bumpEra_increments_witness :
    ReadEra (newStore 0) = .ok 0 ∧ ReadEra (BumpEra (newStore 0)).1 = .ok (0 + 1) :=
  ⟨(bumpEra_increments (newStore 0) ⟨[49, 46, 49, 46, 48], 0, 0⟩ rfl).1,
   (bumpEra_increments (newStore 0) ⟨[49, 46, 49, 46, 48], 0, 0⟩ rfl).2.2.2.2.2.2.2.2
     (by decide) (by decide)⟩

/-- Counterexample to C11: in a store whose era is the largest `int64`, 9223372036854775807,
`ReadEra` after `BumpEra` returns -9223372036854775808, not the old era plus one. -/
theorem bumpEra_wraps_at_last_era :
    ReadEra lastEraStore = .ok 9223372036854775807 ∧
    (BumpEra lastEraStore).2 = none ∧
    ReadEra (BumpEra lastEraStore).1 = .ok (-9223372036854775808) ∧
    (-9223372036854775808 : Int) ≠ 9223372036854775807 + 1 := by
  refine ⟨rfl, rfl, ?_, by decide⟩
  rw [BumpEra_eq lastEraStore ⟨[49, 46, 49, 46, 48], 0, 9223372036854775807⟩ rfl]
  exact congrArg Except.ok (by decide)


/-! The key order of a bucket -/

theorem bytesLess_irrefl (a : GoString) : bytesLess a a = false := by
  induction a with
  | nil => rfl
  | cons x xs ih => simp [bytesLess, ih]

theorem bytesLess_trans {a b c : GoString} (h1 : bytesLess a b = true)
    (h2 : bytesLess b c = true) : bytesLess a c = true := by
  induction a generalizing b c with
  | nil =>
    cases b with
    | nil => simp [bytesLess] at h1
    | cons y ys =>
      cases c with
      | nil => simp [bytesLess] at h2
      | cons z zs => simp [bytesLess]
  | cons x xs ih =>
    cases b with
    | nil => simp [bytesLess] at h1
    | cons y ys =>
      cases c with
      | nil => simp [bytesLess] at h2
      | cons z zs =>
        simp only [bytesLess] at h1 h2 ⊢
        split_ifs at h1 h2 ⊢ <;> first | rfl | omega | exact ih h1 h2

theorem bytesLess_total {a b : GoString} (hne : a ≠ b) (h : bytesLess a b = false) :
    bytesLess b a = true := by
  induction a generalizing b with
  | nil =>
    cases b with
    | nil => exact absurd rfl hne
    | cons y ys => simp [bytesLess] at h
  | cons x xs ih =>
    cases b with
    | nil => simp [bytesLess]
    | cons y ys =>
      simp only [bytesLess] at h ⊢
      split_ifs at h ⊢ <;> first | rfl | omega | skip
      have hxy : x = y := by omega
      subst hxy
      exact ih (fun heq => hne (by rw [heq])) h

namespace Bucket
variable {V : Type}

theorem Sorted.insert {b : Bucket V} (h : b.Sorted) (k : GoString) (v : V) :
    (b.insert k v).Sorted := by
  induction b with
  | nil => exact List.pairwise_singleton _ _
  | cons hd tl ih =>
    obtain ⟨k0, w⟩ := hd
    obtain ⟨h1, h2⟩ := List.pairwise_cons.1 h
    simp only [Bucket.insert]
    split_ifs with hk hlt
    · subst hk
      exact List.pairwise_cons.2 ⟨h1, h2⟩
    · refine List.pairwise_cons.2 ⟨?_, h⟩
      intro x hx
      rcases List.mem_cons.1 hx with rfl | hx
      · exact hlt
      · exact bytesLess_trans hlt (h1 x hx)
    · refine List.pairwise_cons.2 ⟨?_, ih h2⟩
      intro x hx
      rcases Bucket.mem_insert hx with rfl | hx
      · exact bytesLess_total (fun heq => hk heq.symm) (by simpa using hlt)
      · exact h1 x hx

theorem Sorted.Delete {b : Bucket V} (h : b.Sorted) (k : GoString) : (b.Delete k).Sorted :=
  List.Pairwise.filter _ h

theorem Sorted.sublist {b b1 : Bucket V} (h : b.Sorted) (hs : List.Sublist b1 b) : b1.Sorted :=
  List.Pairwise.sublist hs h

/-- In a sorted bucket an entry is what `Get` returns at its key. -/
theorem Sorted.Get_of_mem {b : Bucket V} (h : b.Sorted) {k : GoString} {v : V}
    (hm : (k, v) ∈ b) : b.Get k = some v := by
  induction b with
  | nil => cases hm
  | cons hd tl ih =>
    obtain ⟨k0, w⟩ := hd
    obtain ⟨h1, h2⟩ := List.pairwise_cons.1 h
    rcases List.mem_cons.1 hm with heq | hm
    · cases heq
      simp [Bucket.Get]
    · have hne : k0 ≠ k := by
        intro heq
        subst heq
        have := h1 _ hm
        rw [bytesLess_irrefl] at this
        cases this
      simp only [Bucket.Get, if_neg hne]
      exact ih h2 hm

/-- In a sorted bucket two entries with the same key are the same entry. -/
theorem Sorted.unique {b : Bucket V} (h : b.Sorted) {k : GoString} {v w : V}
    (h1 : (k, v) ∈ b) (h2 : (k, w) ∈ b) : v = w :=
  Option.some.inj ((h.Get_of_mem h1).symm.trans (h.Get_of_mem h2))

end Bucket

/-! Search and Garbage -/

theorem sortSlice_perm (l : List tuple) : (sortSlice l).Perm l :=
  List.perm_insertionSort _ l

/-- C13: `Search` returns, without error, the tuples of the forward entries whose key
starts with the prefix, each entry once, in non-decreasing timestamp order; the empty list
when no key matches, every tuple for the empty prefix.  On sorted keys the tuples returned
are those that `Get` finds under a matching key. -/
theorem search_returns_matching (s : Store) (pfx : GoString) :
    ∃ found, Search s pfx = .ok found ∧
      found.Perm ((s.internalToExternal.filter (fun kv => HasPrefix kv.1 pfx)).map Prod.snd) ∧
      found.Pairwise (fun a b => a.Timestamp ≤ b.Timestamp) ∧
      ((∀ kv ∈ s.internalToExternal, HasPrefix kv.1 pfx = false) → found = []) ∧
      (pfx = [] → found.Perm (s.internalToExternal.map Prod.snd)) ∧
      (s.internalToExternal.Sorted → ∀ t, t ∈ found ↔
        ∃ k, s.internalToExternal.Get k = some t ∧ HasPrefix k pfx = true) := by
  have hS : Search s pfx = .ok (sortSlice ((s.internalToExternal.filter
      (fun kv => HasPrefix kv.1 pfx)).map Prod.snd)) := rfl
  refine ⟨_, hS, sortSlice_perm _, sortSlice_sorted _, ?_, ?_, ?_⟩
  · intro hnone
    have hf : s.internalToExternal.filter (fun kv => HasPrefix kv.1 pfx) = [] := by
      rw [List.filter_eq_nil_iff]
      intro kv hkv
      rw [hnone kv hkv]
      exact Bool.false_ne_true
    rw [hf]
    rfl
  · intro hp
    subst hp
    have hf : s.internalToExternal.filter (fun kv => HasPrefix kv.1 []) = s.internalToExternal := by
      rw [List.filter_eq_self]
      intro kv _
      simp [HasPrefix]
    have := sortSlice_perm ((s.internalToExternal.filter
      (fun kv => HasPrefix kv.1 [])).map Prod.snd)
    rw [hf] at this ⊢
    exact this
  · intro hs t
    rw [mem_sortSlice, List.mem_map]
    constructor
    · rintro ⟨⟨k, t1⟩, hm, rfl⟩
      obtain ⟨hm1, hm2⟩ := List.mem_filter.1 hm
      exact ⟨k, hs.Get_of_mem hm1, hm2⟩
    · rintro ⟨k, hg, hp⟩
      exact ⟨(k, t), List.mem_filter.2 ⟨Bucket.mem_of_Get hg, hp⟩, rfl⟩

/-- Witness of C13: test `TestSearch`; of the keys `a:i1`, `a:i2`, `b:i3` the prefix `a:`
finds the first two, and the prefix `c:` finds none. -/
theorem search_returns_matching_witness :
    Search (run (newStore 0) [.Associate [97, 58, 105, 49] [101, 49] 1,
      .Associate [97, 58, 105, 50] [101, 50] 2, .Associate [98, 58, 105, 51] [101, 51] 3])
      [97, 58] = .ok [⟨[97, 58, 105, 49], [101, 49], 1, 0⟩, ⟨[97, 58, 105, 50], [101, 50], 2, 0⟩] ∧
    ∀ found, Search (run (newStore 0) [.Associate [97, 58, 105, 49] [101, 49] 1,
      .Associate [97, 58, 105, 50] [101, 50] 2, .Associate [98, 58, 105, 51] [101, 51] 3])
      [99, 58] = .ok found → found = [] := by
  refine ⟨rfl, ?_⟩
  intro found hf
  obtain ⟨f1, h1, _, _, h4, _⟩ := search_returns_matching
    (run (newStore 0) [.Associate [97, 58, 105, 49] [101, 49] 1,
      .Associate [97, 58, 105, 50] [101, 50] 2, .Associate [98, 58, 105, 51] [101, 51] 3])
    [99, 58]
  rw [h1] at hf
  cases hf
  exact h4 (by decide)

/-- C14: on a store with its metadata record `Garbage` returns, without error and without a
write of `buildReferences`, the garbage tuples whose internal id starts with one of the
expanded prefixes, each entry once, in non-decreasing timestamp order; `Garbage("")`
returns every garbage tuple. -/
theorem garbage_returns_matching (s : Store) (md : storeMeta) (hmd : s.metadata = some md)
    (pfx : GoString) :
    (buildReferences s md.Era pfx false).1 = s ∧
    (∃ gs, Garbage s pfx = .ok gs ∧
      gs.Perm ((s.garbage.map Prod.snd).filter (fun t =>
        (buildReferences s md.Era pfx false).2.any (fun p => HasPrefix t.InternalID p))) ∧
      gs.Pairwise (fun a b => a.Timestamp ≤ b.Timestamp)) ∧
    (∃ gs, Garbage s [] = .ok gs ∧ gs.Perm (s.garbage.map Prod.snd) ∧
      gs.Pairwise (fun a b => a.Timestamp ≤ b.Timestamp)) := by
  have hG : ∀ p, Garbage s p = .ok (sortSlice ((s.garbage.map Prod.snd).filter (fun t =>
      (buildReferences s md.Era p false).2.any (fun q => HasPrefix t.InternalID q)))) := by
    intro p
    simp only [Garbage, View, readMetadata, hmd, buildReferences_fst_false, sortedValueTuples]
  refine ⟨buildReferences_fst_false s md.Era pfx, ⟨_, hG pfx, sortSlice_perm _,
    sortSlice_sorted _⟩, ⟨_, hG [], ?_, sortSlice_sorted _⟩⟩
  have hf : (s.garbage.map Prod.snd).filter (fun t =>
      (buildReferences s md.Era [] false).2.any (fun q => HasPrefix t.InternalID q))
      = s.garbage.map Prod.snd := by
    rw [List.filter_eq_self]
    intro t _
    rw [List.any_eq_true]
    refine ⟨[], ?_, by simp [HasPrefix]⟩
    rw [buildReferences_snd]
    exact subset_foldl_expandStep _ _ (List.mem_singleton_self _)
  have := sortSlice_perm ((s.garbage.map Prod.snd).filter (fun t =>
      (buildReferences s md.Era [] false).2.any (fun q => HasPrefix t.InternalID q)))
  rw [hf] at this ⊢
  exact this

/-- Witness of C14: test `TestSweepWithRef`; after `Sweep("a:")` the call `Garbage("a:")`
returns the tuples of `a:i2` and, through the reference to `b:`, of `b:i2`, in that order. -/
theorem garbage_returns_matching_witness :
    (Sweep sweepWithRefStore [97, 58]).1.metadata = some ⟨[49, 46, 49, 46, 48], 0, 1⟩ ∧
    ∃ gs, Garbage (Sweep sweepWithRefStore [97, 58]).1 [97, 58] = .ok gs ∧
      gs.Perm [⟨[97, 58, 105, 50], [101, 50], 2, 0⟩, ⟨[98, 58, 105, 50], [101, 52], 5, 0⟩] := by
  refine ⟨by decide, ?_⟩
  obtain ⟨_, ⟨gs, h1, h2, _⟩, _⟩ := garbage_returns_matching
    (Sweep sweepWithRefStore [97, 58]).1 ⟨[49, 46, 49, 46, 48], 0, 1⟩ (by decide) [97, 58]
  refine ⟨gs, h1, ?_⟩
  have he : (((Sweep sweepWithRefStore [97, 58]).1.garbage.map Prod.snd).filter (fun t =>
      (buildReferences (Sweep sweepWithRefStore [97, 58]).1
        (⟨[49, 46, 49, 46, 48], 0, 1⟩ : storeMeta).Era [97, 58] false).2.any
        (fun p => HasPrefix t.InternalID p)))
      = [⟨[97, 58, 105, 50], [101, 50], 2, 0⟩, ⟨[98, 58, 105, 50], [101, 52], 5, 0⟩] := by
    decide
  rw [he] at h2
  exact h2


/-! Remove, touch and the empty id -/

theorem removeInternal_none (tx : Store) (i : GoString) (m : Bool)
    (h : tx.internalToExternal.Get i = none) : removeInternal tx i m = .ok tx := by
  simp only [removeInternal, readTuple, h]

theorem removeExternal_none (tx : Store) (e : GoString) (m : Bool)
    (h : tx.externalToInternal.Get e = none) : removeExternal tx e m = .ok tx := by
  simp only [removeExternal, h]

/-- C15: on agreeing indices `RemoveInternal(i)` and `RemoveExternal(e)` of a stored pair
leave both reads empty and put the tuple, as it was, into the garbage bucket under its
external id; on an id without entry they leave the store as it is. -/
theorem remove_moves_to_garbage (s : Store) (hwf : s.WellFormed) (hag : s.Agree) :
    (∀ i t, s.internalToExternal.Get i = some t →
      (RemoveInternal s i).2 = none ∧
      (GetExternal (RemoveInternal s i).1 i).2 = ([], none) ∧
      (GetInternal (RemoveInternal s i).1 t.ExternalID).2 = ([], none) ∧
      (RemoveInternal s i).1.garbage.Get t.ExternalID = some t) ∧
    (∀ e i t, s.externalToInternal.Get e = some i → s.internalToExternal.Get i = some t →
      (RemoveExternal s e).2 = none ∧
      (GetInternal (RemoveExternal s e).1 e).2 = ([], none) ∧
      (GetExternal (RemoveExternal s e).1 i).2 = ([], none) ∧
      (RemoveExternal s e).1.garbage.Get e = some t) ∧
    (∀ i, s.internalToExternal.Get i = none → RemoveInternal s i = (s, none)) ∧
    (∀ e, s.externalToInternal.Get e = none → RemoveExternal s e = (s, none)) := by
  have h : s.Inv := ⟨hwf, hag⟩
  refine ⟨?_, ?_, ?_, ?_⟩
  · intro i t hf
    rw [RemoveInternal_eq s h i, dropInternal_some hf]
    refine ⟨rfl, ?_, ?_, Bucket.Get_insert_self _ _ _⟩
    · rw [GetExternal_miss _ _ (Bucket.Get_Delete_self _ _)]
    · rw [GetInternal_miss _ _ (Bucket.Get_Delete_self _ _)]
  · intro e i t hr hf
    obtain ⟨t1, hf1, hte⟩ := hag.2 e i hr
    rw [hf] at hf1
    cases hf1
    rw [RemoveExternal_eq s h e, dropExternal_some hr, dropInternal_some hf]
    refine ⟨rfl, ?_, ?_, ?_⟩
    · have hd : (dropPair s i t true).externalToInternal.Get e = none := by
        show (s.externalToInternal.Delete t.ExternalID).Get e = none
        rw [hte]
        exact Bucket.Get_Delete_self _ _
      rw [GetInternal_miss _ _ hd]
    · rw [GetExternal_miss _ _ (Bucket.Get_Delete_self _ _)]
    · show (s.garbage.insert t.ExternalID t).Get e = some t
      rw [hte]
      exact Bucket.Get_insert_self _ _ _
  · intro i hf
    rw [RemoveInternal, Update, removeInternal_none s i true hf]
  · intro e hr
    rw [RemoveExternal, Update, removeExternal_none s e true hr]

/-- Witness of C15: test `TestRemove`; `RemoveInternal("i2")` moves the pair `(i2, e2)` to
garbage, and `RemoveInternal("e1")`, an external id in the place of an internal one,
changes nothing. -/
theorem remove_moves_to_garbage_witness :
    (RemoveInternal (run (newStore 0) [.Associate [105, 49] [101, 49] 1,
      .Associate [105, 50] [101, 50] 2]) [105, 50]).1.garbage.Get [101, 50]
      = some ⟨[105, 50], [101, 50], 2, 0⟩ ∧
    (GetInternal (RemoveInternal (run (newStore 0) [.Associate [105, 49] [101, 49] 1,
      .Associate [105, 50] [101, 50] 2]) [105, 50]).1 [101, 50]).2 = ([], none) ∧
    RemoveInternal (run (newStore 0) [.Associate [105, 49] [101, 49] 1,
      .Associate [105, 50] [101, 50] 2]) [101, 49]
      = (run (newStore 0) [.Associate [105, 49] [101, 49] 1,
      .Associate [105, 50] [101, 50] 2], none) := by
  have h := remove_moves_to_garbage
    (run (newStore 0) [.Associate [105, 49] [101, 49] 1, .Associate [105, 50] [101, 50] 2])
    (by decide) (agree_of_check (by decide))
  have h1 := h.1 [105, 50] ⟨[105, 50], [101, 50], 2, 0⟩ (by decide)
  exact ⟨h1.2.2.2, h1.2.2.1, h.2.2.1 [101, 49] (by decide)⟩

/-- Lines 201-208 of `Associate` fail on an empty id, whatever the store. -/
theorem associateInsert_fails (tx : Store) (i e : GoString) (now : Int)
    (h : i = [] ∨ e = []) : ∃ err, associateInsert tx i e now = .error err :=
  associateInsert_rejected tx i e now (h.imp Or.inl Or.inl)

/-- The transaction of `Associate` fails on an id that is empty or too long, where the
forward index does not hold the pair itself. -/
theorem AssociateTx_rejected (s : Store) (i e : GoString) (now : Int)
    (h : (i = [] ∨ MaxKeySize < i.length) ∨ (e = [] ∨ MaxKeySize < e.length))
    (hnew : ∀ t, s.internalToExternal.Get i = some t → t.ExternalID ≠ e) :
    ∃ err, AssociateTx i e now s = .error err := by
  unfold AssociateTx
  simp only [readTuple, deleteFromBucket]
  cases hf : s.internalToExternal.Get i with
  | none => exact associateInsert_rejected _ i e now h
  | some t =>
    simp only [if_neg (hnew t hf)]
    cases hr : removeInternal { s with garbage := s.garbage.Delete e } i true with
    | error err => exact ⟨err, rfl⟩
    | ok tx2 => exact associateInsert_rejected tx2 i e now h

theorem AssociateTx_fails (s : Store) (i e : GoString) (now : Int) (h : i = [] ∨ e = [])
    (hnew : ∀ t, s.internalToExternal.Get i = some t → t.ExternalID ≠ e) :
    ∃ err, AssociateTx i e now s = .error err :=
  AssociateTx_rejected s i e now (h.imp Or.inl Or.inl) hnew

/-- `Associate` with an id that is empty or too long, where the forward index does not
hold the pair itself, returns an error and leaves the store as it was. -/
theorem Associate_rejected (s : Store) (i e : GoString) (now : Int)
    (h : (i = [] ∨ MaxKeySize < i.length) ∨ (e = [] ∨ MaxKeySize < e.length))
    (hnew : ∀ t, s.internalToExternal.Get i = some t → t.ExternalID ≠ e) :
    (∃ err, (Associate s i e now).2 = some err) ∧ (Associate s i e now).1 = s := by
  obtain ⟨err, herr⟩ := AssociateTx_rejected s i e now h hnew
  rw [Associate, Update, herr]
  exact ⟨⟨err, rfl⟩, rfl⟩

/-- Where the forward index does not hold the pair itself, `Associate` with an empty
internal or external id returns an error and leaves the store as it was. -/
theorem Associate_empty_id (s : Store) (i e : GoString) (now : Int)
    (h : i = [] ∨ e = [])
    (hnew : ∀ t, s.internalToExternal.Get i = some t → t.ExternalID ≠ e) :
    (∃ err, (Associate s i e now).2 = some err) ∧ (Associate s i e now).1 = s :=
  Associate_rejected s i e now (h.imp Or.inl Or.inl) hnew

/-- Test `TestErrors` on a store that maps `i1` to `e1` and has `e2` in the garbage
bucket: `Associate("i1","")` and `Associate("","e2")` fail and change nothing. -/
theorem Associate_empty_id_TestErrors :
    (Associate (run (newStore 0) [.Associate [105, 49] [101, 49] 1,
      .Associate [105, 50] [101, 50] 2, .RemoveInternal [105, 50]]) [105, 49] [] 3).1
      = run (newStore 0) [.Associate [105, 49] [101, 49] 1,
      .Associate [105, 50] [101, 50] 2, .RemoveInternal [105, 50]] ∧
    (Associate (run (newStore 0) [.Associate [105, 49] [101, 49] 1,
      .Associate [105, 50] [101, 50] 2, .RemoveInternal [105, 50]]) [] [101, 50] 3).1
      = run (newStore 0) [.Associate [105, 49] [101, 49] 1,
      .Associate [105, 50] [101, 50] 2, .RemoveInternal [105, 50]] ∧
    (Associate (run (newStore 0) [.Associate [105, 49] [101, 49] 1,
      .Associate [105, 50] [101, 50] 2, .RemoveInternal [105, 50]]) [105, 49] [] 3).2
      = some (.writeFailed .externalToInternal) :=
  ⟨(Associate_empty_id _ [105, 49] [] 3 (Or.inr rfl) (fun t ht => by
      have h2 : (run (newStore 0) [.Associate [105, 49] [101, 49] 1,
        .Associate [105, 50] [101, 50] 2, .RemoveInternal [105, 50]]).internalToExternal.Get
          [105, 49] = some ⟨[105, 49], [101, 49], 1, 0⟩ := by decide
      rw [h2] at ht
      cases ht
      decide)).2,
   (Associate_empty_id _ [] [101, 50] 3 (Or.inl rfl) (fun t ht => by
      have h2 : (run (newStore 0) [.Associate [105, 49] [101, 49] 1,
        .Associate [105, 50] [101, 50] 2, .RemoveInternal [105, 50]]).internalToExternal.Get
          [] = none := by decide
      rw [h2] at ht
      cases ht)).2,
   by decide⟩

/-- `Associate` of the stored pair: the garbage entry of `e` goes and the era is refreshed. -/
theorem Associate_touch (s : Store) (md : storeMeta) (hwf : s.WellFormed)
    (hmd : s.metadata = some md) (i e : GoString) (t : tuple) (now : Int)
    (hf : s.internalToExternal.Get i = some t) (he : t.ExternalID = e) :
    Associate s i e now = ((if t.Era < md.Era then
      { s with
        internalToExternal := s.internalToExternal.insert i { t with Era := md.Era }
        garbage := s.garbage.Delete e }
      else { s with garbage := s.garbage.Delete e }), none) := by
  obtain ⟨h1, h2⟩ := fwd_key_of_wf hwf hf
  have hk : t.InternalID ≠ [] := by rw [h1]; exact h2
  have hl : t.InternalID.length ≤ MaxKeySize := by rw [h1]; exact fwd_len_of_wf hwf hf
  have hx : AssociateTx i e now s = updateEra t { s with garbage := s.garbage.Delete e } := by
    simp only [AssociateTx, readTuple, deleteFromBucket, hf, he, if_true]
  have hu := updateEra_eq t { s with garbage := s.garbage.Delete e } md hmd hk hl
  rw [Associate, Update, hx, hu, h1]

/-- C20: `Associate(i, e)` of the stored pair succeeds, keeps the tuple but for its era,
which becomes the current era when it was lower, removes the garbage entry keyed `e` and
writes nothing else. -/
theorem associate_exact_match_touches (s : Store) (md : storeMeta) (hwf : s.WellFormed)
    (hmd : s.metadata = some md) (i e : GoString) (t : tuple) (now : Int)
    (hf : s.internalToExternal.Get i = some t) (he : t.ExternalID = e) :
    (Associate s i e now).2 = none ∧
    (Associate s i e now).1.internalToExternal.Get i = some (t.refreshed md.Era) ∧
    (∀ k, k ≠ i → (Associate s i e now).1.internalToExternal.Get k = s.internalToExternal.Get k) ∧
    (Associate s i e now).1.externalToInternal = s.externalToInternal ∧
    (Associate s i e now).1.garbage = s.garbage.Delete e ∧
    (Associate s i e now).1.garbage.Get e = none ∧
    (∀ k, k ≠ e → (Associate s i e now).1.garbage.Get k = s.garbage.Get k) ∧
    (∀ kv ∈ (Associate s i e now).1.garbage, kv ∈ s.garbage) ∧
    (Associate s i e now).1.references = s.references ∧
    (Associate s i e now).1.metadata = s.metadata := by
  rw [Associate_touch s md hwf hmd i e t now hf he, refreshed_eq]
  by_cases hlt : t.Era < md.Era
  · rw [if_pos hlt, if_pos hlt]
    exact ⟨rfl, Bucket.Get_insert_self _ _ _, fun k hk => Bucket.Get_insert_ne _ _ hk, rfl, rfl,
      Bucket.Get_Delete_self _ _, fun k hk => Bucket.Get_Delete_ne _ hk,
      fun kv hkv => Bucket.mem_Delete hkv, rfl, rfl⟩
  · rw [if_neg hlt, if_neg hlt]
    exact ⟨rfl, hf, fun k _ => rfl, rfl, rfl,
      Bucket.Get_Delete_self _ _, fun k hk => Bucket.Get_Delete_ne _ hk,
      fun kv hkv => Bucket.mem_Delete hkv, rfl, rfl⟩

/-- Witness of C20: after `Associate("i","e")` and `BumpEra` a second `Associate("i","e")`
keeps the timestamp 1 and lifts the era from 0 to 1. -/
theorem associate_exact_match_touches_witness :
    (Associate (run (newStore 0) [.Associate [105] [101] 1, .BumpEra])
      [105] [101] 2).1.internalToExternal.Get [105] = some ⟨[105], [101], 1, 1⟩ ∧
    (Associate (run (newStore 0) [.Associate [105] [101] 1, .BumpEra])
      [105] [101] 2).1.externalToInternal
      = (run (newStore 0) [.Associate [105] [101] 1, .BumpEra]).externalToInternal := by
  have h := associate_exact_match_touches
    (run (newStore 0) [.Associate [105] [101] 1, .BumpEra]) ⟨[49, 46, 49, 46, 48], 0, 1⟩
    (by decide) (by decide) [105] [101] ⟨[105], [101], 1, 0⟩ 2 (by decide) rfl
  exact ⟨h.2.1, h.2.2.2.1⟩

/-- C16 (code defect): in the store reached by `AddReference("a","b")`, `BumpEra`,
`AddReference("a","b")` the call `PurgeExternal("b")` returns without error and the
forward tuple of `a` with external id `b` is still there. -/
theorem purgeExternal_keeps_forward_tuple :
    Reachable (run (newStore 0) [.AddReference [97] [98] 1, .BumpEra, .AddReference [97] [98] 2]) ∧
    (PurgeExternal (run (newStore 0)
      [.AddReference [97] [98] 1, .BumpEra, .AddReference [97] [98] 2]) [98]).2 = none ∧
    (PurgeExternal (run (newStore 0)
      [.AddReference [97] [98] 1, .BumpEra, .AddReference [97] [98] 2])
      [98]).1.internalToExternal.Get [97] = some ⟨[97], [98], 1, 1⟩ :=
  ⟨⟨0, _, rfl⟩, by decide, by decide⟩

/-- On agreeing indices `PurgeExternal(e)` leaves no reverse entry of `e`, no forward tuple
with external id `e`, no garbage entry keyed `e`, and adds nothing to garbage. -/
theorem PurgeExternal_agree (s : Store) (h : s.Inv) (e : GoString) :
    (PurgeExternal s e).2 = none ∧
    (PurgeExternal s e).1.externalToInternal.Get e = none ∧
    (∀ k t, (PurgeExternal s e).1.internalToExternal.Get k = some t → t.ExternalID ≠ e) ∧
    (PurgeExternal s e).1.garbage.Get e = none ∧
    (∀ kv ∈ (PurgeExternal s e).1.garbage, kv ∈ s.garbage) := by
  have h1 := inv_dropExternal h e false
  have hrev := dropExternal_reverse_self s h.2 e false
  rw [PurgeExternal_eq s h e]
  refine ⟨rfl, hrev, ?_, Bucket.Get_Delete_self _ _, ?_⟩
  · intro k t hk hte
    have h2 := h1.2.1 k t hk
    rw [hte, hrev] at h2
    cases h2
  · intro kv hkv
    have h3 : kv ∈ (dropExternal s e false).garbage := Bucket.mem_Delete hkv
    cases hr : s.externalToInternal.Get e with
    | none => rw [dropExternal_none hr] at h3; exact h3
    | some j =>
      rw [dropExternal_some hr] at h3
      cases hf : s.internalToExternal.Get j with
      | none => rw [dropInternal_none hf] at h3; exact h3
      | some t => rw [dropInternal_some hf] at h3; exact h3


/-! PurgeInternal and PurgeReferences -/

theorem mem_foldl_Delete_iff {V : Type} (es : List GoString) (g : Bucket V)
    (kv : GoString × V) :
    kv ∈ es.foldl (fun g eid => deleteFromBucket g eid) g ↔ kv ∈ g ∧ kv.1 ∉ es := by
  induction es generalizing g with
  | nil => simp
  | cons k es ih =>
    rw [List.foldl_cons, ih]
    simp only [deleteFromBucket, Bucket.Delete, List.mem_filter, List.mem_cons, not_or,
      decide_eq_true_eq]
    tauto

theorem removeInternal_false (tx : Store) (i : GoString) :
    ∃ tx1, removeInternal tx i false = .ok tx1 ∧ tx1.garbage = tx.garbage ∧
      tx1.internalToExternal.Get i = none := by
  cases hf : tx.internalToExternal.Get i with
  | none => exact ⟨tx, removeInternal_none tx i false hf, rfl, hf⟩
  | some t =>
    refine ⟨_, by simp only [removeInternal, readTuple, hf, Bool.false_eq_true, if_false]; rfl,
      ?_, ?_⟩
    · simp only [deleteFromBucket]
      split_ifs <;> rfl
    · simp only [deleteFromBucket]
      split_ifs <;> exact Bucket.Get_Delete_self _ _

theorem nodupKeys_eq {V : Type} {b : Bucket V} (h : (b.map Prod.fst).Nodup)
    {x y : GoString × V} (hx : x ∈ b) (hy : y ∈ b) (hk : x.1 = y.1) : x = y :=
  List.inj_on_of_nodup_map h hx hy hk

/-- C17: `PurgeInternal(i)` succeeds, leaves no forward entry of `i` and no garbage tuple
with internal id `i`, and (the keys of the garbage bucket being distinct) keeps every
garbage entry whose tuple has another internal id; it adds nothing to garbage. -/
theorem purgeInternal_clears (s : Store) (i : GoString) :
    (PurgeInternal s i).2 = none ∧
    (PurgeInternal s i).1.internalToExternal.Get i = none ∧
    (∀ kv ∈ (PurgeInternal s i).1.garbage, kv.2.InternalID ≠ i) ∧
    (∀ kv ∈ (PurgeInternal s i).1.garbage, kv ∈ s.garbage) ∧
    ((s.garbage.map Prod.fst).Nodup → ∀ kv ∈ s.garbage, kv.2.InternalID ≠ i →
      kv ∈ (PurgeInternal s i).1.garbage) := by
  obtain ⟨tx1, h1, hg, hf⟩ := removeInternal_false s i
  have hP : PurgeInternal s i = ({ tx1 with
      garbage := ((tx1.garbage.filter (fun kv => decide (kv.2.InternalID = i))).map
        Prod.fst).foldl (fun g eid => deleteFromBucket g eid) tx1.garbage }, none) := by
    rw [PurgeInternal, Update, PurgeInternalTx, h1]
  rw [hP]
  refine ⟨rfl, hf, ?_, ?_, ?_⟩
  · intro kv hkv hi
    obtain ⟨hm, hn⟩ := (mem_foldl_Delete_iff _ _ kv).1 hkv
    exact hn (List.mem_map.2 ⟨kv, List.mem_filter.2 ⟨hm, decide_eq_true hi⟩, rfl⟩)
  · intro kv hkv
    rw [← hg]
    exact ((mem_foldl_Delete_iff _ _ kv).1 hkv).1
  · intro hnd kv hkv hi
    refine (mem_foldl_Delete_iff _ _ kv).2 ⟨hg ▸ hkv, ?_⟩
    intro hmem
    obtain ⟨kv1, hkv1, hk⟩ := List.mem_map.1 hmem
    obtain ⟨hm1, hd⟩ := List.mem_filter.1 hkv1
    rw [hg] at hm1
    have heq := nodupKeys_eq hnd hm1 hkv hk
    rw [heq] at hd
    exact hi (of_decide_eq_true hd)

/-- Witness of C17: test `TestPurge`; garbage holds the tuples of `a:i2` and `a:i3`, and
`PurgeInternal("a:i2")` keeps the one of `a:i3`. -/
theorem purgeInternal_clears_witness :
    (([101, 51], ⟨[97, 58, 105, 51], [101, 51], 3, 0⟩) : GoString × tuple) ∈
      (PurgeInternal (run (newStore 0) [.Associate [97, 58, 105, 50] [101, 50] 2,
        .Associate [97, 58, 105, 51] [101, 51] 3, .RemoveInternal [97, 58, 105, 50],
        .RemoveInternal [97, 58, 105, 51]]) [97, 58, 105, 50]).1.garbage ∧
    (PurgeInternal (run (newStore 0) [.Associate [97, 58, 105, 50] [101, 50] 2,
        .Associate [97, 58, 105, 51] [101, 51] 3, .RemoveInternal [97, 58, 105, 50],
        .RemoveInternal [97, 58, 105, 51]]) [97, 58, 105, 50]).1.garbage.Get [101, 50] = none :=
  ⟨(purgeInternal_clears (run (newStore 0) [.Associate [97, 58, 105, 50] [101, 50] 2,
        .Associate [97, 58, 105, 51] [101, 51] 3, .RemoveInternal [97, 58, 105, 50],
        .RemoveInternal [97, 58, 105, 51]]) [97, 58, 105, 50]).2.2.2.2 (by decide)
      ([101, 51], ⟨[97, 58, 105, 51], [101, 51], 3, 0⟩) (by decide) (by decide),
   by decide⟩

theorem buildReferences_eq_foldl (tx : Store) (era : Int) (seed : GoString) (purge : Bool) :
    buildReferences tx era seed purge =
      (sortSlice ((tx.references.map Prod.snd).filter (fun r => decide (r.Era < era)))).foldl
        (buildReferencesStep purge) (tx, [seed]) := by
  unfold buildReferences
  simp only []
  split_ifs with h
  · rfl
  · have : (tx.references.map Prod.snd).filter (fun r => decide (r.Era < era)) = [] :=
      List.length_eq_zero.1 (Nat.eq_zero_of_not_pos h)
    rw [this]
    rfl

/-- A reference entry whose key is not the key of a walked reference survives the walk. -/
theorem foldl_buildReferencesStep_keeps (purge : Bool) (l : List reference)
    (acc : Store × List GoString) (kv : GoString × reference) (hkv : kv ∈ acc.1.references)
    (hk : ∀ r ∈ l, refKey r.InternalID r.ExternalID ≠ kv.1) :
    kv ∈ (l.foldl (buildReferencesStep purge) acc).1.references := by
  induction l generalizing acc with
  | nil => exact hkv
  | cons r l ih =>
    rw [List.foldl_cons]
    refine ih _ ?_ (fun x hx => hk x (List.mem_cons_of_mem _ hx))
    have hr := hk r (List.mem_cons_self _ _)
    unfold buildReferencesStep
    split_ifs
    · exact List.mem_filter.2 ⟨hkv, decide_eq_true (fun heq => hr heq.symm)⟩
    · exact hkv
    · exact hkv

/-- With purge, a walked reference under the seed leaves no entry at its key. -/
theorem foldl_buildReferencesStep_purges (l : List reference) (acc : Store × List GoString)
    (seed : GoString) (hseed : seed ∈ acc.2) (r : reference) (hr : r ∈ l)
    (hp : HasPrefix r.InternalID seed = true) :
    ∀ kv ∈ (l.foldl (buildReferencesStep true) acc).1.references,
      kv.1 ≠ refKey r.InternalID r.ExternalID := by
  induction l generalizing acc with
  | nil => cases hr
  | cons r0 l ih =>
    rw [List.foldl_cons]
    have hseed1 : seed ∈ (buildReferencesStep true acc r0).2 := by
      rw [buildReferencesStep_snd]
      exact subset_expandStep _ _ hseed
    rcases List.mem_cons.1 hr with heq | hr1
    · subst heq
      intro kv hkv
      have h1 := (foldl_buildReferencesStep_frame true l (buildReferencesStep true acc r)).2.2.2.2
        kv hkv
      have hfound : acc.2.any (fun pfx => HasPrefix r.InternalID pfx) = true :=
        List.any_eq_true.2 ⟨seed, hseed, hp⟩
      have h2 : (buildReferencesStep true acc r).1.references
          = acc.1.references.Delete (refKey r.InternalID r.ExternalID) := by
        unfold buildReferencesStep
        rw [if_pos hfound]
        rfl
      rw [h2] at h1
      exact of_decide_eq_true (List.mem_filter.1 h1).2
    · exact ih _ hseed1 hr1

/-- C18: on a store with its metadata record `PurgeReferences` succeeds and writes nothing
but the references bucket; with references keyed by `refKey` of their ids, no reference older
than the current era whose internal id starts with the prefix remains, and with distinct
keys every reference of the current era (or a later one) is still there. -/
theorem purgeReferences_clears (s : Store) (md : storeMeta) (hmd : s.metadata = some md)
    (pfx : GoString) :
    (PurgeReferences s pfx).2 = none ∧
    (PurgeReferences s pfx).1.metadata = s.metadata ∧
    (PurgeReferences s pfx).1.internalToExternal = s.internalToExternal ∧
    (PurgeReferences s pfx).1.externalToInternal = s.externalToInternal ∧
    (PurgeReferences s pfx).1.garbage = s.garbage ∧
    ((∀ kv ∈ s.references, kv.1 = refKey kv.2.InternalID kv.2.ExternalID) →
      (∀ kv ∈ (PurgeReferences s pfx).1.references,
        ¬ (kv.2.Era < md.Era ∧ HasPrefix kv.2.InternalID pfx = true)) ∧
      ((s.references.map Prod.fst).Nodup → ∀ kv ∈ s.references, md.Era ≤ kv.2.Era →
        kv ∈ (PurgeReferences s pfx).1.references)) := by
  obtain ⟨f1, f2, f3, f4, f5⟩ := PurgeReferences_frame s pfx
  have hx : PurgeReferencesTx pfx s = .ok (buildReferences s md.Era pfx true).1 := by
    simp only [PurgeReferencesTx, readMetadata, hmd]
  have hP : PurgeReferences s pfx = ((buildReferences s md.Era pfx true).1, none) := by
    rw [PurgeReferences, Update, hx]
  refine ⟨by rw [hP], f1, f2, f3, f4, ?_⟩
  intro hkey
  have hL : ∀ r, r ∈ sortSlice ((s.references.map Prod.snd).filter
      (fun r => decide (r.Era < md.Era))) ↔
      (∃ k, (k, r) ∈ s.references) ∧ r.Era < md.Era := by
    intro r
    rw [mem_sortSlice, List.mem_filter, List.mem_map, decide_eq_true_eq]
    constructor
    · rintro ⟨⟨⟨k, r1⟩, hm, rfl⟩, he⟩
      exact ⟨⟨k, hm⟩, he⟩
    · rintro ⟨⟨k, hm⟩, he⟩
      exact ⟨⟨(k, r), hm, rfl⟩, he⟩
  rw [hP, buildReferences_eq_foldl]
  constructor
  · rintro ⟨k, r⟩ hkv ⟨hera, hpre⟩
    have hin : (k, r) ∈ s.references := by
      have := f5 (k, r)
      rw [hP, buildReferences_eq_foldl] at this
      exact this hkv
    have hrL := (hL r).2 ⟨⟨k, hin⟩, hera⟩
    exact foldl_buildReferencesStep_purges _ (s, [pfx]) pfx (List.mem_singleton_self _) r hrL
      hpre (k, r) hkv (hkey (k, r) hin)
  · intro hnd kv hkv hera
    refine foldl_buildReferencesStep_keeps true _ (s, [pfx]) kv hkv ?_
    intro r hr heq
    obtain ⟨⟨k, hm⟩, he⟩ := (hL r).1 hr
    have hk : k = kv.1 := (hkey (k, r) hm).trans heq
    have := nodupKeys_eq hnd hm hkv hk
    rw [← this] at hera
    exact absurd he (not_lt.2 hera)

/-- Witness of C18: of the references `a:x -> b:` (era 0) and `a:y -> c:` (era 1), in era 1
`PurgeReferences("a:")` deletes the first and keeps the second. -/
theorem purgeReferences_clears_witness :
    (PurgeReferences (run (newStore 0) [.AddReference [97, 58, 120] [98, 58] 1, .BumpEra,
      .AddReference [97, 58, 121] [99, 58] 2]) [97, 58]).1.references
      = [(refKey [97, 58, 121] [99, 58], ⟨[97, 58, 121], [99, 58], 2, 1⟩)] ∧
    ((refKey [97, 58, 121] [99, 58], ⟨[97, 58, 121], [99, 58], 2, 1⟩) : GoString × reference) ∈
      (PurgeReferences (run (newStore 0) [.AddReference [97, 58, 120] [98, 58] 1, .BumpEra,
      .AddReference [97, 58, 121] [99, 58] 2]) [97, 58]).1.references :=
  ⟨by decide,
   ((purgeReferences_clears (run (newStore 0) [.AddReference [97, 58, 120] [98, 58] 1,
      .BumpEra, .AddReference [97, 58, 121] [99, 58] 2]) ⟨[49, 46, 49, 46, 48], 0, 1⟩
      (by decide) [97, 58]).2.2.2.2.2 (by decide)).2 (by decide)
      (refKey [97, 58, 121] [99, 58], ⟨[97, 58, 121], [99, 58], 2, 1⟩) (by decide)
      (by decide)⟩


/-! Sorted keys and bounded eras are kept by every bucket write -/

theorem good_forward_insert {E : Int} {md : storeMeta} {s : Store} (h : s.Good E md)
    (k : GoString) {t : tuple} (ht : t.Era ≤ E) :
    Store.Good E md { s with internalToExternal := s.internalToExternal.insert k t } := by
  obtain ⟨hm, he, ⟨s1, s2, s3, s4⟩, ⟨b1, b2, b3⟩⟩ := h
  refine ⟨hm, he, ⟨s1.insert k t, s2, s3, s4⟩, ⟨?_, b2, b3⟩⟩
  intro kv hkv
  rcases Bucket.mem_insert hkv with rfl | hkv
  · exact ht
  · exact b1 kv hkv

theorem good_forward_Delete {E : Int} {md : storeMeta} {s : Store} (h : s.Good E md)
    (k : GoString) :
    Store.Good E md { s with internalToExternal := s.internalToExternal.Delete k } := by
  obtain ⟨hm, he, ⟨s1, s2, s3, s4⟩, ⟨b1, b2, b3⟩⟩ := h
  exact ⟨hm, he, ⟨s1.Delete k, s2, s3, s4⟩, ⟨fun kv hkv => b1 kv (Bucket.mem_Delete hkv), b2, b3⟩⟩

theorem good_reverse_insert {E : Int} {md : storeMeta} {s : Store} (h : s.Good E md)
    (k v : GoString) :
    Store.Good E md { s with externalToInternal := s.externalToInternal.insert k v } := by
  obtain ⟨hm, he, ⟨s1, s2, s3, s4⟩, hb⟩ := h
  exact ⟨hm, he, ⟨s1, s2.insert k v, s3, s4⟩, hb⟩

theorem good_reverse_Delete {E : Int} {md : storeMeta} {s : Store} (h : s.Good E md)
    (k : GoString) :
    Store.Good E md { s with externalToInternal := s.externalToInternal.Delete k } := by
  obtain ⟨hm, he, ⟨s1, s2, s3, s4⟩, hb⟩ := h
  exact ⟨hm, he, ⟨s1, s2.Delete k, s3, s4⟩, hb⟩

theorem good_garbage_insert {E : Int} {md : storeMeta} {s : Store} (h : s.Good E md)
    (k : GoString) {t : tuple} (ht : t.Era ≤ E) :
    Store.Good E md { s with garbage := s.garbage.insert k t } := by
  obtain ⟨hm, he, ⟨s1, s2, s3, s4⟩, ⟨b1, b2, b3⟩⟩ := h
  refine ⟨hm, he, ⟨s1, s2, s3, s4.insert k t⟩, ⟨b1, ?_, b3⟩⟩
  intro kv hkv
  rcases Bucket.mem_insert hkv with rfl | hkv
  · exact ht
  · exact b2 kv hkv

theorem good_garbage_sublist {E : Int} {md : storeMeta} {s : Store} (h : s.Good E md)
    {g : Bucket tuple} (hg : List.Sublist g s.garbage) :
    Store.Good E md { s with garbage := g } := by
  obtain ⟨hm, he, ⟨s1, s2, s3, s4⟩, ⟨b1, b2, b3⟩⟩ := h
  exact ⟨hm, he, ⟨s1, s2, s3, s4.sublist hg⟩, ⟨b1, fun kv hkv => b2 kv (hg.subset hkv), b3⟩⟩

theorem good_garbage_Delete {E : Int} {md : storeMeta} {s : Store} (h : s.Good E md)
    (k : GoString) : Store.Good E md { s with garbage := s.garbage.Delete k } :=
  good_garbage_sublist h (List.filter_sublist _)

theorem good_references_insert {E : Int} {md : storeMeta} {s : Store} (h : s.Good E md)
    (k : GoString) {t : reference} (ht : t.Era ≤ E) :
    Store.Good E md { s with references := s.references.insert k t } := by
  obtain ⟨hm, he, ⟨s1, s2, s3, s4⟩, ⟨b1, b2, b3⟩⟩ := h
  refine ⟨hm, he, ⟨s1, s2, s3.insert k t, s4⟩, ⟨b1, b2, ?_⟩⟩
  intro kv hkv
  rcases Bucket.mem_insert hkv with rfl | hkv
  · exact ht
  · exact b3 kv hkv

theorem good_references_Delete {E : Int} {md : storeMeta} {s : Store} (h : s.Good E md)
    (k : GoString) : Store.Good E md { s with references := s.references.Delete k } := by
  obtain ⟨hm, he, ⟨s1, s2, s3, s4⟩, ⟨b1, b2, b3⟩⟩ := h
  exact ⟨hm, he, ⟨s1, s2, s3.Delete k, s4⟩, ⟨b1, b2, fun kv hkv => b3 kv (Bucket.mem_Delete hkv)⟩⟩

theorem foldl_Delete_sublist {V : Type} (es : List GoString) (g : Bucket V) :
    List.Sublist (es.foldl (fun g eid => deleteFromBucket g eid) g) g := by
  induction es generalizing g with
  | nil => exact List.Sublist.refl _
  | cons k es ih => exact (ih _).trans (List.filter_sublist _)

theorem good_readMetadata {E : Int} {md m : storeMeta} {s : Store} (h : s.Good E md)
    (hm : readMetadata s = .ok m) : m = md := by
  simp only [readMetadata, h.1] at hm
  exact (Except.ok.inj hm).symm

theorem good_forward_era {E : Int} {md : storeMeta} {s : Store} (h : s.Good E md)
    {k : GoString} {t : tuple} (hf : s.internalToExternal.Get k = some t) : t.Era ≤ E :=
  h.2.2.2.1 _ (Bucket.mem_of_Get hf)

theorem good_addToGarbage {E : Int} {md : storeMeta} {tx tx1 : Store} {t : tuple}
    (h : tx.Good E md) (ht : t.Era ≤ E) (hu : addToGarbage tx t = .ok tx1) : tx1.Good E md := by
  obtain ⟨_, rfl⟩ := addToGarbage_ok hu
  exact good_garbage_insert h _ ht

theorem good_updateEra {E : Int} {md : storeMeta} {tx tx1 : Store} {t : tuple}
    (h : tx.Good E md) (hu : updateEra t tx = .ok tx1) : tx1.Good E md := by
  rcases updateEra_ok hu with h1 | ⟨m, hm, _, _, h1⟩
  · rw [h1]; exact h
  · have hmd : m = md := Option.some.inj (hm.symm.trans h.1)
    rw [h1, hmd]
    exact good_forward_insert h _ h.2.1

theorem good_removeExternal {E : Int} {md : storeMeta} {tx tx1 : Store} {eid : GoString}
    {m : Bool} (h : tx.Good E md) (hu : removeExternal tx eid m = .ok tx1) :
    tx1.Good E md := by
  unfold removeExternal at hu
  cases hr : tx.externalToInternal.Get eid with
  | none => rw [hr] at hu; cases hu; exact h
  | some iid =>
    rw [hr] at hu
    simp only [readTuple, deleteFromBucket] at hu
    have h1 := good_reverse_Delete h eid
    cases hf : tx.internalToExternal.Get iid with
    | none => rw [hf] at hu; cases hu; exact h1
    | some t =>
      rw [hf] at hu
      simp only [] at hu
      have h2 := good_forward_Delete h1 iid
      split_ifs at hu
      · exact good_addToGarbage h2 (good_forward_era h hf) hu
      · cases hu; exact h2
      · cases hu; exact h1

theorem good_removeInternal {E : Int} {md : storeMeta} {tx tx1 : Store} {iid : GoString}
    {m : Bool} (h : tx.Good E md) (hu : removeInternal tx iid m = .ok tx1) :
    tx1.Good E md := by
  unfold removeInternal at hu
  simp only [readTuple, deleteFromBucket] at hu
  cases hf : tx.internalToExternal.Get iid with
  | none => rw [hf] at hu; cases hu; exact h
  | some t =>
    rw [hf] at hu
    simp only [] at hu
    have ht := good_forward_era h hf
    have h1 := good_forward_Delete h iid
    have h2 := good_reverse_Delete h1 t.ExternalID
    cases m
    · simp only [Bool.false_eq_true, if_false] at hu
      have hu1 := Except.ok.inj hu
      rw [← hu1]
      split_ifs
      · exact h2
      · exact h1
    · simp only [if_true] at hu
      split_ifs at hu
      · exact good_addToGarbage h2 ht hu
      · exact good_addToGarbage h1 ht hu

theorem good_associateInsert {E : Int} {md : storeMeta} {tx tx1 : Store} {i e : GoString}
    {now : Int} (h : tx.Good E md) (hu : associateInsert tx i e now = .ok tx1) :
    tx1.Good E md := by
  unfold associateInsert at hu
  cases hr : removeExternal tx e true with
  | error err => rw [hr] at hu; cases hu
  | ok tx2 =>
    rw [hr] at hu
    simp only [] at hu
    have h2 := good_removeExternal h hr
    cases hm : readMetadata tx2 with
    | error err => rw [hm] at hu; cases hu
    | ok m =>
      rw [hm] at hu
      simp only [] at hu
      have hmd := good_readMetadata h2 hm
      subst hmd
      cases hp : putInBucket .internalToExternal tx2.internalToExternal i
          ⟨i, e, now, m.Era⟩ with
      | error err => rw [hp] at hu; cases hu
      | ok f =>
        rw [hp] at hu
        simp only [] at hu
        obtain ⟨_, rfl⟩ := putInBucket_ok hp
        cases hq : putInBucket .externalToInternal tx2.externalToInternal e i with
        | error err => rw [hq] at hu; cases hu
        | ok r =>
          rw [hq] at hu
          obtain ⟨_, rfl⟩ := putInBucket_ok hq
          cases hu
          exact good_reverse_insert
            (good_forward_insert (t := ⟨i, e, now, m.Era⟩) h2 i h2.2.1) e i

theorem good_AssociateTx {E : Int} {md : storeMeta} {tx tx1 : Store} {i e : GoString}
    {now : Int} (h : tx.Good E md) (hu : AssociateTx i e now tx = .ok tx1) :
    tx1.Good E md := by
  unfold AssociateTx at hu
  simp only [readTuple, deleteFromBucket] at hu
  have h1 := good_garbage_Delete h e
  cases hf : tx.internalToExternal.Get i with
  | none => rw [hf] at hu; exact good_associateInsert h1 hu
  | some t =>
    rw [hf] at hu
    simp only [] at hu
    split_ifs at hu
    · exact good_updateEra h1 hu
    · cases hr : removeInternal { tx with garbage := tx.garbage.Delete e } i true with
      | error err => rw [hr] at hu; cases hu
      | ok tx2 =>
        rw [hr] at hu
        exact good_associateInsert (good_removeInternal h1 hr) hu

theorem good_AddReferenceTx {E : Int} {md : storeMeta} {tx tx1 : Store} {i o : GoString}
    {now : Int} (h : tx.Good E md) (hu : AddReferenceTx i o now tx = .ok tx1) :
    tx1.Good E md := by
  unfold AddReferenceTx at hu
  cases hf : readReference tx (refKey i o) with
  | some t => rw [hf] at hu; exact good_updateEra h hu
  | none =>
    rw [hf] at hu
    simp only [] at hu
    cases hm : readMetadata tx with
    | error err => rw [hm] at hu; cases hu
    | ok m =>
      rw [hm] at hu
      simp only [] at hu
      have hmd := good_readMetadata h hm
      subst hmd
      cases hp : putInBucket .references tx.references (refKey i o) ⟨i, o, now, m.Era⟩ with
      | error err => rw [hp] at hu; cases hu
      | ok r =>
        rw [hp] at hu
        obtain ⟨_, rfl⟩ := putInBucket_ok hp
        cases hu
        exact good_references_insert (t := ⟨i, o, now, m.Era⟩) h _ h.2.1

theorem good_GetExternalTx {E : Int} {md : storeMeta} {tx tx1 : Store} {i : GoString}
    (h : tx.Good E md) (hu : GetExternalTx i tx = .ok tx1) : tx1.Good E md := by
  unfold GetExternalTx at hu
  cases hf : readTuple tx i with
  | none => rw [hf] at hu; cases hu; exact h
  | some t => rw [hf] at hu; exact good_updateEra h hu

theorem good_GetInternalTx {E : Int} {md : storeMeta} {tx tx1 : Store} {e : GoString}
    (h : tx.Good E md) (hu : GetInternalTx e tx = .ok tx1) : tx1.Good E md := by
  unfold GetInternalTx at hu
  cases hr : tx.externalToInternal.Get e with
  | none => rw [hr] at hu; cases hu; exact h
  | some i =>
    rw [hr] at hu
    simp only [] at hu
    cases hf : readTuple tx i with
    | none => rw [hf] at hu; cases hu; exact h
    | some t => rw [hf] at hu; exact good_updateEra h hu

theorem good_PurgeExternalTx {E : Int} {md : storeMeta} {tx tx1 : Store} {e : GoString}
    (h : tx.Good E md) (hu : PurgeExternalTx e tx = .ok tx1) : tx1.Good E md := by
  unfold PurgeExternalTx at hu
  cases hr : removeExternal tx e false with
  | error err => rw [hr] at hu; cases hu
  | ok tx2 =>
    rw [hr] at hu
    cases hu
    exact good_garbage_Delete (good_removeExternal h hr) e

theorem good_PurgeInternalTx {E : Int} {md : storeMeta} {tx tx1 : Store} {i : GoString}
    (h : tx.Good E md) (hu : PurgeInternalTx i tx = .ok tx1) : tx1.Good E md := by
  unfold PurgeInternalTx at hu
  cases hr : removeInternal tx i false with
  | error err => rw [hr] at hu; cases hu
  | ok tx2 =>
    rw [hr] at hu
    cases hu
    exact good_garbage_sublist (good_removeInternal h hr) (foldl_Delete_sublist _ _)

theorem good_foldl_buildReferencesStep {E : Int} {md : storeMeta} (purge : Bool)
    (l : List reference) (acc : Store × List GoString) (h : acc.1.Good E md) :
    (l.foldl (buildReferencesStep purge) acc).1.Good E md := by
  induction l generalizing acc with
  | nil => exact h
  | cons r l ih =>
    rw [List.foldl_cons]
    apply ih
    unfold buildReferencesStep
    split_ifs
    · exact good_references_Delete h _
    · exact h
    · exact h

theorem good_buildReferences {E : Int} {md : storeMeta} (tx : Store) (era : Int)
    (seed : GoString) (purge : Bool) (h : tx.Good E md) :
    (buildReferences tx era seed purge).1.Good E md := by
  rw [buildReferences_eq_foldl]
  exact good_foldl_buildReferencesStep purge _ (tx, [seed]) h

theorem good_PurgeReferencesTx {E : Int} {md : storeMeta} {tx tx1 : Store} {p : GoString}
    (h : tx.Good E md) (hu : PurgeReferencesTx p tx = .ok tx1) : tx1.Good E md := by
  unfold PurgeReferencesTx at hu
  cases hm : readMetadata tx with
  | error err => rw [hm] at hu; cases hu
  | ok m =>
    rw [hm] at hu
    cases hu
    exact good_buildReferences tx m.Era p true h

theorem good_foldl_sweepStep {E : Int} {md : storeMeta} (era : Int) (P : List GoString)
    (l : Bucket tuple) (hl : ∀ kv ∈ l, kv.2.Era ≤ E) (tx tx1 : Store) (h : tx.Good E md)
    (hu : l.foldl (sweepStep era P) (.ok tx) = .ok tx1) : tx1.Good E md := by
  induction l generalizing tx with
  | nil => cases hu; exact h
  | cons kv l ih =>
    rw [List.foldl_cons] at hu
    cases hs : sweepStep era P (.ok tx) kv with
    | error e => rw [hs, foldl_sweepStep_error] at hu; cases hu
    | ok tx2 =>
      rw [hs] at hu
      refine ih (fun x hx => hl x (List.mem_cons_of_mem _ hx)) tx2 ?_ hu
      simp only [sweepStep] at hs
      split_ifs at hs
      · exact good_addToGarbage h (hl kv (List.mem_cons_self _ _)) hs
      · cases hs; exact h
      · cases hs; exact h

theorem good_SweepTx {E : Int} {md : storeMeta} {tx tx1 : Store} {p : GoString}
    (h : tx.Good E md) (hu : SweepTx p tx = .ok tx1) : tx1.Good E md := by
  unfold SweepTx at hu
  cases hm : readMetadata tx with
  | error err => rw [hm] at hu; cases hu
  | ok m =>
    rw [hm] at hu
    simp only [buildReferences_fst_false] at hu
    exact good_foldl_sweepStep _ _ _ h.2.2.2.1 tx tx1 h hu

theorem good_Update {E : Int} {md : storeMeta} {s : Store}
    {fn : Store → Except identityError Store} (h : s.Good E md)
    (hfn : ∀ tx1, fn s = .ok tx1 → tx1.Good E md) : (Update s fn).1.Good E md := by
  unfold Update
  cases hr : fn s with
  | error err => exact h
  | ok tx1 => exact hfn tx1 hr

/-- Every operation but `BumpEra` keeps the metadata record, the order of the keys and
the bound on the eras. -/
theorem good_apply {E : Int} {md : storeMeta} (s : Store) (h : s.Good E md) (op : Op)
    (hop : op.isBump = false) : (op.apply s).Good E md := by
  cases op with
  | Associate i e now => exact good_Update h (fun _ hu => good_AssociateTx h hu)
  | AddReference i o now => exact good_Update h (fun _ hu => good_AddReferenceTx h hu)
  | GetExternal i =>
    exact @good_Update E md s (GetExternalTx i) h (fun _ hu => good_GetExternalTx h hu)
  | GetInternal e =>
    exact @good_Update E md s (GetInternalTx e) h (fun _ hu => good_GetInternalTx h hu)
  | RemoveExternal e => exact good_Update h (fun _ hu => good_removeExternal h hu)
  | RemoveInternal i => exact good_Update h (fun _ hu => good_removeInternal h hu)
  | PurgeExternal e => exact good_Update h (fun _ hu => good_PurgeExternalTx h hu)
  | PurgeInternal i => exact good_Update h (fun _ hu => good_PurgeInternalTx h hu)
  | PurgeReferences p => exact good_Update h (fun _ hu => good_PurgeReferencesTx h hu)
  | Sweep p => exact good_Update h (fun _ hu => good_SweepTx h hu)
  | BumpEra => cases hop

/-- `BumpEra` keeps the order of the keys, and the bound on the eras when the new era is
not below the old bound. -/
theorem good_BumpEra {E E1 : Int} {md : storeMeta} (s : Store) (h : s.Good E md)
    (h1 : E ≤ E1) (h2 : wrapInt64 (md.Era + 1) ≤ E1) :
    (BumpEra s).1.Good E1 ⟨md.Version, md.Timestamp, wrapInt64 (md.Era + 1)⟩ := by
  rw [BumpEra_eq s md h.1]
  obtain ⟨_, _, hs, ⟨b1, b2, b3⟩⟩ := h
  exact ⟨rfl, h2, hs, ⟨fun kv hkv => le_trans (b1 kv hkv) h1,
    fun kv hkv => le_trans (b2 kv hkv) h1, fun kv hkv => le_trans (b3 kv hkv) h1⟩⟩


/-! Reachable stores: sorted keys, and eras below the current era until the era wraps -/

theorem newStore_good (now : Int) (E : Int) (hE : 0 ≤ E) :
    (newStore now).Good E ⟨[49, 46, 49, 46, 48], now, 0⟩ := by
  refine ⟨rfl, hE, ⟨List.Pairwise.nil, List.Pairwise.nil, List.Pairwise.nil, List.Pairwise.nil⟩,
    ⟨?_, ?_, ?_⟩⟩
  · intro kv h; cases h
  · intro kv h; cases h
  · intro kv h; cases h

theorem run_cons (s : Store) (op : Op) (ops : List Op) :
    run s (op :: ops) = run (op.apply s) ops := rfl

theorem run_append (s : Store) (a b : List Op) : run s (a ++ b) = run (run s a) b :=
  List.foldl_append _ _ _ _

theorem good_run_max (ops : List Op) (s : Store) (md : storeMeta)
    (h : s.Good (2 ^ 63 - 1) md) : ∃ md1, (run s ops).Good (2 ^ 63 - 1) md1 := by
  induction ops generalizing s md with
  | nil => exact ⟨md, h⟩
  | cons op ops ih =>
    rw [run_cons]
    by_cases hop : op.isBump = true
    · cases op <;> cases hop
      have hw := (wrapInt64_range (md.Era + 1)).2
      exact ih _ _ (good_BumpEra s h (le_refl _) (by omega))
    · exact ih _ _ (good_apply s h op (by simpa using hop))

/-- Every store reached from a freshly created one by public operations has its keys in
ascending order, so no bucket has a key twice. -/
theorem keysSorted_of_reachable (s : Store) (h : Reachable s) : s.KeysSorted := by
  obtain ⟨now, ops, rfl⟩ := h
  obtain ⟨md1, h1⟩ := good_run_max ops (newStore now) _ (newStore_good now _ (by norm_num))
  exact h1.2.2.1

theorem Bucket.Sorted.nodupKeys {V : Type} {b : Bucket V} (h : b.Sorted) :
    (b.map Prod.fst).Nodup := by
  unfold Bucket.Sorted at h
  rw [List.Nodup, List.pairwise_map]
  refine h.imp ?_
  intro x y hxy heq
  rw [heq, bytesLess_irrefl] at hxy
  cases hxy

theorem bumps_cons_bump (ops : List Op) : bumps (Op.BumpEra :: ops) = bumps ops + 1 := by
  simp [bumps, Op.isBump]

theorem bumps_cons_other (op : Op) (ops : List Op) (h : op.isBump = false) :
    bumps (op :: ops) = bumps ops := by
  simp [bumps, h]

/-- Below the wrap-around the era is the number of `BumpEra` calls and bounds every era. -/
theorem good_run_count (ops : List Op) (s : Store) (md : storeMeta)
    (h : s.Good md.Era md) (h0 : 0 ≤ md.Era) (hb : md.Era + bumps ops < 2 ^ 63) :
    ∃ md1, (run s ops).Good md1.Era md1 ∧ md1.Era = md.Era + bumps ops := by
  induction ops generalizing s md with
  | nil => exact ⟨md, h, by simp [bumps]⟩
  | cons op ops ih =>
    rw [run_cons]
    by_cases hop : op.isBump = true
    · cases op <;> cases hop
      rw [bumps_cons_bump] at hb ⊢
      have hw : wrapInt64 (md.Era + 1) = md.Era + 1 :=
        wrapInt64_of_range _ (by omega) (by omega)
      have hg : (BumpEra s).1.Good (md.Era + 1)
          ⟨md.Version, md.Timestamp, wrapInt64 (md.Era + 1)⟩ :=
        good_BumpEra s h (by omega) (by omega)
      rw [hw] at hg
      obtain ⟨md1, h1, h2⟩ := ih (BumpEra s).1 ⟨md.Version, md.Timestamp, md.Era + 1⟩ hg
        (by show (0 : Int) ≤ md.Era + 1; omega)
        (by show md.Era + 1 + (bumps ops : Int) < 2 ^ 63; omega)
      exact ⟨md1, h1, by rw [h2]; show md.Era + 1 + (bumps ops : Int) = _; push_cast; omega⟩
    · have hop1 : op.isBump = false := by simpa using hop
      rw [bumps_cons_other op ops hop1] at hb ⊢
      exact ih _ md (good_apply s h op hop1) h0 hb

/-- C12 (as the code has it): in every store reached from a freshly created one by a
sequence of public operations with fewer than 2^63 `BumpEra` calls, every forward tuple,
every garbage tuple and every reference has an era at most the current era. -/
theorem era_bound_until_wrap (s : Store)
    (h : ∃ now ops, (bumps ops : Int) < 2 ^ 63 ∧ s = run (newStore now) ops) :
    ∃ md, s.metadata = some md ∧
      (∀ kv ∈ s.internalToExternal, kv.2.Era ≤ md.Era) ∧
      (∀ kv ∈ s.garbage, kv.2.Era ≤ md.Era) ∧
      (∀ kv ∈ s.references, kv.2.Era ≤ md.Era) := by
  obtain ⟨now, ops, hb, rfl⟩ := h
  obtain ⟨md1, h1, _⟩ := good_run_count ops (newStore now) ⟨[49, 46, 49, 46, 48], now, 0⟩
    (newStore_good now 0 (le_refl _)) (le_refl _) (by show (0 : Int) + bumps ops < 2 ^ 63; omega)
  exact ⟨md1, h1.1, h1.2.2.2⟩

/-- Witness of C12: test `TestAccessSetEra`; after two `Associate`, one `BumpEra` and a read
of the first id the eras 1 and 0 of the two tuples are at most the current era 1. -/
theorem era_bound_until_wrap_witness :
    ∃ md, (run (newStore 0) [.Associate [97] [101] 1, .Associate [98] [102] 2, .BumpEra,
      .GetExternal [97]]).metadata = some md ∧
      ∀ kv ∈ (run (newStore 0) [.Associate [97] [101] 1, .Associate [98] [102] 2, .BumpEra,
        .GetExternal [97]]).internalToExternal, kv.2.Era ≤ md.Era := by
  obtain ⟨md, h1, h2, _⟩ := era_bound_until_wrap
    (run (newStore 0) [.Associate [97] [101] 1, .Associate [98] [102] 2, .BumpEra,
      .GetExternal [97]]) ⟨0, _, by decide, rfl⟩
  exact ⟨md, h1, h2⟩

theorem run_replicate_BumpEra (n : Nat) (s : Store) (md : storeMeta)
    (hmd : s.metadata = some md) (h0 : 0 ≤ md.Era) (hb : md.Era + n < 2 ^ 63) :
    run s (List.replicate n Op.BumpEra)
      = { s with metadata := some ⟨md.Version, md.Timestamp, md.Era + n⟩ } := by
  induction n generalizing s md with
  | zero =>
    show s = _
    cases s
    simp only [Store.mk.injEq, true_and, and_true] at hmd ⊢
    rw [hmd]
    simp
  | succ n ih =>
    rw [List.replicate_succ, run_cons]
    show run (BumpEra s).1 _ = _
    rw [BumpEra_eq s md hmd, wrapInt64_of_range _ (by omega) (by push_cast at hb; omega)]
    rw [ih _ ⟨md.Version, md.Timestamp, md.Era + 1⟩ rfl (by show (0 : Int) ≤ md.Era + 1; omega)
      (by show md.Era + 1 + (n : Int) < 2 ^ 63; push_cast at hb; omega)]
    show _ = ({ s with metadata := some ⟨md.Version, md.Timestamp, md.Era + ((n + 1 : Nat) : Int)⟩ } : Store)
    congr 3
    push_cast
    omega

/-- The store `lastEraStore` is reached by 2^63 - 1 `BumpEra` calls and one `Associate`. -/
theorem lastEraStore_reachable : Reachable lastEraStore := by
  refine ⟨0, List.replicate 9223372036854775807 Op.BumpEra ++ [.Associate [97] [101] 1], ?_⟩
  rw [run_append, run_replicate_BumpEra 9223372036854775807 (newStore 0)
    ⟨[49, 46, 49, 46, 48], 0, 0⟩ rfl (le_refl _) (by norm_num)]
  decide

/-- Counterexample to C12: after 2^63 - 1 `BumpEra` calls, `Associate("a","e")` and one more
`BumpEra`, the era of the store is -9223372036854775808 and the era of the forward tuple of
`a` is 9223372036854775807. -/
theorem era_bound_fails_after_wrap :
    Reachable (BumpEra lastEraStore).1 ∧
    (BumpEra lastEraStore).1.metadata
      = some ⟨[49, 46, 49, 46, 48], 0, -9223372036854775808⟩ ∧
    (BumpEra lastEraStore).1.internalToExternal.Get [97]
      = some ⟨[97], [101], 1, 9223372036854775807⟩ ∧
    ¬ ((9223372036854775807 : Int) ≤ -9223372036854775808) := by
  refine ⟨?_, by decide, by decide, by decide⟩
  obtain ⟨now, ops, h⟩ := lastEraStore_reachable
  refine ⟨now, ops ++ [.BumpEra], ?_⟩
  rw [run_append, ← h]
  rfl


/-! Opening a store -/

theorem NewIdentity_eq_ok {f f1 : DbFile} {now : Int} (h : NewIdentityTx now f = .ok f1) :
    NewIdentity f now = (f1, none) := by
  simp only [NewIdentity, h]

theorem NewIdentity_eq_error {f : DbFile} {now : Int} {e : openError}
    (h : NewIdentityTx now f = .error e) : NewIdentity f now = (f, some e) := by
  simp only [NewIdentity, h]

theorem NewIdentity_success {f : DbFile} {now : Int} (h : (NewIdentity f now).2 = none) :
    NewIdentityTx now f = .ok (NewIdentity f now).1 := by
  cases hx : NewIdentityTx now f with
  | ok f1 => rw [NewIdentity_eq_ok hx]
  | error e => rw [NewIdentity_eq_error hx] at h; cases h

theorem parse_version110 : MustParseVersion version110 = some ⟨1, 1, 0⟩ := by decide

/-- The transaction on a file with a metadata record whose version parses. -/
theorem NewIdentityTx_record {f : DbFile} {md : storeMeta} {v : Version} (now : Int)
    (hmd : f.metadata = some (some md)) (hv : MustParseVersion md.Version = some v) :
    NewIdentityTx now f =
      if supportedVersionsIncludes v = false then .error .unsupportedVersion
      else if md.Version = version100 then
        match CreateBucket .references f.references with
        | .error e => .error e
        | .ok rb =>
          .ok { f with
                references := some rb
                metadata := some (some { md with Version := version110 }) }
      else .ok f := by
  simp only [NewIdentityTx, hmd, hv]

/-- A file with a metadata record opens only if the version of the record parses and lies
in the supported range. -/
theorem NewIdentityTx_ok_of_record {f f1 : DbFile} {md : storeMeta} {now : Int}
    (hmd : f.metadata = some (some md)) (h : NewIdentityTx now f = .ok f1) :
    ∃ v, MustParseVersion md.Version = some v ∧ supportedVersionsIncludes v = true := by
  cases hv : MustParseVersion md.Version with
  | none => simp only [NewIdentityTx, hmd, hv] at h; cases h
  | some v =>
    refine ⟨v, rfl, ?_⟩
    rw [NewIdentityTx_record now hmd hv] at h
    cases hs : supportedVersionsIncludes v with
    | true => rfl
    | false => rw [hs] at h; simp only [if_true] at h; cases h

/-- The transaction on a file without metadata bucket and without forward bucket. -/
theorem NewIdentityTx_fresh {f : DbFile} (now : Int) (hmd : f.metadata = none)
    (hf : f.internalToExternal = none) :
    NewIdentityTx now f =
      match CreateBucket .externalToInternal f.externalToInternal with
      | .error e => .error e
      | .ok eb =>
        match CreateBucket .garbage f.garbage with
        | .error e => .error e
        | .ok gb =>
          match CreateBucket .references f.references with
          | .error e => .error e
          | .ok rb =>
            .ok { metadata := some (some ⟨version110, now, 0⟩)
                  internalToExternal := some []
                  externalToInternal := some eb
                  references := some rb
                  garbage := some gb } := by
  simp only [NewIdentityTx, hmd, hf, CreateBucket]

/-- After a successful open the file has a metadata record with a supported version. -/
theorem NewIdentityTx_ok_version {f f1 : DbFile} {now : Int} (h : NewIdentityTx now f = .ok f1) :
    ∃ md v, f1.metadata = some (some md) ∧ MustParseVersion md.Version = some v ∧
      supportedVersionsIncludes v = true := by
  cases hmd : f.metadata with
  | none =>
    cases hf : f.internalToExternal with
    | some b => simp only [NewIdentityTx, hmd, hf] at h; cases h
    | none =>
      rw [NewIdentityTx_fresh now hmd hf] at h
      cases he : f.externalToInternal with
      | some b => simp only [he, CreateBucket] at h; cases h
      | none =>
        cases hg : f.garbage with
        | some b => simp only [he, hg, CreateBucket] at h; cases h
        | none =>
          cases hr : f.references with
          | some b => simp only [he, hg, hr, CreateBucket] at h; cases h
          | none =>
            simp only [he, hg, hr, CreateBucket] at h
            cases h
            exact ⟨_, ⟨1, 1, 0⟩, rfl, parse_version110, rfl⟩
  | some mbb =>
    cases mbb with
    | none => simp only [NewIdentityTx, hmd] at h; cases h
    | some md =>
      obtain ⟨v, hv, hs⟩ := NewIdentityTx_ok_of_record hmd h
      rw [NewIdentityTx_record now hmd hv, hs] at h
      simp only [Bool.true_eq_false, if_false] at h
      by_cases h100 : md.Version = version100
      · rw [if_pos h100] at h
        cases hr : f.references with
        | some b => simp only [hr, CreateBucket] at h; cases h
        | none =>
          simp only [hr, CreateBucket] at h
          cases h
          exact ⟨_, ⟨1, 1, 0⟩, rfl, parse_version110, rfl⟩
      · rw [if_neg h100] at h
        cases h
        exact ⟨md, v, hmd, hv, hs⟩

theorem parse_version100 : MustParseVersion version100 = some ⟨1, 0, 0⟩ := by decide

/-- A file whose record has a supported version other than `1.0.0` opens unchanged. -/
theorem NewIdentity_current {f : DbFile} {md : storeMeta} {v : Version} (now : Int)
    (hmd : f.metadata = some (some md)) (hv : MustParseVersion md.Version = some v)
    (hs : supportedVersionsIncludes v = true) (h100 : md.Version ≠ version100) :
    NewIdentity f now = (f, none) := by
  apply NewIdentity_eq_ok
  rw [NewIdentityTx_record now hmd hv, hs, if_neg (by decide), if_neg h100]

/-- The upgrade of a `1.0.0` file, by the state of its references bucket. -/
theorem NewIdentityTx_version100 {f : DbFile} {md : storeMeta} (now : Int)
    (hmd : f.metadata = some (some md)) (hv : md.Version = version100) :
    NewIdentityTx now f =
      match f.references with
      | some _ => .error (.bucketExists .references)
      | none =>
        .ok { f with
              references := some []
              metadata := some (some ⟨version110, md.Timestamp, md.Era⟩) } := by
  have hp : MustParseVersion md.Version = some ⟨1, 0, 0⟩ := by rw [hv]; exact parse_version100
  rw [NewIdentityTx_record now hmd hp, if_neg (by decide), if_pos hv]
  cases f.references <;> rfl

/-- C21: `NewIdentity` returns without error only on a file that then has a metadata record
with a version in the range `1.x`, and on a file with a metadata record only if the version
of that record is in the range.  A metadata bucket without record, a version outside `1.x`
(such as `2.0.0` and `0.9.0`) and a forward bucket without metadata bucket each give an
error and the file as it was; the empty file gets the five buckets and the record with
version `1.1.0` and era 0. -/
theorem newIdentity_version_gate (f : DbFile) (now : Int) :
    ((NewIdentity f now).2 = none →
      ∃ md v, (NewIdentity f now).1.metadata = some (some md) ∧
        MustParseVersion md.Version = some v ∧ supportedVersionsIncludes v = true) ∧
    (∀ md, f.metadata = some (some md) → (NewIdentity f now).2 = none →
      ∃ v, MustParseVersion md.Version = some v ∧ supportedVersionsIncludes v = true) ∧
    (f.metadata = some none → NewIdentity f now = (f, some .invalidFormat)) ∧
    (∀ md v, f.metadata = some (some md) → MustParseVersion md.Version = some v →
      supportedVersionsIncludes v = false →
      NewIdentity f now = (f, some .unsupportedVersion)) ∧
    (MustParseVersion [50, 46, 48, 46, 48] = some ⟨2, 0, 0⟩ ∧
      supportedVersionsIncludes ⟨2, 0, 0⟩ = false) ∧
    (MustParseVersion [48, 46, 57, 46, 48] = some ⟨0, 9, 0⟩ ∧
      supportedVersionsIncludes ⟨0, 9, 0⟩ = false) ∧
    (f.metadata = none → f.internalToExternal.isSome = true →
      NewIdentity f now = (f, some .predatesVersioning)) ∧
    NewIdentity emptyFile now =
      (⟨some (some ⟨version110, now, 0⟩), some [], some [], some [], some []⟩, none) := by
  refine ⟨fun h => NewIdentityTx_ok_version (NewIdentity_success h),
    fun md hmd h => NewIdentityTx_ok_of_record hmd (NewIdentity_success h), ?_, ?_,
    ⟨by decide, by decide⟩, ⟨by decide, by decide⟩, ?_, rfl⟩
  · intro hmd
    apply NewIdentity_eq_error
    simp only [NewIdentityTx, hmd]
  · intro md v hmd hv hs
    apply NewIdentity_eq_error
    rw [NewIdentityTx_record now hmd hv, if_pos hs]
  · intro hmd hf
    apply NewIdentity_eq_error
    cases hx : f.internalToExternal with
    | none => rw [hx] at hf; cases hf
    | some b => simp only [NewIdentityTx, hmd, hx]

/-- Witness of C21: a file with only an empty metadata bucket, a file of version `2.0.0`
and a file with only a forward bucket are rejected as they are; the file of a fresh store
has a supported version. -/
theorem newIdentity_version_gate_witness :
    NewIdentity ⟨some none, none, none, none, none⟩ 7 =
      (⟨some none, none, none, none, none⟩, some .invalidFormat) ∧
    NewIdentity ⟨some (some ⟨[50, 46, 48, 46, 48], 3, 4⟩), some [], some [], some [], some []⟩ 7 =
      (⟨some (some ⟨[50, 46, 48, 46, 48], 3, 4⟩), some [], some [], some [], some []⟩,
        some .unsupportedVersion) ∧
    NewIdentity ⟨none, some [], none, none, none⟩ 7 =
      (⟨none, some [], none, none, none⟩, some .predatesVersioning) ∧
    (∃ v, MustParseVersion version110 = some v ∧ supportedVersionsIncludes v = true) :=
  ⟨(newIdentity_version_gate ⟨some none, none, none, none, none⟩ 7).2.2.1 rfl,
   (newIdentity_version_gate
      ⟨some (some ⟨[50, 46, 48, 46, 48], 3, 4⟩), some [], some [], some [], some []⟩ 7).2.2.2.1
      ⟨[50, 46, 48, 46, 48], 3, 4⟩ ⟨2, 0, 0⟩ rfl (by decide) (by decide),
   (newIdentity_version_gate ⟨none, some [], none, none, none⟩ 7).2.2.2.2.2.2.1 rfl rfl,
   (newIdentity_version_gate (newStore 0).toFile 7).2.1 ⟨version110, 0, 0⟩ rfl (by decide)⟩

/-- A `1.0.0` file that already has a references bucket does not open: `CreateBucket`
fails and the file stays as it was. -/
theorem NewIdentity_version100_with_references {f : DbFile} {md : storeMeta} (now : Int)
    {rb : Bucket reference} (hmd : f.metadata = some (some md)) (hv : md.Version = version100)
    (href : f.references = some rb) :
    NewIdentity f now = (f, some (.bucketExists .references)) := by
  apply NewIdentity_eq_error
  rw [NewIdentityTx_version100 now hmd hv, href]

/-- C22: opening a file whose record has version `1.0.0`, which has no references bucket,
succeeds, creates the references bucket empty, rewrites the record with version `1.1.0` and
the creation time and era it had, and keeps the other buckets; opening the result again
succeeds and changes nothing. -/
theorem upgrade_from_version100 (f : DbFile) (md : storeMeta) (now : Int)
    (hmd : f.metadata = some (some md)) (hv : md.Version = version100)
    (href : f.references = none) :
    (NewIdentity f now).2 = none ∧
    (NewIdentity f now).1.references = some [] ∧
    (NewIdentity f now).1.metadata = some (some ⟨version110, md.Timestamp, md.Era⟩) ∧
    (NewIdentity f now).1.internalToExternal = f.internalToExternal ∧
    (NewIdentity f now).1.externalToInternal = f.externalToInternal ∧
    (NewIdentity f now).1.garbage = f.garbage ∧
    ∀ now1, NewIdentity (NewIdentity f now).1 now1 = ((NewIdentity f now).1, none) := by
  have hx : NewIdentityTx now f = .ok { f with
      references := some []
      metadata := some (some ⟨version110, md.Timestamp, md.Era⟩) } := by
    rw [NewIdentityTx_version100 now hmd hv, href]
  rw [NewIdentity_eq_ok hx]
  refine ⟨rfl, rfl, rfl, rfl, rfl, rfl, fun now1 => ?_⟩
  exact NewIdentity_current now1 rfl parse_version110 (by decide)
    (show version110 ≠ version100 by decide)

/-- Witness of C22: a `1.0.0` file with one mapping, created at instant 3 and in era 4. -/
theorem upgrade_from_version100_witness :
    (NewIdentity ⟨some (some ⟨version100, 3, 4⟩), some [([97], ⟨[97], [101], 1, 0⟩)],
      some [([101], [97])], none, some []⟩ 9).1 =
      ⟨some (some ⟨version110, 3, 4⟩), some [([97], ⟨[97], [101], 1, 0⟩)],
        some [([101], [97])], some [], some []⟩ ∧
    NewIdentity ⟨some (some ⟨version110, 3, 4⟩), some [([97], ⟨[97], [101], 1, 0⟩)],
        some [([101], [97])], some [], some []⟩ 10 =
      (⟨some (some ⟨version110, 3, 4⟩), some [([97], ⟨[97], [101], 1, 0⟩)],
        some [([101], [97])], some [], some []⟩, none) :=
  ⟨rfl, (upgrade_from_version100 ⟨some (some ⟨version100, 3, 4⟩),
      some [([97], ⟨[97], [101], 1, 0⟩)], some [([101], [97])], none, some []⟩
      ⟨version100, 3, 4⟩ 9 rfl rfl rfl).2.2.2.2.2.2 10⟩


/-! The prefixes of `buildReferences` -/

/-- The expansion appends to the prefixes it starts from, and what it appends are other
ids of walked references. -/
theorem foldl_expandStep_shape (l : List reference) (P : List GoString) :
    ∃ rest, l.foldl expandStep P = P ++ rest ∧ ∀ p ∈ rest, ∃ r ∈ l, r.ExternalID = p := by
  induction l generalizing P with
  | nil => exact ⟨[], (List.append_nil P).symm, fun p hp => by cases hp⟩
  | cons r l ih =>
    rw [List.foldl_cons]
    obtain ⟨rest, hrest, hmem⟩ := ih (expandStep P r)
    by_cases hf : P.any (fun pfx => HasPrefix r.InternalID pfx) = true
    · rw [expandStep_pos P r hf] at hrest
      refine ⟨r.ExternalID :: rest, ?_, ?_⟩
      · rw [expandStep_pos P r hf, hrest, List.append_assoc, List.singleton_append]
      · intro p hp
        rcases List.mem_cons.1 hp with rfl | hp
        · exact ⟨r, List.mem_cons_self _ _, rfl⟩
        · obtain ⟨x, hx, hxe⟩ := hmem p hp
          exact ⟨x, List.mem_cons_of_mem _ hx, hxe⟩
    · have he : expandStep P r = P := by
        unfold expandStep
        rw [if_neg hf]
      rw [he] at hrest ⊢
      refine ⟨rest, hrest, ?_⟩
      intro p hp
      obtain ⟨x, hx, hxe⟩ := hmem p hp
      exact ⟨x, List.mem_cons_of_mem _ hx, hxe⟩

/-- The stale references of a store without the references of era `era` are those of the
store. -/
theorem stale_filter_era (b : Bucket reference) (era : Int) :
    ((b.filter (fun kv => decide (kv.2.Era ≠ era))).map Prod.snd).filter
        (fun r => decide (r.Era < era)) =
      (b.map Prod.snd).filter (fun r => decide (r.Era < era)) := by
  induction b with
  | nil => rfl
  | cons kv b ih =>
    by_cases h1 : kv.2.Era < era
    · have h2 : kv.2.Era ≠ era := ne_of_lt h1
      simp only [List.filter_cons, List.map_cons, decide_eq_true h1, decide_eq_true h2, if_true, ih]
    · by_cases h2 : kv.2.Era ≠ era
      · simp only [List.filter_cons, List.map_cons, decide_eq_false h1, decide_eq_true h2,
          if_true, Bool.false_eq_true, if_false, ih]
      · simp only [List.filter_cons, List.map_cons, decide_eq_false h1, decide_eq_false h2,
          Bool.false_eq_true, if_false, ih]

/-- C24: `buildReferences` returns the root prefix followed by other ids of stored
references older than `era`; the other id of every stored reference older than `era` whose
internal id starts with the root is among them; the references of era `era` do not change
the result; without purge the store is returned as it was. -/
theorem buildReferences_prefixes (tx : Store) (era : Int) (root : GoString) (purge : Bool) :
    (∃ rest, (buildReferences tx era root purge).2 = root :: rest ∧
      ∀ p ∈ rest, ∃ kv ∈ tx.references, kv.2.Era < era ∧ kv.2.ExternalID = p) ∧
    (∀ kv ∈ tx.references, kv.2.Era < era → HasPrefix kv.2.InternalID root = true →
      kv.2.ExternalID ∈ (buildReferences tx era root purge).2) ∧
    (buildReferences
        { tx with references := tx.references.filter (fun kv => decide (kv.2.Era ≠ era)) }
        era root purge).2 = (buildReferences tx era root purge).2 ∧
    (buildReferences tx era root false).1 = tx := by
  refine ⟨?_, ?_, ?_, buildReferences_fst_false tx era root⟩
  · rw [buildReferences_snd]
    obtain ⟨rest, hrest, hmem⟩ := foldl_expandStep_shape
      (sortSlice ((tx.references.map Prod.snd).filter (fun r => decide (r.Era < era)))) [root]
    refine ⟨rest, hrest, ?_⟩
    intro p hp
    obtain ⟨r, hr, hre⟩ := hmem p hp
    rw [mem_sortSlice, List.mem_filter] at hr
    obtain ⟨kv, hkv, hkr⟩ := List.mem_map.1 hr.1
    refine ⟨kv, hkv, ?_, ?_⟩
    · rw [hkr]; exact of_decide_eq_true hr.2
    · rw [hkr]; exact hre
  · intro kv hkv hera hpre
    rw [buildReferences_snd]
    have hr : kv.2 ∈ sortSlice
        ((tx.references.map Prod.snd).filter (fun r => decide (r.Era < era))) := by
      rw [mem_sortSlice, List.mem_filter]
      exact ⟨List.mem_map.2 ⟨kv, hkv, rfl⟩, decide_eq_true hera⟩
    obtain ⟨a, b, hab⟩ := List.append_of_mem hr
    rw [hab]
    exact mem_expand_of_found a b kv.2 [root] root
      (subset_foldl_expandStep a [root] (List.mem_singleton_self _)) hpre
  · rw [buildReferences_snd, buildReferences_snd]
    show (sortSlice (((tx.references.filter (fun kv => decide (kv.2.Era ≠ era))).map
      Prod.snd).filter (fun r => decide (r.Era < era)))).foldl expandStep [root] = _
    rw [stale_filter_era]

/-- Witness of C24: the store of test `TestSweepWithRef`, whose reference `a:i3 -> b:` is
of era 0, expanded from `a:` in era 1 and in era 0. -/
theorem buildReferences_prefixes_witness :
    [98, 58] ∈ (buildReferences sweepWithRefStore 1 [97, 58] false).2 ∧
    (buildReferences sweepWithRefStore 1 [97, 58] false).2 = [[97, 58], [98, 58]] ∧
    (buildReferences sweepWithRefStore 0 [97, 58] false).2 = [[97, 58]] :=
  ⟨(buildReferences_prefixes sweepWithRefStore 1 [97, 58] false).2.1
      (refKey [97, 58, 105, 51] [98, 58], ⟨[97, 58, 105, 51], [98, 58], 3, 0⟩)
      (by decide) (by decide) (by decide),
   by decide, by decide⟩


/-! The reference key -/

theorem refKey_cons (c : Nat) (i o : GoString) : refKey (c :: i) o = c :: refKey i o := rfl

theorem refKey_nil (o : GoString) : refKey [] o = 1 :: o := rfl

/-- Two reference keys of internal ids without byte 1 are equal only for equal ids. -/
theorem refKey_inj_aux (i1 : GoString) : ∀ (i2 o1 o2 : GoString), 1 ∉ i1 → 1 ∉ i2 →
    refKey i1 o1 = refKey i2 o2 → i1 = i2 ∧ o1 = o2 := by
  induction i1 with
  | nil =>
    intro i2 o1 o2 _ h2 h
    cases i2 with
    | nil =>
      rw [refKey_nil, refKey_nil] at h
      exact ⟨rfl, List.tail_eq_of_cons_eq h⟩
    | cons d i2 =>
      rw [refKey_nil, refKey_cons] at h
      exact absurd (List.mem_cons.2 (Or.inl (List.head_eq_of_cons_eq h))) h2
  | cons c i1 ih =>
    intro i2 o1 o2 h1 h2 h
    cases i2 with
    | nil =>
      rw [refKey_nil, refKey_cons] at h
      exact absurd (List.mem_cons.2 (Or.inl (List.head_eq_of_cons_eq h).symm)) h1
    | cons d i2 =>
      rw [refKey_cons, refKey_cons] at h
      have hcd : c = d := List.head_eq_of_cons_eq h
      obtain ⟨hi, ho⟩ := ih i2 o1 o2 (fun hm => h1 (List.mem_cons_of_mem _ hm))
        (fun hm => h2 (List.mem_cons_of_mem _ hm)) (List.tail_eq_of_cons_eq h)
      exact ⟨by rw [hcd, hi], ho⟩

/-- C25: `refKey` is injective on internal ids without byte 1, so that two different
reference edges of such ids have different keys; the edges `a\x01b -> c` and `a -> b\x01c`
have the same key, and the second `AddReference` of the two stores no reference. -/
theorem refKey_injective (i1 i2 o1 o2 : GoString) (h1 : 1 ∉ i1) (h2 : 1 ∉ i2) :
    (refKey i1 o1 = refKey i2 o2 → i1 = i2 ∧ o1 = o2) ∧
    ((i1, o1) ≠ (i2, o2) → refKey i1 o1 ≠ refKey i2 o2) ∧
    (refKey [97, 1, 98] [99] = refKey [97] [98, 1, 99] ∧
      (([97, 1, 98], [99]) : GoString × GoString) ≠ ([97], [98, 1, 99]) ∧
      (run (newStore 0) [.AddReference [97, 1, 98] [99] 1,
        .AddReference [97] [98, 1, 99] 2]).references =
        [([97, 1, 98, 1, 99], ⟨[97, 1, 98], [99], 1, 0⟩)]) := by
  refine ⟨refKey_inj_aux i1 i2 o1 o2 h1 h2, ?_, by decide, by decide, by decide⟩
  intro hne h
  obtain ⟨hi, ho⟩ := refKey_inj_aux i1 i2 o1 o2 h1 h2 h
  exact hne (by rw [hi, ho])

/-- Witness of C25: the edges `a -> b` and `a -> c` have different keys. -/
theorem refKey_injective_witness :
    (1 : Nat) ∉ ([97] : GoString) ∧ refKey [97] [98] ≠ refKey [97] [99] :=
  ⟨by decide, (refKey_injective [97] [97] [98] [99] (by decide) (by decide)).2.1 (by decide)⟩


/-! The bijection is kept by every operation of the mapping engine -/

/-- The bijection is a property of the two indices. -/
theorem bij_of_frame {s s1 : Store} (h : s.Bijection)
    (hf : s1.internalToExternal = s.internalToExternal)
    (hr : s1.externalToInternal = s.externalToInternal) : s1.Bijection := by
  unfold Store.Bijection Store.Agree at *
  rw [hf, hr]
  exact h

/-- In a bijection no two internal ids have the same external id. -/
theorem bij_injective {s : Store} (h : s.Bijection) {i j : GoString} {ti tj : tuple}
    (hi : s.internalToExternal.Get i = some ti) (hj : s.internalToExternal.Get j = some tj)
    (he : ti.ExternalID = tj.ExternalID) : i = j := by
  have h1 := h.2.1 i ti hi
  have h2 := h.2.1 j tj hj
  rw [he, h2] at h1
  exact (Option.some.inj h1).symm

/-- Dropping a pair from both indices keeps the bijection. -/
theorem bij_dropPair {tx : Store} (h : tx.Bijection) {i : GoString} {t : tuple}
    (hf : tx.internalToExternal.Get i = some t) (m : Bool) : (dropPair tx i t m).Bijection := by
  obtain ⟨hk, ha1, ha2⟩ := h
  refine ⟨?_, ?_, ?_⟩
  · intro k t1 h1
    exact hk k t1 (Bucket.Get_Delete_some h1).2
  · intro k t1 h1
    obtain ⟨hne, h1a⟩ := Bucket.Get_Delete_some h1
    have hr := ha1 k t1 h1a
    have hte : t1.ExternalID ≠ t.ExternalID := by
      intro he
      have hi := ha1 i t hf
      rw [← he, hr] at hi
      exact hne (Option.some.inj hi)
    show (tx.externalToInternal.Delete t.ExternalID).Get t1.ExternalID = some k
    rw [Bucket.Get_Delete_ne _ hte]
    exact hr
  · intro e k h1
    obtain ⟨hne, h1a⟩ := Bucket.Get_Delete_some h1
    obtain ⟨t1, hf1, he1⟩ := ha2 e k h1a
    have hki : k ≠ i := by
      intro hki
      rw [hki, hf] at hf1
      cases hf1
      exact hne he1.symm
    refine ⟨t1, ?_, he1⟩
    show (tx.internalToExternal.Delete i).Get k = some t1
    rw [Bucket.Get_Delete_ne _ hki]
    exact hf1

/-- In a bijection a `removeInternal` that returns has dropped the pair of the id. -/
theorem removeInternal_ok_bij {tx tx1 : Store} {iid : GoString} {m : Bool} (h : tx.Bijection)
    (hu : removeInternal tx iid m = .ok tx1) :
    tx1.internalToExternal = (dropInternal tx iid m).internalToExternal ∧
    tx1.externalToInternal = (dropInternal tx iid m).externalToInternal ∧
    tx1.metadata = tx.metadata := by
  cases hf : tx.internalToExternal.Get iid with
  | none =>
    rw [dropInternal_none hf]
    simp only [removeInternal, readTuple, hf] at hu
    cases hu
    exact ⟨rfl, rfl, rfl⟩
  | some t =>
    rw [dropInternal_some hf]
    have hr := h.2.1 iid t hf
    have hx : removeInternal tx iid m =
        if m then addToGarbage (dropPair tx iid t false) t else .ok (dropPair tx iid t false) := by
      simp [removeInternal, readTuple, hf, deleteFromBucket, hr, bytesEqual, dropPair]
    rw [hx] at hu
    cases m
    · simp only [Bool.false_eq_true, if_false] at hu
      cases hu
      exact ⟨rfl, rfl, rfl⟩
    · simp only [if_true] at hu
      obtain ⟨_, h1⟩ := addToGarbage_ok hu
      rw [h1]
      exact ⟨rfl, rfl, rfl⟩

theorem bij_dropInternal {tx : Store} (h : tx.Bijection) (i : GoString) (m : Bool) :
    (dropInternal tx i m).Bijection := by
  cases hf : tx.internalToExternal.Get i with
  | none => rw [dropInternal_none hf]; exact h
  | some t => rw [dropInternal_some hf]; exact bij_dropPair h hf m

theorem bij_dropExternal {tx : Store} (h : tx.Bijection) (e : GoString) (m : Bool) :
    (dropExternal tx e m).Bijection := by
  cases hr : tx.externalToInternal.Get e with
  | none => rw [dropExternal_none hr]; exact h
  | some j => rw [dropExternal_some hr]; exact bij_dropInternal h j m

/-- In a bijection a `removeExternal` that returns has dropped the pair of the id. -/
theorem removeExternal_ok_bij {tx tx1 : Store} {eid : GoString} {m : Bool} (h : tx.Bijection)
    (hu : removeExternal tx eid m = .ok tx1) :
    tx1.internalToExternal = (dropExternal tx eid m).internalToExternal ∧
    tx1.externalToInternal = (dropExternal tx eid m).externalToInternal ∧
    tx1.metadata = tx.metadata := by
  cases hr : tx.externalToInternal.Get eid with
  | none =>
    rw [dropExternal_none hr]
    simp only [removeExternal, hr] at hu
    cases hu
    exact ⟨rfl, rfl, rfl⟩
  | some iid =>
    obtain ⟨t, hf, hte⟩ := h.2.2 eid iid hr
    rw [dropExternal_some hr, dropInternal_some hf]
    have hx : removeExternal tx eid m =
        if m then addToGarbage (dropPair tx iid t false) t else .ok (dropPair tx iid t false) := by
      simp [removeExternal, readTuple, hr, hf, deleteFromBucket, hte, dropPair]
    rw [hx] at hu
    cases m
    · simp only [Bool.false_eq_true, if_false] at hu
      cases hu
      exact ⟨rfl, rfl, rfl⟩
    · simp only [if_true] at hu
      obtain ⟨_, h1⟩ := addToGarbage_ok hu
      rw [h1]
      exact ⟨rfl, rfl, rfl⟩

/-- Rewriting the tuple of a forward entry with the same two ids keeps the bijection. -/
theorem bij_touch {tx : Store} (h : tx.Bijection) {i : GoString} {t t1 : tuple}
    (hf : tx.internalToExternal.Get i = some t) (hi : t1.InternalID = i)
    (he : t1.ExternalID = t.ExternalID) :
    Store.Bijection { tx with internalToExternal := tx.internalToExternal.insert i t1 } := by
  obtain ⟨hk, ha1, ha2⟩ := h
  refine ⟨?_, ?_, ?_⟩
  · intro k t2 h2
    by_cases hki : k = i
    · subst hki
      have h3 : (tx.internalToExternal.insert k t1).Get k = some t2 := h2
      rw [Bucket.Get_insert_self] at h3
      cases h3
      exact hi
    · have h3 : (tx.internalToExternal.insert i t1).Get k = some t2 := h2
      rw [Bucket.Get_insert_ne _ _ hki] at h3
      exact hk k t2 h3
  · intro k t2 h2
    by_cases hki : k = i
    · subst hki
      have h3 : (tx.internalToExternal.insert k t1).Get k = some t2 := h2
      rw [Bucket.Get_insert_self] at h3
      cases h3
      show tx.externalToInternal.Get t1.ExternalID = some k
      rw [he]
      exact ha1 k t hf
    · have h3 : (tx.internalToExternal.insert i t1).Get k = some t2 := h2
      rw [Bucket.Get_insert_ne _ _ hki] at h3
      exact ha1 k t2 h3
  · intro e k h2
    obtain ⟨t2, hf2, he2⟩ := ha2 e k h2
    by_cases hki : k = i
    · subst hki
      rw [hf] at hf2
      cases hf2
      exact ⟨t1, Bucket.Get_insert_self _ _ _, he.trans he2⟩
    · refine ⟨t2, ?_, he2⟩
      show (tx.internalToExternal.insert i t1).Get k = some t2
      rw [Bucket.Get_insert_ne _ _ hki]
      exact hf2

/-- Adding a pair whose two ids have no entry keeps the bijection. -/
theorem bij_addPair {tx : Store} (h : tx.Bijection) {i e : GoString} (now era : Int)
    (hf : tx.internalToExternal.Get i = none) (hr : tx.externalToInternal.Get e = none) :
    (addPair tx i e now era).Bijection := by
  obtain ⟨hk, ha1, ha2⟩ := h
  refine ⟨?_, ?_, ?_⟩
  · intro k t2 h2
    by_cases hki : k = i
    · subst hki
      have h3 : (tx.internalToExternal.insert k ⟨k, e, now, era⟩).Get k = some t2 := h2
      rw [Bucket.Get_insert_self] at h3
      cases h3
      rfl
    · have h3 : (tx.internalToExternal.insert i ⟨i, e, now, era⟩).Get k = some t2 := h2
      rw [Bucket.Get_insert_ne _ _ hki] at h3
      exact hk k t2 h3
  · intro k t2 h2
    show (tx.externalToInternal.insert e i).Get t2.ExternalID = some k
    by_cases hki : k = i
    · subst hki
      have h3 : (tx.internalToExternal.insert k ⟨k, e, now, era⟩).Get k = some t2 := h2
      rw [Bucket.Get_insert_self] at h3
      cases h3
      exact Bucket.Get_insert_self _ _ _
    · have h3 : (tx.internalToExternal.insert i ⟨i, e, now, era⟩).Get k = some t2 := h2
      rw [Bucket.Get_insert_ne _ _ hki] at h3
      have h4 := ha1 k t2 h3
      have hte : t2.ExternalID ≠ e := by
        intro hte
        rw [hte, hr] at h4
        cases h4
      rw [Bucket.Get_insert_ne _ _ hte]
      exact h4
  · intro e1 k h2
    have h3 : (tx.externalToInternal.insert e i).Get e1 = some k := h2
    show ∃ t, (tx.internalToExternal.insert i ⟨i, e, now, era⟩).Get k = some t ∧ t.ExternalID = e1
    by_cases hee : e1 = e
    · subst hee
      rw [Bucket.Get_insert_self] at h3
      cases h3
      exact ⟨_, Bucket.Get_insert_self _ _ _, rfl⟩
    · rw [Bucket.Get_insert_ne _ _ hee] at h3
      obtain ⟨t2, hf2, he2⟩ := ha2 e1 k h3
      have hki : k ≠ i := by
        intro hki
        rw [hki, hf] at hf2
        cases hf2
      refine ⟨t2, ?_, he2⟩
      rw [Bucket.Get_insert_ne _ _ hki]
      exact hf2

theorem bij_updateEra {tx tx1 : Store} (h : tx.Bijection) {i : GoString} {t : tuple}
    (hf : tx.internalToExternal.Get i = some t) (hu : updateEra t tx = .ok tx1) :
    tx1.Bijection := by
  rcases updateEra_ok hu with h1 | ⟨md, _, _, _, h1⟩
  · rw [h1]; exact h
  · rw [h1, h.1 i t hf]
    exact bij_touch h hf rfl rfl

theorem bij_removeInternal {tx tx1 : Store} {iid : GoString} {m : Bool} (h : tx.Bijection)
    (hu : removeInternal tx iid m = .ok tx1) :
    tx1.Bijection ∧ tx1.internalToExternal.Get iid = none := by
  obtain ⟨h1, h2, _⟩ := removeInternal_ok_bij h hu
  refine ⟨bij_of_frame (bij_dropInternal h iid m) h1 h2, ?_⟩
  rw [h1]
  exact dropInternal_forward_self tx iid m

theorem bij_removeExternal {tx tx1 : Store} {eid : GoString} {m : Bool} (h : tx.Bijection)
    (hu : removeExternal tx eid m = .ok tx1) :
    tx1.Bijection ∧ tx1.externalToInternal.Get eid = none ∧
    ∀ k, tx.internalToExternal.Get k = none → tx1.internalToExternal.Get k = none := by
  obtain ⟨h1, h2, _⟩ := removeExternal_ok_bij h hu
  refine ⟨bij_of_frame (bij_dropExternal h eid m) h1 h2, ?_, ?_⟩
  · rw [h2]
    exact dropExternal_reverse_self tx h.2 eid m
  · intro k hk
    rw [h1]
    exact dropExternal_forward_none tx eid m hk

theorem bij_associateInsert {tx tx1 : Store} {i e : GoString} {now : Int} (h : tx.Bijection)
    (hf : tx.internalToExternal.Get i = none)
    (hu : associateInsert tx i e now = .ok tx1) : tx1.Bijection := by
  cases hr : removeExternal tx e true with
  | error err => simp only [associateInsert, hr] at hu; cases hu
  | ok tx2 =>
    obtain ⟨hb, hre, hfn⟩ := bij_removeExternal h hr
    cases hm : tx2.metadata with
    | none => simp only [associateInsert, hr, readMetadata, hm] at hu; cases hu
    | some m =>
      cases hp : putInBucket .internalToExternal tx2.internalToExternal i
          ⟨i, e, now, m.Era⟩ with
      | error err => simp only [associateInsert, hr, readMetadata, hm, hp] at hu; cases hu
      | ok f =>
        cases hq : putInBucket .externalToInternal tx2.externalToInternal e i with
        | error err => simp only [associateInsert, hr, readMetadata, hm, hp, hq] at hu; cases hu
        | ok r =>
          simp only [associateInsert, hr, readMetadata, hm, hp, hq] at hu
          cases hu
          rw [(putInBucket_ok hp).2, (putInBucket_ok hq).2]
          exact bij_addPair hb now m.Era (hfn i hf) hre

theorem bij_AssociateTx {tx tx1 : Store} {i e : GoString} {now : Int} (h : tx.Bijection)
    (hu : AssociateTx i e now tx = .ok tx1) : tx1.Bijection := by
  have h0 : Store.Bijection { tx with garbage := deleteFromBucket tx.garbage e } :=
    bij_of_frame h rfl rfl
  cases hf : tx.internalToExternal.Get i with
  | none =>
    simp only [AssociateTx, readTuple, hf] at hu
    exact bij_associateInsert h0 hf hu
  | some t =>
    by_cases hte : t.ExternalID = e
    · simp only [AssociateTx, readTuple, hf, hte, if_true] at hu
      exact bij_updateEra h0 hf hu
    · simp only [AssociateTx, readTuple, hf, hte, if_false] at hu
      cases hr : removeInternal { tx with garbage := deleteFromBucket tx.garbage e } i true with
      | error err => rw [hr] at hu; cases hu
      | ok tx2 =>
        rw [hr] at hu
        obtain ⟨hb, hfn⟩ := bij_removeInternal h0 hr
        exact bij_associateInsert hb hfn hu

/-- A transaction that keeps the bijection when it returns keeps it under `Update`. -/
theorem bij_Update {s : Store} {fn : Store → Except identityError Store} (h : s.Bijection)
    (hfn : ∀ s1, fn s = .ok s1 → s1.Bijection) : (Update s fn).1.Bijection := by
  unfold Update
  cases hx : fn s with
  | ok s1 => exact hfn s1 hx
  | error e => exact h

theorem bij_PurgeExternalTx {tx tx1 : Store} {e : GoString} (h : tx.Bijection)
    (hu : PurgeExternalTx e tx = .ok tx1) : tx1.Bijection := by
  cases hr : removeExternal tx e false with
  | error err => simp only [PurgeExternalTx, hr] at hu; cases hu
  | ok tx2 =>
    simp only [PurgeExternalTx, hr] at hu
    cases hu
    exact bij_of_frame (bij_removeExternal h hr).1 rfl rfl

theorem bij_PurgeInternalTx {tx tx1 : Store} {i : GoString} (h : tx.Bijection)
    (hu : PurgeInternalTx i tx = .ok tx1) : tx1.Bijection := by
  cases hr : removeInternal tx i false with
  | error err => simp only [PurgeInternalTx, hr] at hu; cases hu
  | ok tx2 =>
    simp only [PurgeInternalTx, hr] at hu
    cases hu
    exact bij_of_frame (bij_removeInternal h hr).1 rfl rfl

theorem bij_GetExternalTx {tx tx1 : Store} {i : GoString} (h : tx.Bijection)
    (hu : GetExternalTx i tx = .ok tx1) : tx1.Bijection := by
  cases hf : tx.internalToExternal.Get i with
  | none =>
    simp only [GetExternalTx, readTuple, hf] at hu
    cases hu
    exact h
  | some t =>
    simp only [GetExternalTx, readTuple, hf] at hu
    exact bij_updateEra h hf hu

theorem bij_GetInternalTx {tx tx1 : Store} {e : GoString} (h : tx.Bijection)
    (hu : GetInternalTx e tx = .ok tx1) : tx1.Bijection := by
  cases hr : tx.externalToInternal.Get e with
  | none =>
    simp only [GetInternalTx, hr] at hu
    cases hu
    exact h
  | some i =>
    obtain ⟨t, hf, _⟩ := h.2.2 e i hr
    simp only [GetInternalTx, hr, readTuple, hf] at hu
    exact bij_updateEra h hf hu

theorem bij_SweepTx {tx tx1 : Store} {p : GoString} (h : tx.Bijection)
    (hu : SweepTx p tx = .ok tx1) : tx1.Bijection := by
  obtain ⟨_, hf, hr, _⟩ := SweepTx_frame tx tx1 p hu
  exact bij_of_frame h hf hr

theorem bij_BumpEraTx {tx tx1 : Store} (h : tx.Bijection)
    (hu : BumpEraTx tx = .ok tx1) : tx1.Bijection := by
  cases hm : tx.metadata with
  | none => simp only [BumpEraTx, readMetadata, hm] at hu; cases hu
  | some md =>
    simp only [BumpEraTx, readMetadata, hm] at hu
    cases hu
    exact bij_of_frame h rfl rfl

/-- C23: if the tuple at every forward key has that key as its internal id and the
forward and the reverse index agree, the same holds after `Associate`, `RemoveExternal`,
`RemoveInternal`, `PurgeExternal`, `PurgeInternal`, `GetExternal`, `GetInternal`, `Sweep`
and `BumpEra`, whether the call succeeds or fails; and in such a store no two internal
ids have the same external id. -/
theorem mapping_ops_keep_bijection (s : Store)
    (hkey : ∀ k t, s.internalToExternal.Get k = some t → t.InternalID = k)
    (hfwd : ∀ k t, s.internalToExternal.Get k = some t →
      s.externalToInternal.Get t.ExternalID = some k)
    (hrev : ∀ e k, s.externalToInternal.Get e = some k →
      ∃ t, s.internalToExternal.Get k = some t ∧ t.ExternalID = e) :
    (∀ i e now, (Associate s i e now).1.Bijection) ∧
    (∀ e, (RemoveExternal s e).1.Bijection) ∧
    (∀ i, (RemoveInternal s i).1.Bijection) ∧
    (∀ e, (PurgeExternal s e).1.Bijection) ∧
    (∀ i, (PurgeInternal s i).1.Bijection) ∧
    (∀ i, (GetExternal s i).1.Bijection) ∧
    (∀ e, (GetInternal s e).1.Bijection) ∧
    (∀ p, (Sweep s p).1.Bijection) ∧
    (BumpEra s).1.Bijection ∧
    (∀ s1 : Store, s1.Bijection → ∀ i j ti tj, s1.internalToExternal.Get i = some ti →
      s1.internalToExternal.Get j = some tj → ti.ExternalID = tj.ExternalID → i = j) := by
  have h : s.Bijection := ⟨hkey, hfwd, hrev⟩
  refine ⟨fun i e now => bij_Update h (fun s1 hu => bij_AssociateTx h hu),
    fun e => bij_Update h (fun s1 hu => (bij_removeExternal h hu).1),
    fun i => bij_Update h (fun s1 hu => (bij_removeInternal h hu).1),
    fun e => bij_Update h (fun s1 hu => bij_PurgeExternalTx h hu),
    fun i => bij_Update h (fun s1 hu => bij_PurgeInternalTx h hu),
    fun i => bij_Update h (fun s1 hu => bij_GetExternalTx h hu),
    fun e => bij_Update h (fun s1 hu => bij_GetInternalTx h hu),
    fun p => bij_Update h (fun s1 hu => bij_SweepTx h hu),
    bij_Update h (fun s1 hu => bij_BumpEraTx h hu),
    fun s1 h1 i j ti tj hi hj he => bij_injective h1 hi hj he⟩

/-- The bijection of a store whose data model and agreement are checked by evaluation. -/
theorem bij_of_check {s : Store} (hwf : s.WellFormed) (hc : s.agreeCheck = true) :
    s.Bijection :=
  ⟨fun _ _ hg => (fwd_key_of_wf hwf hg).1, agree_of_check hc⟩

/-- Witness of C23: with `i1 -> e1` and `i4 -> e4` stored, `Associate(i1, e4)` displaces
both pairs and the two indices hold the one pair `i1 <-> e4`. -/
theorem mapping_ops_keep_bijection_witness :
    (Associate (run (newStore 0) [.Associate [105, 49] [101, 49] 1,
      .Associate [105, 52] [101, 52] 2]) [105, 49] [101, 52] 3).1.Bijection ∧
    (Associate (run (newStore 0) [.Associate [105, 49] [101, 49] 1,
      .Associate [105, 52] [101, 52] 2]) [105, 49] [101, 52] 3).1.internalToExternal =
      [([105, 49], ⟨[105, 49], [101, 52], 3, 0⟩)] ∧
    (Associate (run (newStore 0) [.Associate [105, 49] [101, 49] 1,
      .Associate [105, 52] [101, 52] 2]) [105, 49] [101, 52] 3).1.externalToInternal =
      [([101, 52], [105, 49])] :=
  ⟨(mapping_ops_keep_bijection (run (newStore 0) [.Associate [105, 49] [101, 49] 1,
      .Associate [105, 52] [101, 52] 2])
      (bij_of_check (by decide) (by decide)).1 (bij_of_check (by decide) (by decide)).2.1
      (bij_of_check (by decide) (by decide)).2.2).1 [105, 49] [101, 52] 3,
   by decide, by decide⟩


/-! Keys that bbolt rejects, and forward tuples written by the reference refresh -/

/-- Counterexample to C3: on a fresh store, whose indices agree and which maps nothing,
`Associate` of the internal id made of 32769 bytes `a` and the external id `e`, both
non-empty, returns an error and stores nothing; afterwards neither id has a mapping. -/
theorem associate_rejects_long_id :
    (newStore 0).Agree ∧
    (List.replicate 32769 97 : GoString) ≠ [] ∧ ([101] : GoString) ≠ [] ∧
    (newStore 0).internalToExternal.Get (List.replicate 32769 97) = none ∧
    (∃ err, (Associate (newStore 0) (List.replicate 32769 97) [101] 1).2 = some err) ∧
    (Associate (newStore 0) (List.replicate 32769 97) [101] 1).1 = newStore 0 ∧
    (GetExternal (Associate (newStore 0) (List.replicate 32769 97) [101] 1).1
      (List.replicate 32769 97)).2 = ([], none) ∧
    (GetInternal (Associate (newStore 0) (List.replicate 32769 97) [101] 1).1
      [101]).2 = ([], none) := by
  have hlen : MaxKeySize < (List.replicate 32769 97 : GoString).length := by
    rw [List.length_replicate]
    decide
  have hne : (List.replicate 32769 97 : GoString) ≠ [] := by
    intro h
    rw [h] at hlen
    exact absurd hlen (by decide)
  have hget : (newStore 0).internalToExternal.Get (List.replicate 32769 97) = none := rfl
  have hrej := Associate_rejected (newStore 0) (List.replicate 32769 97) [101] 1
    (Or.inl (Or.inr hlen)) (fun t ht => by rw [hget] at ht; cases ht)
  refine ⟨(newStore_inv 0).1.2, hne, by decide, hget, hrej.1, hrej.2, ?_, ?_⟩
  · rw [hrej.2, GetExternal_miss _ _ hget]
  · rw [hrej.2, GetInternal_miss (newStore 0) [101] rfl]

/-- C5 (code defect): in the store reached by `Associate("x","y")`, `AddReference("a","")`,
`BumpEra`, `AddReference("a","")`, `BumpEra`, the forward index holds the reference
`a -> ""` beside the stale tuple `x -> y`, and `Sweep("")` fails at the empty garbage key
and marks nothing: `y` has no garbage entry. -/
theorem sweep_fails_on_refreshed_reference :
    Reachable (run (newStore 0) [.Associate [120] [121] 1, .AddReference [97] [] 2, .BumpEra,
      .AddReference [97] [] 3, .BumpEra]) ∧
    (run (newStore 0) [.Associate [120] [121] 1, .AddReference [97] [] 2, .BumpEra,
      .AddReference [97] [] 3, .BumpEra]).metadata = some ⟨[49, 46, 49, 46, 48], 0, 2⟩ ∧
    (run (newStore 0) [.Associate [120] [121] 1, .AddReference [97] [] 2, .BumpEra,
      .AddReference [97] [] 3, .BumpEra]).internalToExternal =
      [([97], ⟨[97], [], 2, 1⟩), ([120], ⟨[120], [121], 1, 0⟩)] ∧
    HasPrefix [120] [] = true ∧
    (Sweep (run (newStore 0) [.Associate [120] [121] 1, .AddReference [97] [] 2, .BumpEra,
      .AddReference [97] [] 3, .BumpEra]) []).2 = some (.writeFailed .garbage) ∧
    (Sweep (run (newStore 0) [.Associate [120] [121] 1, .AddReference [97] [] 2, .BumpEra,
      .AddReference [97] [] 3, .BumpEra]) []).1.garbage = [] := by
  refine ⟨⟨0, _, rfl⟩, by decide, by decide, by decide, by decide, by decide⟩

/-- C19 (code defect): in the store reached by `AddReference("a","")`, `BumpEra`,
`AddReference("a","")`, `BumpEra`, the forward index holds the reference `a -> ""`, and
`Associate("a","")` returns no error and rewrites the era of that tuple from 1 to 2. -/
theorem associate_empty_external_id_succeeds :
    Reachable (run (newStore 0) [.AddReference [97] [] 1, .BumpEra, .AddReference [97] [] 2,
      .BumpEra]) ∧
    (run (newStore 0) [.AddReference [97] [] 1, .BumpEra, .AddReference [97] [] 2,
      .BumpEra]).internalToExternal = [([97], ⟨[97], [], 1, 1⟩)] ∧
    (Associate (run (newStore 0) [.AddReference [97] [] 1, .BumpEra, .AddReference [97] [] 2,
      .BumpEra]) [97] [] 3).2 = none ∧
    (Associate (run (newStore 0) [.AddReference [97] [] 1, .BumpEra, .AddReference [97] [] 2,
      .BumpEra]) [97] [] 3).1.internalToExternal = [([97], ⟨[97], [], 1, 2⟩)] := by
  refine ⟨⟨0, _, rfl⟩, by decide, by decide, by decide⟩

end Identity
